import Mathlib

/-!
# BombsRoyal client state engine (public/game.js)

A shallow embedding of the state-carrying part of `public/game.js`: the module
globals (`player`, `remotePlayers`, `bombs`, `explosions`, `camera`, the last
sent position), the socket event handlers of `connectSocket`, and the per-frame
`update` / `updateExplosions` functions.

Modelling conventions.

* In the statements about one frame or about positions, JavaScript numbers are
  exact rationals (`ℚ`): `0.007` is `7/1000`, `1 / 60` is `1/60`, `0.7` is `7/10`,
  `1.5` is `3/2`, `0.06` is `3/50`.
* The frame on which a bomb detonates depends on the rounding of the repeated
  sums `timeSinceThrow += 1 / 60` and `progress += 0.007`; there the numbers are
  IEEE 754 doubles: rationals on which every arithmetic result is rounded to the
  nearest double (`roundDouble`, `updateDouble`, `runDouble`).
* A JavaScript object used as a map (`remotePlayers`, the roster `playersData`)
  is an association list of its own keys; `lookup`, `assign` and `remove` are
  own-property read, property write and `delete`.  Where the code tests
  `remotePlayers[id]` (lines 127, 156) the names inherited from
  `Object.prototype` are taken into account (`inheritedNames`).  A property write
  that creates a key (lines 105, 120) is an own-property write; the one key for
  which JavaScript does something else, `__proto__`, is not represented there.
* Optional fields are `Option`s; `a || b` is modelled by the truthiness of `a`
  (a missing field, the empty string and the number `0` are falsy).
* `Math.random` is an oracle `rnd` read at a cursor kept in the state.
* `socket.emit` and `playSoundAtVolume` calls are appended to `State.outbox`.
* `Math.sqrt` is a parameter of `dist`; the theorems on the sound volume take it to
  be the real square root.
* A property access on `undefined` (a `TypeError`) is the `none` of `Option`.
-/

namespace BombsRoyal

/-! ## Data model -/

/-- The constant `worldSize` (game.js line 12). -/
def worldSize : ℚ := 3000

/-- An element of the `bombs` array, as pushed by the `bombDropped` handler. -/
structure Bomb where
  startX : ℚ
  startY : ℚ
  targetX : ℚ
  targetY : ℚ
  x : ℚ
  y : ℚ
  progress : ℚ
  exploded : Bool
  radius : ℚ
  ownerId : Option String
  rotationAngle : ℚ
  timeSinceThrow : ℚ
deriving DecidableEq, Repr

/-- An element of the `explosions` array, as pushed by `update`. -/
structure Explosion where
  x : ℚ
  y : ℚ
  radius : ℚ
  maxRadius : ℚ
  opacity : ℚ
  expandSpeed : ℚ
  fadeSpeed : ℚ
deriving DecidableEq, Repr

/-- The `player` global (game.js lines 17-28). -/
structure Player where
  id : Option String
  username : Option String
  x : ℚ
  y : ℚ
  size : ℚ
  speed : ℚ
  dx : ℚ
  dy : ℚ
  color : String
  health : ℚ
deriving DecidableEq, Repr

/-- Player data as sent by the server (a roster entry or a `newPlayer`
payload) and as stored in `remotePlayers`. -/
structure PlayerData where
  id : Option String
  username : Option String
  x : ℚ
  y : ℚ
  size : Option ℚ
  color : Option String
  health : Option ℚ
deriving DecidableEq, Repr

/-- Payload of the `bombDropped` event. -/
structure BombData where
  startX : ℚ
  startY : ℚ
  targetX : ℚ
  targetY : ℚ
  ownerId : Option String
deriving DecidableEq, Repr

/-- The entries of the `keys` global that `update` reads. -/
structure Keys where
  a : Bool
  arrowleft : Bool
  d : Bool
  arrowright : Bool
  w : Bool
  arrowup : Bool
  s : Bool
  arrowdown : Bool
deriving DecidableEq, Repr

/-- Effects that leave the module state: `socket.emit` messages,
`playSoundAtVolume` calls (with the listener position `player.x`, `player.y`
read by that call), and property writes that land on a built-in object reached
through the prototype chain of `remotePlayers` (the member `owner` of
`Object.prototype`; for `__proto__`, `Object.prototype` itself). -/
inductive Output where
  | registerPlayer (username : Option String)
  | playerMove (x y : ℚ)
  | sound (soundPath : String) (sourceX sourceY maxDistance listenerX listenerY : ℚ)
  | builtinWrite (owner property : String) (value : ℚ)
deriving DecidableEq, Repr

/-- The module-level mutable state of game.js. -/
structure State where
  socketId : Option String
  player : Player
  remotePlayers : List (String × PlayerData)
  bombs : List Bomb
  explosions : List Explosion
  cameraX : ℚ
  cameraY : ℚ
  canvasWidth : ℚ
  canvasHeight : ℚ
  lastSentPlayerX : ℚ
  lastSentPlayerY : ℚ
  randomCalls : Nat
  outbox : List Output
deriving DecidableEq, Repr

/-- The module state right after the script has loaded (lines 7-34). -/
def initialState : State :=
  { socketId := none
    player :=
      { id := none, username := none, x := 0, y := 0, size := 20, speed := 4,
        dx := 0, dy := 0, color := "white", health := 90 }
    remotePlayers := []
    bombs := []
    explosions := []
    cameraX := 0
    cameraY := 0
    canvasWidth := 0
    canvasHeight := 0
    lastSentPlayerX := 0
    lastSentPlayerY := 0
    randomCalls := 0
    outbox := [] }

/-! ## JavaScript objects as association lists -/

/-- Own-property read `o[k]`: the list holds the object's own keys, and a key that
is not in it reads as `none`. The prototype chain is not consulted here; the two
guards that depend on it use `inheritedNames` next to `lookup`. -/
def lookup {α : Type} (k : String) : List (String × α) → Option α
  | [] => none
  | (k', v) :: rest => if k' = k then some v else lookup k rest

/-- Property write `o[k] = v`: an existing key keeps its place. -/
def assign {α : Type} (k : String) (v : α) : List (String × α) → List (String × α)
  | [] => [(k, v)]
  | (k', v') :: rest => if k' = k then (k', v) :: rest else (k', v') :: assign k v rest

/-- Property removal `delete o[k]`. -/
def remove {α : Type} (k : String) : List (String × α) → List (String × α)
  | [] => []
  | (k', v) :: rest => if k' = k then remove k rest else (k', v) :: remove k rest

/-- The property key an optional string is coerced to. -/
def keyOf : Option String → String
  | some k => k
  | none => "undefined"

/-- The string `a || b`. -/
def orString (a : Option String) (b : String) : String :=
  match a with
  | some v => if v = "" then b else v
  | none => b

/-- The number `a || b`. -/
def orNumber (a : Option ℚ) (b : ℚ) : ℚ :=
  match a with
  | some v => if v = 0 then b else v
  | none => b

/-! ## Utility functions (lines 43-68) -/

/-- Source function `easeOutQuad` (line 44): `1 - Math.pow(1 - t, 3)`. -/
def easeOutQuad (t : ℚ) : ℚ := 1 - (1 - t) ^ 3

/-- The test `dist(x1, y1, x2, y2) > r` for `r ≥ 0`, with `dist` of line 48.
The square root is monotone, so the test is decided on the squares. -/
def distGreater (x1 y1 x2 y2 r : ℚ) : Bool :=
  decide ((x2 - x1) ^ 2 + (y2 - y1) ^ 2 > r ^ 2)

/-- The string `letters` of `getRandomColor`. -/
def letters : List Char := "0123456789ABCDEF".toList

/-- Source function `getRandomColor` (line 52): `rnd n` is the value of
`Math.floor(Math.random() * 16)` at the `n`-th call of `Math.random`; the
result is the colour and the advanced call count. -/
def getRandomColor (rnd : Nat → Fin 16) (calls : Nat) : String × Nat :=
  (String.mk ('#' :: (List.range 6).map (fun i => letters.getD (rnd (calls + i)).val '0')),
    calls + 6)

/-- Source function `playSoundAtVolume` (line 61), recorded as a call; the volume
it gives the sound is `soundVolume` of the recorded listener position, source and
`maxDistance`. -/
def playSoundAtVolume (s : State) (soundPath : String) (sourceX sourceY maxDistance : ℚ) :
    State :=
  { s with outbox := s.outbox ++
      [Output.sound soundPath sourceX sourceY maxDistance s.player.x s.player.y] }

/-! ## Socket event handlers (lines 90-163) -/

/-- Handler of `connect` (line 90); `sid` is the new `socket.id`. -/
def onConnect (sid : String) (s : State) : State :=
  { s with
    socketId := some sid
    player := { s.player with id := some sid }
    outbox := s.outbox ++ [Output.registerPlayer s.player.username] }

/-- The colour `color || getRandomColor()` of lines 107 and 122, with the
advanced call count of `Math.random`. -/
def colorOrRandom (rnd : Nat → Fin 16) (color : Option String) (calls : Nat) : String × Nat :=
  match color with
  | some c => if c = "" then getRandomColor rnd calls else (c, calls)
  | none => getRandomColor rnd calls

/-- Body of the `for (let id in playersData)` loop of the `currentPlayers`
handler (lines 104-113), for one key `id`. -/
def currentPlayersBody (rnd : Nat → Fin 16) (playersData : List (String × PlayerData))
    (s : State) (id : String) : State :=
  match lookup id playersData with
  | none => s
  | some data =>
    if some id ≠ s.socketId then
      let r := colorOrRandom rnd data.color s.randomCalls
      { s with
        remotePlayers := assign id
          { data with size := some s.player.size, color := some r.1 } s.remotePlayers
        randomCalls := r.2 }
    else
      { s with
        player := { s.player with
          x := data.x
          y := data.y
          color := orString data.color s.player.color
          health := orNumber data.health s.player.health } }

/-- Handler of `currentPlayers` (line 101): the loop runs over the keys of
`playersData` in enumeration order. -/
def onCurrentPlayers (rnd : Nat → Fin 16) (playersData : List (String × PlayerData))
    (s : State) : State :=
  (playersData.map Prod.fst).foldl (currentPlayersBody rnd playersData) s

/-- Handler of `newPlayer` (line 117). -/
def onNewPlayer (rnd : Nat → Fin 16) (newPlayerData : PlayerData) (s : State) : State :=
  if newPlayerData.id ≠ s.socketId then
    let r := colorOrRandom rnd newPlayerData.color s.randomCalls
    { s with
      remotePlayers := assign (keyOf newPlayerData.id)
        { newPlayerData with size := some s.player.size, color := some r.1 } s.remotePlayers
      randomCalls := r.2 }
  else s

/-- The names every plain object, so `remotePlayers`, inherits from
`Object.prototype`; their values (functions, and `Object.prototype` itself for
`__proto__`) are truthy. -/
def inheritedNames : List String :=
  ["__proto__", "constructor", "hasOwnProperty", "isPrototypeOf", "propertyIsEnumerable",
   "toLocaleString", "toString", "valueOf", "__defineGetter__", "__defineSetter__",
   "__lookupGetter__", "__lookupSetter__"]

/-- Handler of `playerMoved` (line 126). The guard `remotePlayers[data.id]` holds
for an own key and also, through the prototype chain, for an inherited name: lines
128-129 then write `x` and `y` onto that built-in object. -/
def onPlayerMoved (id : String) (x y : ℚ) (s : State) : State :=
  match lookup id s.remotePlayers with
  | some entry => { s with remotePlayers := assign id { entry with x := x, y := y } s.remotePlayers }
  | none =>
    if id ∈ inheritedNames then
      { s with outbox := s.outbox ++
          [Output.builtinWrite id "x" x, Output.builtinWrite id "y" y] }
    else s

/-- The object pushed to `bombs` at lines 135-148. -/
def freshBomb (bombData : BombData) : Bomb :=
  { startX := bombData.startX
    startY := bombData.startY
    targetX := bombData.targetX
    targetY := bombData.targetY
    x := bombData.startX
    y := bombData.startY
    progress := 0
    exploded := false
    radius := 10
    ownerId := match bombData.ownerId with
      | some o => if o = "" then none else some o
      | none => none
    rotationAngle := 0
    timeSinceThrow := 0 }

/-- Handler of `bombDropped` (line 133). -/
def onBombDropped (bombData : BombData) (s : State) : State :=
  playSoundAtVolume { s with bombs := s.bombs ++ [freshBomb bombData] } "Nade-Throw.mp3"
    bombData.startX bombData.startY 800

/-- Handler of `playerHealthUpdate` (line 153). The guard `remotePlayers[id]` of
line 156 holds for an own key and also for an inherited name, where line 157 writes
`health` onto that built-in object. -/
def onPlayerHealthUpdate (id : String) (health : ℚ) (s : State) : State :=
  if some id = s.player.id then
    { s with player := { s.player with health := health } }
  else
    match lookup id s.remotePlayers with
    | some entry =>
      { s with remotePlayers := assign id { entry with health := some health } s.remotePlayers }
    | none =>
      if id ∈ inheritedNames then
        { s with outbox := s.outbox ++ [Output.builtinWrite id "health" health] }
      else s

/-- Handler of `playerDisconnected` (line 161). -/
def onPlayerDisconnected (playerId : String) (s : State) : State :=
  { s with remotePlayers := remove playerId s.remotePlayers }

/-- The inbound socket events. -/
inductive Event where
  | connect (sid : String)
  | currentPlayers (playersData : List (String × PlayerData))
  | newPlayer (newPlayerData : PlayerData)
  | playerMoved (id : String) (x y : ℚ)
  | bombDropped (bombData : BombData)
  | playerHealthUpdate (id : String) (health : ℚ)
  | playerDisconnected (playerId : String)
deriving DecidableEq, Repr

/-- Dispatch of an inbound event to its handler. -/
def handle (rnd : Nat → Fin 16) (e : Event) (s : State) : State :=
  match e with
  | Event.connect sid => onConnect sid s
  | Event.currentPlayers playersData => onCurrentPlayers rnd playersData s
  | Event.newPlayer newPlayerData => onNewPlayer rnd newPlayerData s
  | Event.playerMoved id x y => onPlayerMoved id x y s
  | Event.bombDropped bombData => onBombDropped bombData s
  | Event.playerHealthUpdate id health => onPlayerHealthUpdate id health s
  | Event.playerDisconnected playerId => onPlayerDisconnected playerId s

/-! ## The frame update (lines 170-254) -/

/-- Source function `updateCamera` (line 170). -/
def updateCamera (s : State) : State :=
  { s with
    cameraX := s.player.x - s.canvasWidth / 2
    cameraY := s.player.y - s.canvasHeight / 2 }

/-- Lines 176-191 of `update`: input, integration and clamp of the local
player. -/
def movePlayer (keys : Keys) (s : State) : State :=
  let left := keys.a || keys.arrowleft
  let right := keys.d || keys.arrowright
  let dx : ℚ := if left && !right then -s.player.speed
    else if right && !left then s.player.speed else 0
  let up := keys.w || keys.arrowup
  let down := keys.s || keys.arrowdown
  let dy : ℚ := if up && !down then -s.player.speed
    else if down && !up then s.player.speed else 0
  let x1 := s.player.x + dx
  let y1 := s.player.y + dy
  { s with player := { s.player with
      dx := dx
      dy := dy
      x := max s.player.size (min (worldSize - s.player.size) x1)
      y := max s.player.size (min (worldSize - s.player.size) y1) } }

/-- Lines 195-200 of `update`: the movement message, sent on change only. -/
def emitMove (s : State) : State :=
  if s.player.x ≠ s.lastSentPlayerX ∨ s.player.y ≠ s.lastSentPlayerY then
    { s with
      outbox := s.outbox ++ [Output.playerMove s.player.x s.player.y]
      lastSentPlayerX := s.player.x
      lastSentPlayerY := s.player.y }
  else s

/-- The bomb object after lines 206-221 of one loop iteration, in exact
arithmetic. Iterated over many frames the exact sums differ from the sums on
doubles (90 times `1 / 60` is `3/2` here and `1.4999999999999996` on doubles); the
frame on which a bomb detonates is settled on `stepBombDouble`. -/
def stepBomb (bomb : Bomb) : Bomb :=
  let aged := { bomb with timeSinceThrow := bomb.timeSinceThrow + 1 / 60 }
  if !aged.exploded then
    let progress := aged.progress + 7 / 1000
    let t := min progress 1
    let easedT := easeOutQuad t
    { aged with
      progress := progress
      x := aged.startX + (aged.targetX - aged.startX) * easedT
      y := aged.startY + (aged.targetY - aged.startY) * easedT
      rotationAngle :=
        if distGreater aged.startX aged.startY aged.targetX aged.targetY 100 then
          aged.rotationAngle + 1 / 10
        else aged.rotationAngle + 3 / 100 }
  else aged

/-- The explosion/removal test of lines 208 and 224, on the bomb object as it
is when line 224 is reached. -/
def detonates (bomb : Bomb) : Bool :=
  !bomb.exploded && (decide (bomb.progress ≥ 7 / 10) || decide (bomb.timeSinceThrow ≥ 3 / 2))

/-- The object pushed to `explosions` at lines 225-233. -/
def newExplosion (bomb : Bomb) : Explosion :=
  { x := bomb.x, y := bomb.y, radius := 0, maxRadius := 300, opacity := 1,
    expandSpeed := 20, fadeSpeed := 3 / 50 }

/-- The `for (let i = bombs.length - 1; i >= 0; i--)` loop of lines 203-239;
the first argument is `i + 1`. -/
def bombLoop : Nat → State → Option State
  | 0, s => some s
  | i + 1, s =>
    match s.bombs[i]? with
    | none => none
    | some bomb =>
      let bomb1 := stepBomb bomb
      if detonates bomb1 then
        let s1 := { s with
          bombs := s.bombs.set i bomb1
          explosions := s.explosions ++ [newExplosion bomb1] }
        let s2 := playSoundAtVolume s1 "Nade-Boom.mp3" bomb1.x bomb1.y 1000
        bombLoop i { s2 with bombs := s2.bombs.eraseIdx i }
      else
        bombLoop i { s with bombs := s.bombs.set i bomb1 }

/-- Lines 203-239 of `update`. -/
def updateBombs (s : State) : Option State := bombLoop s.bombs.length s

/-- The loop of `updateExplosions` (lines 245-253); the first argument is
`i + 1`. -/
def explosionLoop : Nat → List Explosion → Option (List Explosion)
  | 0, es => some es
  | i + 1, es =>
    match es[i]? with
    | none => none
    | some exp =>
      let exp1 := { exp with
        radius := exp.radius + exp.expandSpeed
        opacity := exp.opacity - exp.fadeSpeed }
      if exp1.radius ≥ exp1.maxRadius then
        explosionLoop i ((es.set i exp1).eraseIdx i)
      else
        explosionLoop i (es.set i exp1)

/-- Source function `updateExplosions` (line 244). -/
def updateExplosions (s : State) : Option State :=
  (explosionLoop s.explosions.length s.explosions).map
    (fun es => { s with explosions := es })

/-- Source function `update` (line 175). -/
def update (keys : Keys) (s : State) : Option State :=
  (updateBombs (emitMove (updateCamera (movePlayer keys s)))).bind updateExplosions

/-- One step of the client: an inbound event, or a frame with the key state
read by that frame. -/
inductive Step where
  | event (e : Event)
  | tick (keys : Keys)
deriving DecidableEq, Repr

/-- Effect of one step. -/
def step (rnd : Nat → Fin 16) (st : Step) (s : State) : Option State :=
  match st with
  | Step.event e => some (handle rnd e s)
  | Step.tick keys => update keys s

/-- Effect of a sequence of steps, first to last. -/
def run (rnd : Nat → Fin 16) : List Step → State → Option State
  | [], s => some s
  | st :: rest, s => (step rnd st s).bind (run rnd rest)

/-! ## The frame update on doubles

The numbers of game.js are IEEE 754 doubles. The sum of 90 times `1 / 60` is not
`1.5` in doubles, so the frame on which the age test of line 224 first holds is
decided by rounding. This section restates `update` with every arithmetic result
rounded to the nearest double. -/

/-- The floor of the binary logarithm of `n`, for `1 ≤ n < 2 ^ 4096`, by binary
search on the bit length. -/
def log2Floor (n : Nat) : Nat :=
  ([2048, 1024, 512, 256, 128, 64, 32, 16, 8, 4, 2, 1].foldl
    (fun (p : Nat × Nat) (k : Nat) => if 2 ^ k ≤ p.1 then (p.1 / 2 ^ k, p.2 + k) else p)
    (n, 0)).2

/-- The double nearest to `x`, ties to even (IEEE 754 binary64, subnormals
included), for `|x| < 2 ^ 1024`: with `e` the larger of the binary exponent of `x` and
`-1022`, the doubles around `x` are the multiples of `2 ^ (e - 52)`, and
`t = e - 52 + 1074`. Overflow to `Infinity`, `NaN` and the sign of zero are not
represented. -/
def roundDouble (x : ℚ) : ℚ :=
  if x = 0 then 0 else
    let num := x.num.natAbs
    let e : Int := max ((log2Floor (num * 2 ^ 1100 / x.den) : Int) - 1100) (-1022)
    let t : Nat := (e + 1022).toNat
    let q := num * 2 ^ 1074
    let d := x.den * 2 ^ t
    let n0 := q / d
    let rem := q % d
    let n := if 2 * rem < d then n0 else if d < 2 * rem then n0 + 1
      else if n0 % 2 = 0 then n0 else n0 + 1
    let r : ℚ := mkRat ((n * 2 ^ t : Nat) : Int) (2 ^ 1074)
    if 0 < x then r else -r

/-- Source function `easeOutQuad` (line 44) on doubles; `Math.pow` is taken to
return the double nearest to the exact cube. -/
def easeOutQuadDouble (t : ℚ) : ℚ :=
  roundDouble (1 - roundDouble (roundDouble (1 - t) ^ 3))

/-- The bomb object after lines 206-221 of one loop iteration, on doubles: `1 / 60`,
`0.007`, `0.1` and `0.03` are the doubles nearest to these decimals. The test of
line 217 is decided on the exact squares. -/
def stepBombDouble (bomb : Bomb) : Bomb :=
  let aged := { bomb with
    timeSinceThrow := roundDouble (bomb.timeSinceThrow + roundDouble (1 / 60)) }
  if !aged.exploded then
    let progress := roundDouble (aged.progress + roundDouble (7 / 1000))
    let t := min progress 1
    let easedT := easeOutQuadDouble t
    { aged with
      progress := progress
      x := roundDouble (aged.startX + roundDouble (roundDouble (aged.targetX - aged.startX) *
        easedT))
      y := roundDouble (aged.startY + roundDouble (roundDouble (aged.targetY - aged.startY) *
        easedT))
      rotationAngle :=
        if distGreater aged.startX aged.startY aged.targetX aged.targetY 100 then
          roundDouble (aged.rotationAngle + roundDouble (1 / 10))
        else roundDouble (aged.rotationAngle + roundDouble (3 / 100)) }
  else aged

/-- The explosion/removal test of lines 208 and 224 on doubles: `0.7` is the double
nearest to `7/10`, and `1.5` is a double. -/
def detonatesDouble (bomb : Bomb) : Bool :=
  !bomb.exploded &&
    (decide (bomb.progress ≥ roundDouble (7 / 10)) || decide (bomb.timeSinceThrow ≥ 3 / 2))

/-- The object pushed to `explosions` at lines 225-233, on doubles. -/
def newExplosionDouble (bomb : Bomb) : Explosion :=
  { x := bomb.x, y := bomb.y, radius := 0, maxRadius := 300, opacity := 1,
    expandSpeed := 20, fadeSpeed := roundDouble (3 / 50) }

/-- The loop of lines 203-239 on doubles; the first argument is `i + 1`. -/
def bombLoopDouble : Nat → State → Option State
  | 0, s => some s
  | i + 1, s =>
    match s.bombs[i]? with
    | none => none
    | some bomb =>
      let bomb1 := stepBombDouble bomb
      if detonatesDouble bomb1 then
        let s1 := { s with
          bombs := s.bombs.set i bomb1
          explosions := s.explosions ++ [newExplosionDouble bomb1] }
        let s2 := playSoundAtVolume s1 "Nade-Boom.mp3" bomb1.x bomb1.y 1000
        bombLoopDouble i { s2 with bombs := s2.bombs.eraseIdx i }
      else
        bombLoopDouble i { s with bombs := s.bombs.set i bomb1 }

/-- Lines 203-239 of `update` on doubles. -/
def updateBombsDouble (s : State) : Option State := bombLoopDouble s.bombs.length s

/-- The loop of `updateExplosions` (lines 245-253) on doubles; the first argument
is `i + 1`. -/
def explosionLoopDouble : Nat → List Explosion → Option (List Explosion)
  | 0, es => some es
  | i + 1, es =>
    match es[i]? with
    | none => none
    | some exp =>
      let exp1 := { exp with
        radius := roundDouble (exp.radius + exp.expandSpeed)
        opacity := roundDouble (exp.opacity - exp.fadeSpeed) }
      if exp1.radius ≥ exp1.maxRadius then
        explosionLoopDouble i ((es.set i exp1).eraseIdx i)
      else
        explosionLoopDouble i (es.set i exp1)

/-- Source function `updateExplosions` (line 244) on doubles. -/
def updateExplosionsDouble (s : State) : Option State :=
  (explosionLoopDouble s.explosions.length s.explosions).map
    (fun es => { s with explosions := es })

/-- Source function `updateCamera` (line 170) on doubles. -/
def updateCameraDouble (s : State) : State :=
  { s with
    cameraX := roundDouble (s.player.x - roundDouble (s.canvasWidth / 2))
    cameraY := roundDouble (s.player.y - roundDouble (s.canvasHeight / 2)) }

/-- Lines 176-191 of `update` on doubles. -/
def movePlayerDouble (keys : Keys) (s : State) : State :=
  let left := keys.a || keys.arrowleft
  let right := keys.d || keys.arrowright
  let dx : ℚ := if left && !right then -s.player.speed
    else if right && !left then s.player.speed else 0
  let up := keys.w || keys.arrowup
  let down := keys.s || keys.arrowdown
  let dy : ℚ := if up && !down then -s.player.speed
    else if down && !up then s.player.speed else 0
  let x1 := roundDouble (s.player.x + dx)
  let y1 := roundDouble (s.player.y + dy)
  { s with player := { s.player with
      dx := dx
      dy := dy
      x := max s.player.size (min (roundDouble (worldSize - s.player.size)) x1)
      y := max s.player.size (min (roundDouble (worldSize - s.player.size)) y1) } }

/-- Source function `update` (line 175) on doubles. -/
def updateDouble (keys : Keys) (s : State) : Option State :=
  (updateBombsDouble (emitMove (updateCameraDouble (movePlayerDouble keys s)))).bind
    updateExplosionsDouble

/-- Effect of one step on doubles (the event handlers do no arithmetic). -/
def stepDouble (rnd : Nat → Fin 16) (st : Step) (s : State) : Option State :=
  match st with
  | Step.event e => some (handle rnd e s)
  | Step.tick keys => updateDouble keys s

/-- Effect of a sequence of steps on doubles, first to last. -/
def runDouble (rnd : Nat → Fin 16) : List Step → State → Option State
  | [], s => some s
  | st :: rest, s => (stepDouble rnd st s).bind (runDouble rnd rest)

/-- The bombs that stay in `bombs` after the loop of lines 203-239, on doubles. -/
def survivorsDouble (bs : List Bomb) : List Bomb :=
  (bs.map stepBombDouble).filter (fun b => !detonatesDouble b)

/-- The explosions pushed by the loop of lines 203-239 on doubles, in push order. -/
def blastsDouble (bs : List Bomb) : List Explosion :=
  ((bs.reverse.map stepBombDouble).filter detonatesDouble).map newExplosionDouble

/-- The sound calls made by the loop of lines 203-239 on doubles, in call order. -/
def boomsDouble (px py : ℚ) (bs : List Bomb) : List Output :=
  ((bs.reverse.map stepBombDouble).filter detonatesDouble).map
    (fun b => Output.sound "Nade-Boom.mp3" b.x b.y 1000 px py)

/-- The explosions that stay in `explosions` after `updateExplosions`, on doubles. -/
def grownDouble (es : List Explosion) : List Explosion :=
  (es.map (fun e => { e with
      radius := roundDouble (e.radius + e.expandSpeed)
      opacity := roundDouble (e.opacity - e.fadeSpeed) })).filter
    (fun e => decide (¬ e.radius ≥ e.maxRadius))

/-- The age of a bomb after one more frame, on doubles (line 206). -/
def ageStep (t : ℚ) : ℚ := roundDouble (t + roundDouble (1 / 60))

/-- The progress of a live bomb after one more frame, on doubles (line 209). -/
def progressStep (p : ℚ) : ℚ := roundDouble (p + roundDouble (7 / 1000))

/-! ## Closed forms used by the proofs -/

/-- The bombs that stay in `bombs` after the loop of lines 203-239. -/
def survivors (bs : List Bomb) : List Bomb :=
  (bs.map stepBomb).filter (fun b => !detonates b)

/-- The explosions pushed by the loop of lines 203-239, in push order (the
loop walks `bombs` from the last index down). -/
def blasts (bs : List Bomb) : List Explosion :=
  ((bs.reverse.map stepBomb).filter detonates).map newExplosion

/-- The sound calls made by the loop of lines 203-239, in call order. -/
def booms (px py : ℚ) (bs : List Bomb) : List Output :=
  ((bs.reverse.map stepBomb).filter detonates).map
    (fun b => Output.sound "Nade-Boom.mp3" b.x b.y 1000 px py)

/-- The explosions that stay in `explosions` after `updateExplosions`. -/
def grown (es : List Explosion) : List Explosion :=
  (es.map (fun e => { e with
      radius := e.radius + e.expandSpeed
      opacity := e.opacity - e.fadeSpeed })).filter
    (fun e => decide (¬ e.radius ≥ e.maxRadius))

/-- No key pressed. -/
def noKeys : Keys :=
  { a := false, arrowleft := false, d := false, arrowright := false,
    w := false, arrowup := false, s := false, arrowdown := false }

/-- The `bombDropped` payload of the example: start `(0, 0)`, target `(200, 0)`. -/
def exampleThrow (ownerId : Option String) : BombData :=
  { startX := 0, startY := 0, targetX := 200, targetY := 0, ownerId := ownerId }

/-- The local player is inside the world: both coordinates lie in
`[player.size, worldSize - player.size]`. -/
def localClamped (s : State) : Prop :=
  s.player.size ≤ s.player.x ∧ s.player.x ≤ worldSize - s.player.size ∧
    s.player.size ≤ s.player.y ∧ s.player.y ≤ worldSize - s.player.size

/-- Where a step puts the local player, if it places it at all: `some true` for a
position inside `[20, 2980]` on both axes, `some false` for one outside. A frame
clamps the position (lines 190-191); a `currentPlayers` event adopts the roster entry
of the local id `socket.id`, if the roster has one (lines 109-110); no other step
writes `player.x` or `player.y`. -/
def placement (s : State) : Step → Option Bool
  | Step.tick _ => some true
  | Step.event (Event.currentPlayers playersData) =>
    match s.socketId with
    | some sid =>
      (lookup sid playersData).map
        (fun d => decide (20 ≤ d.x ∧ d.x ≤ 2980 ∧ 20 ≤ d.y ∧ d.y ≤ 2980))
    | none => none
  | _ => none

/-- Whether the most recent placement of the local player in a run put it inside
`[20, 2980]`; `inside` is the answer when the run places it nowhere. -/
def placedInside (rnd : Nat → Fin 16) : List Step → State → Bool → Bool
  | [], _, inside => inside
  | st :: rest, s, inside =>
    match step rnd st s with
    | some s' => placedInside rnd rest s' ((placement s st).getD inside)
    | none => inside

/-- The roster `{A: {x: 0, y: 0}, self: {x: 100, y: 100}}`: a remote entry outside
`[20, 2980]`, the entry of the local id inside. -/
def cornerRoster : List (String × PlayerData) :=
  [("A", { id := none, username := none, x := 0, y := 0, size := none,
           color := none, health := none }),
   ("self", { id := none, username := none, x := 100, y := 100, size := none,
              color := none, health := none })]

/-- The state of the movement example: the local player at `x = 10` with
`size = 20` and `speed = 4`. -/
def exampleNearEdge : State :=
  { initialState with player := { initialState.player with x := 10, y := 100 } }

/-- Only the key `a` (left) is pressed. -/
def leftOnly : Keys := { noKeys with a := true }

/-- A roster whose entry for the local id `"self"` reports health `0`. -/
def zeroHealthRoster : List (String × PlayerData) :=
  [("self", { id := none, username := none, x := 5, y := 5, size := none,
              color := none, health := some 0 })]

/-- The roster `{A: {x: 1, y: 2}, self: {x: 5, y: 5, health: 80}}`. -/
def exampleRoster : List (String × PlayerData) :=
  [("A", { id := none, username := none, x := 1, y := 2, size := none,
           color := none, health := none }),
   ("self", { id := none, username := none, x := 5, y := 5, size := none,
              color := none, health := some 80 })]

/-- Steps that never add a key to `remotePlayers`: frames and the events
`playerMoved`, `playerHealthUpdate`, `bombDropped`, `playerDisconnected`. -/
def cannotCreate : Step → Bool
  | Step.tick _ => true
  | Step.event (Event.playerMoved _ _ _) => true
  | Step.event (Event.playerHealthUpdate _ _) => true
  | Step.event (Event.bombDropped _) => true
  | Step.event (Event.playerDisconnected _) => true
  | _ => false

/-- The step of a `playerMoved` event given as `(id, x, y)`. -/
def movedStep (m : String × ℚ × ℚ) : Step :=
  Step.event (Event.playerMoved m.1 m.2.1 m.2.2)

/-- A state with two live bombs: one that the next frame keeps and one whose age
reaches `3/2` on the next frame while its progress is below `7/10`. -/
def twoBombs : State :=
  { initialState with bombs :=
      [ { startX := 0, startY := 0, targetX := 100, targetY := 0, x := 0, y := 0,
          progress := 0, exploded := false, radius := 10, ownerId := none,
          rotationAngle := 0, timeSinceThrow := 0 },
        { startX := 0, startY := 0, targetX := 100, targetY := 0, x := 0, y := 0,
          progress := 1 / 2, exploded := false, radius := 10, ownerId := none,
          rotationAngle := 0, timeSinceThrow := 149 / 100 } ] }

/-- An explosion as it is pushed at lines 225-233, centred at `(x, y)`. -/
def freshExplosion (x y : ℚ) : Explosion :=
  { x := x, y := y, radius := 0, maxRadius := 300, opacity := 1, expandSpeed := 20,
    fadeSpeed := 3 / 50 }

/-- The object `exp` after lines 247-248 of `updateExplosions`. -/
def advanceExplosion (e : Explosion) : Explosion :=
  { e with radius := e.radius + e.expandSpeed, opacity := e.opacity - e.fadeSpeed }

/-- Calls of `updateExplosions`, `n` times in a row. -/
def updateExplosionsTimes : Nat → State → Option State
  | 0, s => some s
  | n + 1, s => (updateExplosions s).bind (updateExplosionsTimes n)

/-- An explosion that has already faded to opacity `0` but is still small. -/
def fadedExplosion : Explosion :=
  { x := 0, y := 0, radius := 0, maxRadius := 300, opacity := 0, expandSpeed := 20,
    fadeSpeed := 3 / 50 }

/-- Number of `playerMove` messages in a list of outbound calls. -/
def countMoves : List Output → Nat
  | [] => 0
  | Output.playerMove _ _ :: rest => countMoves rest + 1
  | _ :: rest => countMoves rest

/-- The `playerMove` message of lines 196-200 for the position `(x, y)` when the
last sent position is `(lastX, lastY)`: one message on a change, none otherwise. -/
def moveMessage (x y lastX lastY : ℚ) : List Output :=
  if x ≠ lastX ∨ y ≠ lastY then [Output.playerMove x y] else []

/-- Steps under which the local id stays fixed and every `newPlayer` payload carries
an id: all steps except `connect` and a `newPlayer` without `id`. -/
def keepsSelfOut : Step → Bool
  | Step.event (Event.connect _) => false
  | Step.event (Event.newPlayer newPlayerData) => newPlayerData.id.isSome
  | _ => true

/-- A remote player `"B"` as announced by `newPlayer`. -/
def playerB : PlayerData :=
  { id := some "B", username := none, x := 1, y := 2, size := none, color := some "red",
    health := some 100 }

/-- The state after `connect` with id `"self"` and the arrival of `playerB`. -/
def withPlayerB : State :=
  handle (fun _ => 0) (Event.newPlayer playerB)
    (handle (fun _ => 0) (Event.connect "self") initialState)

/-- A live bomb whose position is the eased interpolation of its progress:
`x = startX + (targetX - startX) * e`, `y = startY + (targetY - startY) * e` with
`e = 1 - (1 - min(progress, 1))^3`. -/
def onTrack (b : Bomb) : Prop :=
  b.exploded = false ∧
    b.x = b.startX + (b.targetX - b.startX) * (1 - (1 - min b.progress 1) ^ 3) ∧
    b.y = b.startY + (b.targetY - b.startY) * (1 - (1 - min b.progress 1) ^ 3)

/-- The value `v` lies between `a` and `b`, inclusive, whichever is larger. -/
def between (a b v : ℚ) : Prop := min a b ≤ v ∧ v ≤ max a b

/-- Source function `dist` (line 48):
`Math.sqrt(Math.pow(x2 - x1, 2) + Math.pow(y2 - y1, 2))`, with the library function
`Math.sqrt` given as `sqrt`. -/
def dist {K : Type} [Field K] (sqrt : K → K) (x1 y1 x2 y2 : K) : K :=
  sqrt ((x2 - x1) ^ 2 + (y2 - y1) ^ 2)

/-- The `volume` computed at lines 62-63 of `playSoundAtVolume` for the local player
at `(playerX, playerY)`: `Math.max(0, 1 - distance / maxDistance)`. -/
def soundVolume {K : Type} [LinearOrderedField K] (sqrt : K → K)
    (playerX playerY sourceX sourceY maxDistance : K) : K :=
  max 0 (1 - dist sqrt playerX playerY sourceX sourceY / maxDistance)

/-! ## Lemmas on objects -/

theorem lookup_assign_self {α : Type} (k : String) (v : α) (o : List (String × α)) :
    lookup k (assign k v o) = some v := by
  induction o with
  | nil => simp [assign, lookup]
  | cons p rest ih =>
    obtain ⟨k', v'⟩ := p
    by_cases h : k' = k
    · simp [assign, lookup, h]
    · simp [assign, lookup, h, ih]

theorem lookup_assign_ne {α : Type} (k j : String) (v : α) (o : List (String × α))
    (h : j ≠ k) : lookup j (assign k v o) = lookup j o := by
  have hkj : ¬ k = j := fun e => h e.symm
  induction o with
  | nil => simp [assign, lookup, hkj]
  | cons p rest ih =>
    obtain ⟨k', v'⟩ := p
    by_cases hk : k' = k
    · subst hk
      simp [assign, lookup, hkj]
    · by_cases hj : k' = j
      · subst hj
        simp [assign, lookup, hk]
      · simp [assign, lookup, hk, hj, ih]

theorem lookup_remove_self {α : Type} (k : String) (o : List (String × α)) :
    lookup k (remove k o) = none := by
  induction o with
  | nil => simp [remove, lookup]
  | cons p rest ih =>
    obtain ⟨k', v'⟩ := p
    by_cases h : k' = k
    · simp [remove, h, ih]
    · simp [remove, h, lookup, ih]

theorem lookup_remove_ne {α : Type} (k j : String) (o : List (String × α)) (h : j ≠ k) :
    lookup j (remove k o) = lookup j o := by
  have hkj : ¬ k = j := fun e => h e.symm
  induction o with
  | nil => simp [remove, lookup]
  | cons p rest ih =>
    obtain ⟨k', v'⟩ := p
    by_cases hk : k' = k
    · subst hk
      simp [remove, lookup, hkj, ih]
    · by_cases hj : k' = j
      · subst hj
        simp [remove, hk, lookup]
      · simp [remove, hk, lookup, hj, ih]

/-! ## Lemmas on the backwards splice loops -/

theorem getElem?_at_length {α : Type} (pre : List α) (b : α) (suf : List α) :
    (pre ++ b :: suf)[pre.length]? = some b := by
  induction pre with
  | nil => simp
  | cons a rest ih => simpa using ih

theorem set_at_length {α : Type} (pre : List α) (b c : α) (suf : List α) :
    (pre ++ b :: suf).set pre.length c = pre ++ c :: suf := by
  induction pre with
  | nil => simp
  | cons a rest ih => simp

theorem eraseIdx_at_length {α : Type} (pre : List α) (b : α) (suf : List α) :
    (pre ++ b :: suf).eraseIdx pre.length = pre ++ suf := by
  induction pre with
  | nil => simp
  | cons a rest ih => simpa using ih

theorem survivors_append (pre suf : List Bomb) :
    survivors (pre ++ suf) = survivors pre ++ survivors suf := by
  simp [survivors]

theorem blasts_append (pre suf : List Bomb) :
    blasts (pre ++ suf) = blasts suf ++ blasts pre := by
  simp [blasts]

theorem booms_append (px py : ℚ) (pre suf : List Bomb) :
    booms px py (pre ++ suf) = booms px py suf ++ booms px py pre := by
  simp [booms]

/-- The bomb loop started at index `pre.length - 1` on `pre ++ suf` finishes,
leaves `suf` alone and treats every bomb of `pre` exactly once. -/
theorem bombLoop_append (pre : List Bomb) :
    ∀ (suf : List Bomb) (s : State), s.bombs = pre ++ suf →
      bombLoop pre.length s = some { s with
        bombs := survivors pre ++ suf
        explosions := s.explosions ++ blasts pre
        outbox := s.outbox ++ booms s.player.x s.player.y pre } := by
  induction pre using List.reverseRecOn with
  | nil =>
    intro suf s h
    cases s
    simp only at h
    simp [bombLoop, survivors, blasts, booms, h]
  | append_singleton init b ih =>
    intro suf s h
    have hb : s.bombs[init.length]? = some b := by
      rw [h, List.append_assoc]
      exact getElem?_at_length init b suf
    rw [List.length_append, List.length_singleton, bombLoop, hb]
    cases hd : detonates (stepBomb b)
    · simp only [hd, Bool.false_eq_true, if_false]
      refine (ih (stepBomb b :: suf) _ ?_).trans ?_
      · show s.bombs.set init.length (stepBomb b) = init ++ stepBomb b :: suf
        rw [h, List.append_assoc, List.singleton_append, set_at_length]
      · simp [survivors_append, blasts_append, booms_append, survivors, blasts, booms, hd]
    · simp only [hd, if_true]
      refine (ih suf _ ?_).trans ?_
      · show (s.bombs.set init.length (stepBomb b)).eraseIdx init.length = init ++ suf
        rw [h, List.append_assoc, List.singleton_append, set_at_length, eraseIdx_at_length]
      · simp [playSoundAtVolume, survivors_append, blasts_append, booms_append, survivors,
          blasts, booms, hd]

/-- Closed form of lines 203-239: the loop always finishes. -/
theorem updateBombs_eq (s : State) :
    updateBombs s = some { s with
      bombs := survivors s.bombs
      explosions := s.explosions ++ blasts s.bombs
      outbox := s.outbox ++ booms s.player.x s.player.y s.bombs } := by
  have h := bombLoop_append s.bombs [] s (by simp)
  simpa [updateBombs] using h

/-- The explosion loop started at index `pre.length - 1` on `pre ++ suf`. -/
theorem explosionLoop_append (pre : List Explosion) :
    ∀ suf : List Explosion, explosionLoop pre.length (pre ++ suf) = some (grown pre ++ suf) := by
  induction pre using List.reverseRecOn with
  | nil =>
    intro suf
    simp [explosionLoop, grown]
  | append_singleton init e ih =>
    intro suf
    have he : (init ++ [e] ++ suf)[init.length]? = some e := by
      rw [List.append_assoc]
      exact getElem?_at_length init e suf
    rw [List.length_append, List.length_singleton, explosionLoop, he]
    by_cases hr : e.radius + e.expandSpeed ≥ e.maxRadius
    · simp only [hr, if_true]
      rw [List.append_assoc, List.singleton_append, set_at_length, eraseIdx_at_length, ih suf]
      simp [grown, hr]
    · simp only [hr, if_false]
      rw [List.append_assoc, List.singleton_append, set_at_length, ih]
      simp [grown, not_le.mp hr]

/-- Closed form of `updateExplosions`: the loop always finishes. -/
theorem updateExplosions_eq (s : State) :
    updateExplosions s = some { s with explosions := grown s.explosions } := by
  have h := explosionLoop_append s.explosions []
  simp only [List.append_nil] at h
  simp [updateExplosions, h]

/-- Closed form of `update`: it always returns. -/
theorem update_eq (keys : Keys) (s : State) :
    update keys s =
      some { emitMove (updateCamera (movePlayer keys s)) with
        bombs := survivors s.bombs
        explosions := grown (s.explosions ++ blasts s.bombs)
        outbox := (emitMove (updateCamera (movePlayer keys s))).outbox ++
          booms (movePlayer keys s).player.x (movePlayer keys s).player.y s.bombs } := by
  have hb : (emitMove (updateCamera (movePlayer keys s))).bombs = s.bombs := by
    unfold emitMove
    split <;> rfl
  have he : (emitMove (updateCamera (movePlayer keys s))).explosions = s.explosions := by
    unfold emitMove
    split <;> rfl
  have hp : (emitMove (updateCamera (movePlayer keys s))).player = (movePlayer keys s).player := by
    unfold emitMove
    split <;> rfl
  simp [update, updateBombs_eq, updateExplosions_eq, hb, he, hp]

/-! ## Flight of a single bomb -/

theorem stepBomb_exploded (b : Bomb) : (stepBomb b).exploded = b.exploded := by
  cases h : b.exploded <;> simp [stepBomb, h]

theorem stepBomb_timeSinceThrow (b : Bomb) :
    (stepBomb b).timeSinceThrow = b.timeSinceThrow + 1 / 60 := by
  cases h : b.exploded <;> simp [stepBomb, h]

theorem stepBomb_progress (b : Bomb) (h : b.exploded = false) :
    (stepBomb b).progress = b.progress + 7 / 1000 := by
  simp [stepBomb, h]

theorem stepBomb_x (b : Bomb) (h : b.exploded = false) :
    (stepBomb b).x =
      b.startX + (b.targetX - b.startX) * (1 - (1 - min (b.progress + 7 / 1000) 1) ^ 3) := by
  simp [stepBomb, h, easeOutQuad]

theorem stepBomb_y (b : Bomb) (h : b.exploded = false) :
    (stepBomb b).y =
      b.startY + (b.targetY - b.startY) * (1 - (1 - min (b.progress + 7 / 1000) 1) ^ 3) := by
  simp [stepBomb, h, easeOutQuad]

theorem stepBomb_ends (b : Bomb) :
    (stepBomb b).startX = b.startX ∧ (stepBomb b).startY = b.startY ∧
      (stepBomb b).targetX = b.targetX ∧ (stepBomb b).targetY = b.targetY ∧
      (stepBomb b).ownerId = b.ownerId := by
  cases h : b.exploded <;> simp [stepBomb, h]

/-- State of a live bomb after `n` frames that did not remove it. -/
theorem iterate_stepBomb (b : Bomb) (h : b.exploded = false) (n : Nat) :
    (stepBomb^[n] b).exploded = false ∧
      (stepBomb^[n] b).progress = b.progress + 7 / 1000 * (n : ℚ) ∧
      (stepBomb^[n] b).timeSinceThrow = b.timeSinceThrow + (n : ℚ) / 60 ∧
      (stepBomb^[n] b).startX = b.startX ∧ (stepBomb^[n] b).startY = b.startY ∧
      (stepBomb^[n] b).targetX = b.targetX ∧ (stepBomb^[n] b).targetY = b.targetY := by
  induction n with
  | zero => simp [h]
  | succ n ih =>
    obtain ⟨he, hp, ht, h1, h2, h3, h4⟩ := ih
    obtain ⟨e1, e2, e3, e4, _⟩ := stepBomb_ends (stepBomb^[n] b)
    rw [Function.iterate_succ_apply']
    refine ⟨?_, ?_, ?_, ?_, ?_, ?_, ?_⟩
    · rw [stepBomb_exploded, he]
    · rw [stepBomb_progress _ he, hp]
      push_cast
      ring
    · rw [stepBomb_timeSinceThrow, ht]
      push_cast
      ring
    · rw [e1, h1]
    · rw [e2, h2]
    · rw [e3, h3]
    · rw [e4, h4]

theorem detonates_iff (b : Bomb) (h : b.exploded = false) :
    detonates b = true ↔ (b.progress ≥ 7 / 10 ∨ b.timeSinceThrow ≥ 3 / 2) := by
  simp [detonates, h]

/-- A bomb thrown at progress `0` and age `0` is still in `bombs` after each of
its first 89 frames. -/
theorem survivors_iterate_fresh (b : Bomb) (h : b.exploded = false) (hp : b.progress = 0)
    (ht : b.timeSinceThrow = 0) (n : Nat) (hn : n ≤ 89) :
    survivors^[n] [b] = [stepBomb^[n] b] := by
  induction n with
  | zero => simp
  | succ n ih =>
    rw [Function.iterate_succ_apply', ih (by omega), Function.iterate_succ_apply']
    obtain ⟨he, hpn, htn, _⟩ := iterate_stepBomb b h (n + 1)
    rw [Function.iterate_succ_apply'] at he hpn htn
    have hq : ((n + 1 : Nat) : ℚ) ≤ 89 := by exact_mod_cast hn
    have hd : detonates (stepBomb (stepBomb^[n] b)) = false := by
      rw [Bool.eq_false_iff]
      intro hdet
      rw [detonates_iff _ he, hpn, htn, hp, ht] at hdet
      rcases hdet with hdet | hdet
      · linarith
      · linarith
    simp [survivors, hd]

/-- Frames only: the `bombs` array after the frames is the iterated closed form,
and the run does not fail. -/
theorem run_ticks (rnd : Nat → Fin 16) (ks : List Keys) :
    ∀ s : State, ∃ s', run rnd (ks.map Step.tick) s = some s' ∧
      s'.bombs = survivors^[ks.length] s.bombs := by
  induction ks with
  | nil =>
    intro s
    exact ⟨s, rfl, rfl⟩
  | cons k rest ih =>
    intro s
    obtain ⟨s', hrun, hb⟩ := ih { emitMove (updateCamera (movePlayer k s)) with
        bombs := survivors s.bombs
        explosions := grown (s.explosions ++ blasts s.bombs)
        outbox := (emitMove (updateCamera (movePlayer k s))).outbox ++
          booms (movePlayer k s).player.x (movePlayer k s).player.y s.bombs }
    refine ⟨s', ?_, ?_⟩
    · simp only [List.map_cons, run, step, update_eq, Option.some_bind]
      exact hrun
    · rw [hb]
      simp [Function.iterate_succ_apply]

theorem freshBomb_facts (d : BombData) :
    (freshBomb d).exploded = false ∧ (freshBomb d).progress = 0 ∧
      (freshBomb d).timeSinceThrow = 0 ∧ (freshBomb d).startX = d.startX ∧
      (freshBomb d).startY = d.startY ∧ (freshBomb d).targetX = d.targetX ∧
      (freshBomb d).targetY = d.targetY ∧ (freshBomb d).x = d.startX ∧
      (freshBomb d).y = d.startY ∧ (freshBomb d).rotationAngle = 0 := by
  simp [freshBomb]

theorem survivors_iterate_append (n : Nat) :
    ∀ xs ys : List Bomb, survivors^[n] (xs ++ ys) = survivors^[n] xs ++ survivors^[n] ys := by
  induction n with
  | zero => exact fun _ _ => rfl
  | succ n ih =>
    intro xs ys
    rw [Function.iterate_succ_apply, Function.iterate_succ_apply, Function.iterate_succ_apply,
      survivors_append, ih]

theorem survivors_iterate_nil (n : Nat) : survivors^[n] [] = [] := by
  induction n with
  | zero => rfl
  | succ n ih =>
    rw [Function.iterate_succ_apply]
    exact ih

/-- A dropped bomb is the last element of `bombs` after `n ≤ 89` frames, advanced
`n` times; the bombs that were there before evolve on their own. -/
theorem fresh_flight (rnd : Nat → Fin 16) (s : State) (d : BombData)
    (ks : List Keys) (hk : ks.length ≤ 89) :
    ∃ sn, run rnd (Step.event (Event.bombDropped d) :: ks.map Step.tick) s = some sn ∧
      sn.bombs = survivors^[ks.length] s.bombs ++ [stepBomb^[ks.length] (freshBomb d)] := by
  obtain ⟨sn, hrun, hb⟩ := run_ticks rnd ks (handle rnd (Event.bombDropped d) s)
  refine ⟨sn, ?_, ?_⟩
  · simp only [run, step, Option.some_bind]
    exact hrun
  · obtain ⟨he, hp, ht, _⟩ := freshBomb_facts d
    rw [hb]
    simp only [handle, onBombDropped, playSoundAtVolume]
    rw [survivors_iterate_append, survivors_iterate_fresh _ he hp ht _ hk]

theorem grown_append (xs ys : List Explosion) : grown (xs ++ ys) = grown xs ++ grown ys := by
  simp [grown]

/-- The explosions pushed in a frame all stay in `explosions` at the end of that
frame, with radius `20` and opacity `47/50`. -/
theorem grown_blasts (bs : List Bomb) :
    grown (blasts bs) = ((bs.filter (fun b => detonates (stepBomb b))).reverse).map
      (fun b => ({ x := (stepBomb b).x, y := (stepBomb b).y, radius := 20,
                   maxRadius := 300, opacity := 47 / 50, expandSpeed := 20,
                   fadeSpeed := 3 / 50 } : Explosion)) := by
  have hb : blasts bs = ((bs.filter (fun b => detonates (stepBomb b))).reverse).map
      (fun b => newExplosion (stepBomb b)) := by
    unfold blasts
    rw [List.filter_map, List.map_map, List.filter_reverse]
    rfl
  rw [hb]
  unfold grown
  rw [List.map_map, List.filter_eq_self.mpr]
  · apply List.map_congr_left
    intro b _
    simp only [Function.comp, newExplosion]
    norm_num
  · intro e he
    obtain ⟨b, _, rfl⟩ := List.mem_map.mp he
    simp only [Function.comp, newExplosion]
    norm_num

/-! ## Frame lemmas -/

theorem emitMove_frame (s : State) :
    (emitMove s).player = s.player ∧ (emitMove s).remotePlayers = s.remotePlayers ∧
      (emitMove s).bombs = s.bombs ∧ (emitMove s).explosions = s.explosions ∧
      (emitMove s).socketId = s.socketId := by
  unfold emitMove
  split <;> simp

/-- What `update` leaves alone and what it computes, field by field. -/
theorem update_frame (keys : Keys) (s : State) :
    ∃ s', update keys s = some s' ∧ s'.player = (movePlayer keys s).player ∧
      s'.remotePlayers = s.remotePlayers ∧ s'.socketId = s.socketId ∧
      s'.bombs = survivors s.bombs ∧
      s'.explosions = grown (s.explosions ++ blasts s.bombs) := by
  obtain ⟨h1, h2, _, _, h5⟩ := emitMove_frame (updateCamera (movePlayer keys s))
  refine ⟨_, update_eq keys s, ?_, ?_, ?_, rfl, rfl⟩
  · exact h1
  · exact h2
  · exact h5

theorem movePlayer_size (keys : Keys) (s : State) :
    (movePlayer keys s).player.size = s.player.size ∧
      (movePlayer keys s).player.speed = s.player.speed := ⟨rfl, rfl⟩

/-- The clamp of lines 190-191 puts both coordinates into
`[size, worldSize - size]` as soon as that interval is not empty. -/
theorem movePlayer_bounds (keys : Keys) (s : State)
    (h : s.player.size ≤ worldSize - s.player.size) :
    s.player.size ≤ (movePlayer keys s).player.x ∧
      (movePlayer keys s).player.x ≤ worldSize - s.player.size ∧
      s.player.size ≤ (movePlayer keys s).player.y ∧
      (movePlayer keys s).player.y ≤ worldSize - s.player.size := by
  simp only [movePlayer]
  exact ⟨le_max_left _ _, max_le h (min_le_left _ _), le_max_left _ _,
    max_le h (min_le_left _ _)⟩

theorem lookup_mem {α : Type} (k : String) (v : α) (o : List (String × α))
    (h : lookup k o = some v) : (k, v) ∈ o := by
  induction o with
  | nil => simp [lookup] at h
  | cons p rest ih =>
    obtain ⟨k', v'⟩ := p
    by_cases hk : k' = k
    · subst hk
      simp [lookup] at h
      simp [h]
    · simp [lookup, hk] at h
      simp [ih h]

theorem lookup_isSome_iff {α : Type} (k : String) (o : List (String × α)) :
    (lookup k o).isSome = true ↔ k ∈ o.map Prod.fst := by
  induction o with
  | nil => simp [lookup]
  | cons p rest ih =>
    obtain ⟨k', v'⟩ := p
    by_cases hk : k' = k
    · subst hk
      simp [lookup]
    · have hk' : ¬ k = k' := fun e => hk e.symm
      simp only [lookup, hk, if_false, ih, List.map_cons, List.mem_cons, hk', false_or]

/-! ## Claims -/

/-! ### The local player under events -/

theorem currentPlayersBody_player (rnd : Nat → Fin 16)
    (playersData : List (String × PlayerData)) (s : State) (id : String) :
    (currentPlayersBody rnd playersData s id).player.size = s.player.size ∧
      (currentPlayersBody rnd playersData s id).socketId = s.socketId ∧
      (((currentPlayersBody rnd playersData s id).player.x = s.player.x ∧
          (currentPlayersBody rnd playersData s id).player.y = s.player.y) ∨
        ∃ d, (id, d) ∈ playersData ∧
          (currentPlayersBody rnd playersData s id).player.x = d.x ∧
          (currentPlayersBody rnd playersData s id).player.y = d.y) := by
  unfold currentPlayersBody
  cases hl : lookup id playersData with
  | none => simp
  | some data =>
    by_cases hid : some id = s.socketId
    · simp only [hid, ne_eq, not_true_eq_false, if_false, true_and]
      exact Or.inr ⟨data, lookup_mem _ _ _ hl, rfl, rfl⟩
    · simp [hid]

/-- The roster loop keeps `player.size`. -/
theorem currentPlayers_fold_player (rnd : Nat → Fin 16)
    (playersData : List (String × PlayerData)) (ks : List String) :
    ∀ s : State,
      (ks.foldl (currentPlayersBody rnd playersData) s).player.size = s.player.size := by
  induction ks with
  | nil =>
    intro s
    rfl
  | cons id rest ih =>
    intro s
    obtain ⟨hsz, _, _⟩ := currentPlayersBody_player rnd playersData s id
    rw [List.foldl_cons, ih, hsz]

theorem handle_size (rnd : Nat → Fin 16) (e : Event) (s : State) :
    (handle rnd e s).player.size = s.player.size := by
  cases e with
  | connect sid => rfl
  | currentPlayers playersData =>
    exact currentPlayers_fold_player rnd playersData _ s
  | newPlayer d =>
    simp only [handle, onNewPlayer]
    split <;> rfl
  | playerMoved id x y =>
    simp only [handle, onPlayerMoved]
    split
    · rfl
    · split <;> rfl
  | bombDropped d => rfl
  | playerHealthUpdate id health =>
    simp only [handle, onPlayerHealthUpdate]
    split
    · rfl
    · split
      · rfl
      · split <;> rfl
  | playerDisconnected id => rfl

/-- Every step returns and keeps `player.size`. -/
theorem step_size (rnd : Nat → Fin 16) (st : Step) (s : State) :
    ∃ s', step rnd st s = some s' ∧ s'.player.size = s.player.size := by
  cases st with
  | event e => exact ⟨_, rfl, handle_size rnd e s⟩
  | tick keys =>
    obtain ⟨s', hs', hp, _⟩ := update_frame keys s
    exact ⟨s', hs', by rw [hp]; rfl⟩

theorem run_size (rnd : Nat → Fin 16) (steps : List Step) :
    ∀ s : State, ∃ s', run rnd steps s = some s' ∧ s'.player.size = s.player.size := by
  induction steps with
  | nil => exact fun s => ⟨s, rfl, rfl⟩
  | cons st rest ih =>
    intro s
    obtain ⟨s1, h1, hz1⟩ := step_size rnd st s
    obtain ⟨s2, h2, hz2⟩ := ih s1
    exact ⟨s2, by simp [run, h1, h2], by rw [hz2, hz1]⟩

theorem run_append (rnd : Nat → Fin 16) (xs ys : List Step) (s : State) :
    run rnd (xs ++ ys) s = (run rnd xs s).bind (run rnd ys) := by
  induction xs generalizing s with
  | nil => simp [run]
  | cons st rest ih =>
    simp only [List.cons_append, run]
    cases step rnd st s with
    | none => simp
    | some s1 => simp [ih]

/-- A frame puts the local player inside the world. -/
theorem tick_clamped (keys : Keys) (s : State) (h20 : s.player.size = 20) :
    ∃ s', update keys s = some s' ∧ s'.player.size = 20 ∧ localClamped s' := by
  obtain ⟨s', hs', hp, _⟩ := update_frame keys s
  have hb := movePlayer_bounds keys s (by rw [h20]; norm_num [worldSize])
  refine ⟨s', hs', by rw [hp]; exact h20, ?_⟩
  unfold localClamped
  rw [hp]
  exact hb

/-- C2 (counterexample): the initial module state has the local player at `(0, 0)`,
outside `[20, 2980]`; and after `connect`, a frame and a roster that places the
local id at `(5, 5)`, the local player is at `(5, 5)`, outside `[20, 2980]`. -/
theorem C2_counterexample :
    (run (fun _ => 0) [] initialState = some initialState ∧
      initialState.player.x = 0 ∧ ¬ initialState.player.size ≤ initialState.player.x) ∧
    ∃ s', run (fun _ => 0)
        [Step.event (Event.connect "self"), Step.tick noKeys,
          Step.event (Event.currentPlayers
            [("self", { id := none, username := none, x := 5, y := 5, size := none,
                        color := none, health := some 80 })])] initialState = some s' ∧
      s'.player.x = 5 ∧ s'.player.y = 5 ∧ s'.player.size = 20 ∧
      ¬ s'.player.size ≤ s'.player.x := by
  refine ⟨⟨rfl, rfl, by norm_num [initialState]⟩, ?_⟩
  obtain ⟨s1, h1, hp, _, hsock, _⟩ :=
    update_frame noKeys (handle (fun _ => 0) (Event.connect "self") initialState)
  have hsock1 : s1.socketId = some "self" := by rw [hsock]; rfl
  have hsize1 : s1.player.size = 20 := by rw [hp]; rfl
  refine ⟨handle (fun _ => 0) (Event.currentPlayers
      [("self", { id := none, username := none, x := 5, y := 5, size := none,
                  color := none, health := some 80 })]) s1, ?_, ?_⟩
  · simp only [run, step, h1, Option.some_bind]
  · simp only [handle, onCurrentPlayers, currentPlayersBody, lookup, hsock1, hsize1,
      List.map_cons, List.map_nil, List.foldl_cons, List.foldl_nil, if_true, ne_eq,
      not_true_eq_false, if_false]
    norm_num

/-- The velocity of lines 177-183 in terms of which keys are down. -/
theorem movePlayer_velocity (keys : Keys) (s : State) :
    (movePlayer keys s).player.dx =
        (if (keys.a = true ∨ keys.arrowleft = true) ∧
            ¬ (keys.d = true ∨ keys.arrowright = true) then -s.player.speed
          else if (keys.d = true ∨ keys.arrowright = true) ∧
            ¬ (keys.a = true ∨ keys.arrowleft = true) then s.player.speed
          else 0) ∧
      (movePlayer keys s).player.dy =
        (if (keys.w = true ∨ keys.arrowup = true) ∧
            ¬ (keys.s = true ∨ keys.arrowdown = true) then -s.player.speed
          else if (keys.s = true ∨ keys.arrowdown = true) ∧
            ¬ (keys.w = true ∨ keys.arrowup = true) then s.player.speed
          else 0) := by
  obtain ⟨a, al, d, ar, w, au, sk, ad⟩ := keys
  constructor
  · cases a <;> cases al <;> cases d <;> cases ar <;> simp [movePlayer]
  · cases w <;> cases au <;> cases sk <;> cases ad <;> simp [movePlayer]

theorem movePlayer_position (keys : Keys) (s : State) :
    (movePlayer keys s).player.x =
        max s.player.size
          (min (worldSize - s.player.size) (s.player.x + (movePlayer keys s).player.dx)) ∧
      (movePlayer keys s).player.y =
        max s.player.size
          (min (worldSize - s.player.size) (s.player.y + (movePlayer keys s).player.dy)) :=
  ⟨rfl, rfl⟩

/-- C3: for every prior local position and key state (with `size ≤ worldSize - size`,
as for the constant `size = 20`), `update()` returns and afterwards
`player.x = max(size, min(worldSize - size, x + dx))` where `dx` is `-speed` if left
is pressed and right is not, `+speed` if right is pressed and left is not, and `0`
otherwise (same for `y` with up/down); the result lies in `[size, worldSize - size]`;
and a player at `x = 10` with `size = 20`, `speed = 4` and only left pressed ends at
`x = 20`, not `x = 6`. -/
theorem C3_local_movement_integration (keys : Keys) (s : State)
    (hsize : s.player.size ≤ worldSize - s.player.size) :
    (∃ s', update keys s = some s' ∧
      s'.player.x = max s.player.size (min (worldSize - s.player.size)
        (s.player.x +
          (if (keys.a = true ∨ keys.arrowleft = true) ∧
              ¬ (keys.d = true ∨ keys.arrowright = true) then -s.player.speed
            else if (keys.d = true ∨ keys.arrowright = true) ∧
              ¬ (keys.a = true ∨ keys.arrowleft = true) then s.player.speed
            else 0))) ∧
      s'.player.y = max s.player.size (min (worldSize - s.player.size)
        (s.player.y +
          (if (keys.w = true ∨ keys.arrowup = true) ∧
              ¬ (keys.s = true ∨ keys.arrowdown = true) then -s.player.speed
            else if (keys.s = true ∨ keys.arrowdown = true) ∧
              ¬ (keys.w = true ∨ keys.arrowup = true) then s.player.speed
            else 0))) ∧
      s.player.size ≤ s'.player.x ∧ s'.player.x ≤ worldSize - s.player.size ∧
      s.player.size ≤ s'.player.y ∧ s'.player.y ≤ worldSize - s.player.size ∧
      s'.player.size = s.player.size ∧ s'.player.speed = s.player.speed) ∧
    (∃ e, update leftOnly exampleNearEdge = some e ∧ exampleNearEdge.player.x = 10 ∧
      exampleNearEdge.player.size = 20 ∧ exampleNearEdge.player.speed = 4 ∧
      e.player.dx = -4 ∧ e.player.x = 20 ∧ e.player.x ≠ 6) := by
  constructor
  · obtain ⟨s', hs', hp, _⟩ := update_frame keys s
    obtain ⟨hx, hy⟩ := movePlayer_position keys s
    obtain ⟨hdx, hdy⟩ := movePlayer_velocity keys s
    obtain ⟨b1, b2, b3, b4⟩ := movePlayer_bounds keys s hsize
    rw [hdx] at hx
    rw [hdy] at hy
    refine ⟨s', hs', ?_, ?_, ?_, ?_, ?_, ?_, ?_, ?_⟩
    · rw [hp]; exact hx
    · rw [hp]; exact hy
    · rw [hp]; exact b1
    · rw [hp]; exact b2
    · rw [hp]; exact b3
    · rw [hp]; exact b4
    · rw [hp]; rfl
    · rw [hp]; rfl
  · obtain ⟨e, he, hp, _⟩ := update_frame leftOnly exampleNearEdge
    refine ⟨e, he, rfl, rfl, rfl, ?_, ?_, ?_⟩
    · rw [hp]
      simp [movePlayer, leftOnly, noKeys, exampleNearEdge, initialState]
    · rw [hp]
      simp only [movePlayer, leftOnly, noKeys, exampleNearEdge, initialState, worldSize]
      norm_num
    · rw [hp]
      simp only [movePlayer, leftOnly, noKeys, exampleNearEdge, initialState, worldSize]
      norm_num

/-- C3 (witness): the movement formula at the near-edge example, where the size
condition `20 ≤ 3000 - 20` holds. -/
theorem C3_local_movement_integration_witness :
    exampleNearEdge.player.size ≤ worldSize - exampleNearEdge.player.size ∧
    ∃ s', update leftOnly exampleNearEdge = some s' ∧
      exampleNearEdge.player.size ≤ s'.player.x ∧
      s'.player.x ≤ worldSize - exampleNearEdge.player.size :=
  ⟨by norm_num [exampleNearEdge, initialState, worldSize], by
    obtain ⟨s', h, _, _, b1, b2, _⟩ := (C3_local_movement_integration leftOnly exampleNearEdge
      (by norm_num [exampleNearEdge, initialState, worldSize])).1
    exact ⟨s', h, b1, b2⟩⟩

/-! ### The roster loop -/

/-- One iteration of the roster loop, seen from `remotePlayers`. -/
theorem currentPlayersBody_remote (rnd : Nat → Fin 16)
    (playersData : List (String × PlayerData)) (sid : String) (s : State)
    (hs : s.socketId = some sid) (id : String) :
    (∀ j, j ≠ id →
      lookup j (currentPlayersBody rnd playersData s id).remotePlayers =
        lookup j s.remotePlayers) ∧
    ((id = sid ∨ lookup id playersData = none) →
      (currentPlayersBody rnd playersData s id).remotePlayers = s.remotePlayers) ∧
    (id ≠ sid → ∀ d, lookup id playersData = some d →
      ∃ e, lookup id (currentPlayersBody rnd playersData s id).remotePlayers = some e ∧
        e.x = d.x ∧ e.y = d.y ∧ e.health = d.health ∧ e.size = some s.player.size) := by
  unfold currentPlayersBody
  cases hl : lookup id playersData with
  | none => simp
  | some data =>
    by_cases hid : id = sid
    · subst hid
      simp [hs]
    · have hne : ¬ some id = s.socketId := by
        rw [hs]
        intro h
        exact hid (Option.some.inj h)
      simp only [hne, ne_eq, not_false_eq_true, if_true]
      refine ⟨?_, ?_, ?_⟩
      · intro j hj
        exact lookup_assign_ne id j _ _ hj
      · intro h
        rcases h with h | h
        · exact absurd h hid
        · exact absurd h (by simp)
      · intro _ d hd
        cases hd
        exact ⟨_, lookup_assign_self id _ _, rfl, rfl, rfl, rfl⟩

/-- The roster loop over the keys `ks`, seen from `remotePlayers`. -/
theorem currentPlayers_fold_remote (rnd : Nat → Fin 16)
    (playersData : List (String × PlayerData)) (sid : String) (ks : List String) :
    ∀ s : State, s.socketId = some sid →
      (∀ j, j ∈ ks → j ≠ sid → ∀ d, lookup j playersData = some d →
        ∃ e, lookup j (ks.foldl (currentPlayersBody rnd playersData) s).remotePlayers =
            some e ∧ e.x = d.x ∧ e.y = d.y ∧ e.health = d.health) ∧
      (∀ j, (j ∉ ks ∨ j = sid ∨ lookup j playersData = none) →
        lookup j (ks.foldl (currentPlayersBody rnd playersData) s).remotePlayers =
          lookup j s.remotePlayers) := by
  induction ks with
  | nil =>
    intro s _
    exact ⟨fun j hj => absurd hj (List.not_mem_nil j), fun j _ => rfl⟩
  | cons id rest ih =>
    intro s hs
    obtain ⟨_, hsock, _⟩ := currentPlayersBody_player rnd playersData s id
    obtain ⟨hother, hsame, hnew⟩ := currentPlayersBody_remote rnd playersData sid s hs id
    obtain ⟨ihA, ihB⟩ := ih (currentPlayersBody rnd playersData s id) (by rw [hsock, hs])
    refine ⟨?_, ?_⟩
    · intro j hj hjs d hd
      rw [List.foldl_cons]
      by_cases hrest : j ∈ rest
      · exact ihA j hrest hjs d hd
      · have hji : j = id := by
          rcases List.mem_cons.mp hj with h | h
          · exact h
          · exact absurd h hrest
        subst hji
        obtain ⟨e, he, hx, hy, hh, _⟩ := hnew hjs d hd
        exact ⟨e, by rw [ihB j (Or.inl hrest), he], hx, hy, hh⟩
    · intro j hj
      rw [List.foldl_cons]
      have hj' : j ∉ rest ∨ j = sid ∨ lookup j playersData = none := by
        rcases hj with h | h | h
        · exact Or.inl (fun hr => h (List.mem_cons_of_mem _ hr))
        · exact Or.inr (Or.inl h)
        · exact Or.inr (Or.inr h)
      rw [ihB j hj']
      by_cases hji : j = id
      · subst hji
        have : j = sid ∨ lookup j playersData = none := by
          rcases hj with h | h | h
          · exact absurd (List.mem_cons_self _ _) h
          · exact Or.inl h
          · exact Or.inr h
        rw [hsame this]
      · exact hother j hji

/-- The roster loop over the keys `ks`, seen from the local player: the entry of
the local id is adopted as soon as the local id is among the keys. -/
theorem currentPlayers_fold_self (rnd : Nat → Fin 16)
    (playersData : List (String × PlayerData)) (sid : String) (d : PlayerData)
    (hd : lookup sid playersData = some d) (ks : List String) :
    ∀ s : State, s.socketId = some sid →
      (ks.foldl (currentPlayersBody rnd playersData) s).player =
        if sid ∈ ks then
          { s.player with
            x := d.x
            y := d.y
            color := orString d.color s.player.color
            health := orNumber d.health s.player.health }
        else s.player := by
  induction ks with
  | nil =>
    intro s _
    simp
  | cons id rest ih =>
    intro s hs
    obtain ⟨_, hsock, _⟩ := currentPlayersBody_player rnd playersData s id
    rw [List.foldl_cons, ih _ (by rw [hsock, hs])]
    by_cases hid : id = sid
    · subst hid
      have hbody : (currentPlayersBody rnd playersData s id).player =
          { s.player with
            x := d.x
            y := d.y
            color := orString d.color s.player.color
            health := orNumber d.health s.player.health } := by
        simp [currentPlayersBody, hd, hs]
      rw [hbody]
      have h1 : orString d.color (orString d.color s.player.color) =
          orString d.color s.player.color := by
        unfold orString
        cases d.color with
        | none => rfl
        | some c => by_cases hc : c = "" <;> simp [hc]
      have h2 : orNumber d.health (orNumber d.health s.player.health) =
          orNumber d.health s.player.health := by
        unfold orNumber
        cases d.health with
        | none => rfl
        | some c => by_cases hc : c = 0 <;> simp [hc]
      by_cases hr : id ∈ rest
      · simp [hr, h1, h2]
      · simp [hr]
    · have hne : ¬ some id = s.socketId := by
        rw [hs]
        intro h
        exact hid (Option.some.inj h)
      have hbody : (currentPlayersBody rnd playersData s id).player = s.player := by
        unfold currentPlayersBody
        cases lookup id playersData with
        | none => rfl
        | some data => simp [hne]
      have hmem : (sid ∈ id :: rest) ↔ sid ∈ rest := by
        rw [List.mem_cons]
        exact ⟨fun h => h.elim (fun e => absurd e.symm hid) (fun m => m), Or.inr⟩
      rw [hbody]
      simp only [hmem]

/-- Self-adoption by the `currentPlayers` handler: position, colour and health of
the roster entry of the local id, with `||` falling back to the prior value. -/
theorem onCurrentPlayers_self (rnd : Nat → Fin 16)
    (playersData : List (String × PlayerData)) (sid : String) (d : PlayerData)
    (hd : lookup sid playersData = some d) (s : State) (hs : s.socketId = some sid) :
    (onCurrentPlayers rnd playersData s).player =
      { s.player with
        x := d.x
        y := d.y
        color := orString d.color s.player.color
        health := orNumber d.health s.player.health } := by
  have hmem : sid ∈ playersData.map Prod.fst :=
    (lookup_isSome_iff sid playersData).mp (by rw [hd]; rfl)
  unfold onCurrentPlayers
  rw [currentPlayers_fold_self rnd playersData sid d hd _ s hs, if_pos hmem]

/-! ### Where the local player is placed -/

/-- Without a roster entry for the local id, the roster loop leaves the local player
alone. -/
theorem currentPlayers_fold_noself (rnd : Nat → Fin 16)
    (playersData : List (String × PlayerData)) (ks : List String) :
    ∀ s : State, (∀ sid, s.socketId = some sid → lookup sid playersData = none) →
      (ks.foldl (currentPlayersBody rnd playersData) s).player = s.player := by
  induction ks with
  | nil => exact fun _ _ => rfl
  | cons id rest ih =>
    intro s h
    obtain ⟨_, hsock, _⟩ := currentPlayersBody_player rnd playersData s id
    have hbody : (currentPlayersBody rnd playersData s id).player = s.player := by
      unfold currentPlayersBody
      cases hl : lookup id playersData with
      | none => rfl
      | some data =>
        have hne : some id ≠ s.socketId := by
          intro e
          rw [h id e.symm] at hl
          exact absurd hl (by simp)
        simp [hne]
    rw [List.foldl_cons, ih _ (by rw [hsock]; exact h), hbody]

/-- Events other than `currentPlayers` do not write `player.x` or `player.y`. -/
theorem handle_position (rnd : Nat → Fin 16) (e : Event) (s : State)
    (hne : ∀ playersData, e ≠ Event.currentPlayers playersData) :
    (handle rnd e s).player.x = s.player.x ∧ (handle rnd e s).player.y = s.player.y := by
  cases e with
  | connect sid => exact ⟨rfl, rfl⟩
  | currentPlayers playersData => exact absurd rfl (hne playersData)
  | newPlayer d =>
    simp only [handle, onNewPlayer]
    split <;> exact ⟨rfl, rfl⟩
  | playerMoved id x y =>
    simp only [handle, onPlayerMoved]
    split
    · exact ⟨rfl, rfl⟩
    · split <;> exact ⟨rfl, rfl⟩
  | bombDropped d => exact ⟨rfl, rfl⟩
  | playerHealthUpdate id health =>
    simp only [handle, onPlayerHealthUpdate]
    split
    · exact ⟨rfl, rfl⟩
    · split
      · exact ⟨rfl, rfl⟩
      · split <;> exact ⟨rfl, rfl⟩
  | playerDisconnected id => exact ⟨rfl, rfl⟩

/-- One step: the local player is inside `[20, 2980]` afterwards exactly when the
step placed it inside, or did not place it and it was inside before. -/
theorem step_placement (rnd : Nat → Fin 16) (st : Step) (s : State) (inside : Bool)
    (h20 : s.player.size = 20)
    (hin : (20 ≤ s.player.x ∧ s.player.x ≤ 2980 ∧ 20 ≤ s.player.y ∧ s.player.y ≤ 2980) ↔
      inside = true) :
    ∃ s', step rnd st s = some s' ∧ s'.player.size = 20 ∧
      ((20 ≤ s'.player.x ∧ s'.player.x ≤ 2980 ∧ 20 ≤ s'.player.y ∧ s'.player.y ≤ 2980) ↔
        (placement s st).getD inside = true) := by
  cases st with
  | tick keys =>
    obtain ⟨s', hs', hz, hc⟩ := tick_clamped keys s h20
    unfold localClamped at hc
    rw [hz] at hc
    norm_num [worldSize] at hc
    exact ⟨s', hs', hz, by simp [placement, hc]⟩
  | event e =>
    refine ⟨handle rnd e s, rfl, by rw [handle_size, h20], ?_⟩
    cases e with
    | currentPlayers playersData =>
      cases hsock : s.socketId with
      | none =>
        have hp : (handle rnd (Event.currentPlayers playersData) s).player = s.player :=
          currentPlayers_fold_noself rnd playersData _ s
            (fun sid hs => by rw [hsock] at hs; exact absurd hs (by simp))
        rw [hp]
        simpa [placement, hsock] using hin
      | some sid =>
        cases hl : lookup sid playersData with
        | none =>
          have hp : (handle rnd (Event.currentPlayers playersData) s).player = s.player :=
            currentPlayers_fold_noself rnd playersData _ s
              (fun t ht => by
                rw [hsock] at ht
                cases ht
                exact hl)
          rw [hp]
          simpa [placement, hsock, hl] using hin
        | some d =>
          have hp := onCurrentPlayers_self rnd playersData sid d hl s hsock
          have hp' : (handle rnd (Event.currentPlayers playersData) s).player =
              { s.player with
                x := d.x
                y := d.y
                color := orString d.color s.player.color
                health := orNumber d.health s.player.health } := hp
          rw [hp']
          simp [placement, hsock, hl]
    | connect sid =>
      obtain ⟨hx, hy⟩ := handle_position rnd (Event.connect sid) s (fun _ h => by cases h)
      rw [hx, hy]
      simpa [placement] using hin
    | newPlayer d =>
      obtain ⟨hx, hy⟩ := handle_position rnd (Event.newPlayer d) s (fun _ h => by cases h)
      rw [hx, hy]
      simpa [placement] using hin
    | playerMoved id x y =>
      obtain ⟨hx, hy⟩ := handle_position rnd (Event.playerMoved id x y) s
        (fun _ h => by cases h)
      rw [hx, hy]
      simpa [placement] using hin
    | bombDropped d =>
      obtain ⟨hx, hy⟩ := handle_position rnd (Event.bombDropped d) s (fun _ h => by cases h)
      rw [hx, hy]
      simpa [placement] using hin
    | playerHealthUpdate id health =>
      obtain ⟨hx, hy⟩ := handle_position rnd (Event.playerHealthUpdate id health) s
        (fun _ h => by cases h)
      rw [hx, hy]
      simpa [placement] using hin
    | playerDisconnected id =>
      obtain ⟨hx, hy⟩ := handle_position rnd (Event.playerDisconnected id) s
        (fun _ h => by cases h)
      rw [hx, hy]
      simpa [placement] using hin

theorem run_placement (rnd : Nat → Fin 16) (steps : List Step) :
    ∀ (s : State) (inside : Bool), s.player.size = 20 →
      ((20 ≤ s.player.x ∧ s.player.x ≤ 2980 ∧ 20 ≤ s.player.y ∧ s.player.y ≤ 2980) ↔
        inside = true) →
      ∃ s', run rnd steps s = some s' ∧ s'.player.size = 20 ∧
        ((20 ≤ s'.player.x ∧ s'.player.x ≤ 2980 ∧ 20 ≤ s'.player.y ∧
            s'.player.y ≤ 2980) ↔
          placedInside rnd steps s inside = true) := by
  induction steps with
  | nil => exact fun s inside h20 hin => ⟨s, rfl, h20, hin⟩
  | cons st rest ih =>
    intro s inside h20 hin
    obtain ⟨s1, h1, hz1, hin1⟩ := step_placement rnd st s inside h20 hin
    obtain ⟨s2, h2, hz2, hin2⟩ := ih s1 _ hz1 hin1
    refine ⟨s2, by simp [run, h1, h2], hz2, ?_⟩
    rw [hin2]
    simp [placedInside, h1]

/-- C2 (as amended): in every state reachable from the initial module state by any
sequence of `update()` ticks and inbound events, `player.x` and `player.y` both lie
in `[player.size, worldSize - player.size] = [20, 2980]` if and only if the most
recent step that placed the local player put it there, where an `update()` tick
always does and a `currentPlayers` event whose roster has an entry for the local id
does exactly when that entry's `x` and `y` lie in `[20, 2980]`; no other step places
the local player, and before any placement (the initial `(0, 0)`) it is outside. -/
theorem C2_local_clamp_by_last_placement (rnd : Nat → Fin 16) (steps : List Step) :
    ∃ s', run rnd steps initialState = some s' ∧
      s'.player.size = 20 ∧ worldSize - s'.player.size = 2980 ∧
      ((20 ≤ s'.player.x ∧ s'.player.x ≤ 2980 ∧ 20 ≤ s'.player.y ∧ s'.player.y ≤ 2980) ↔
        placedInside rnd steps initialState false = true) := by
  obtain ⟨s', hrun, hz, hin⟩ := run_placement rnd steps initialState false rfl
    (by norm_num [initialState])
  refine ⟨s', hrun, hz, ?_, hin⟩
  rw [hz]
  norm_num [worldSize]

/-- C2 (witness): after `connect` with id `"self"`, the roster
`{A: (0, 0), self: (100, 100)}` places the local player inside, although its remote
entry is outside; a later roster with `self` at `(5, 5)` places it outside, and the
next frame places it inside again. -/
theorem C2_local_clamp_by_last_placement_witness :
    placedInside (fun _ => 0)
        [Step.event (Event.connect "self"), Step.event (Event.currentPlayers cornerRoster)]
        initialState false = true ∧
    placedInside (fun _ => 0)
        [Step.event (Event.connect "self"), Step.event (Event.currentPlayers cornerRoster),
          Step.event (Event.currentPlayers exampleRoster)]
        initialState false = false ∧
    placedInside (fun _ => 0)
        [Step.event (Event.connect "self"), Step.event (Event.currentPlayers cornerRoster),
          Step.event (Event.currentPlayers exampleRoster), Step.tick noKeys]
        initialState false = true ∧
    ∃ s', run (fun _ => 0)
        [Step.event (Event.connect "self"), Step.event (Event.currentPlayers cornerRoster)]
        initialState = some s' ∧
      20 ≤ s'.player.x ∧ s'.player.x ≤ 2980 ∧ 20 ≤ s'.player.y ∧ s'.player.y ≤ 2980 := by
  have h1 : placedInside (fun _ => 0)
      [Step.event (Event.connect "self"), Step.event (Event.currentPlayers cornerRoster)]
      initialState false = true := by decide!
  have h2 : placedInside (fun _ => 0)
      [Step.event (Event.connect "self"), Step.event (Event.currentPlayers cornerRoster),
        Step.event (Event.currentPlayers exampleRoster)]
      initialState false = false := by decide!
  have h3 : placedInside (fun _ => 0)
      [Step.event (Event.connect "self"), Step.event (Event.currentPlayers cornerRoster),
        Step.event (Event.currentPlayers exampleRoster), Step.tick noKeys]
      initialState false = true := by decide!
  obtain ⟨s', hrun, _, _, hin⟩ := C2_local_clamp_by_last_placement (fun _ => 0)
    [Step.event (Event.connect "self"), Step.event (Event.currentPlayers cornerRoster)]
  exact ⟨h1, h2, h3, s', hrun, hin.mpr h1⟩

/-- C4 (the code at the failing input): after `connect` with id `"self"`, a roster
whose entry for `"self"` is at `(5, 5)` with health `0` moves the local player to
`(5, 5)` but leaves its health at the prior `90` (`0 || player.health`), while the
`playerHealthUpdate` handler does store a health of `0`. -/
theorem C4_zero_health_not_adopted :
    lookup "self" zeroHealthRoster =
        some { id := none, username := none, x := 5, y := 5, size := none,
               color := none, health := some 0 } ∧
      (onConnect "self" initialState).socketId = some "self" ∧
      (onCurrentPlayers (fun _ => 0) zeroHealthRoster
        (onConnect "self" initialState)).player.x = 5 ∧
      (onCurrentPlayers (fun _ => 0) zeroHealthRoster
        (onConnect "self" initialState)).player.y = 5 ∧
      (onCurrentPlayers (fun _ => 0) zeroHealthRoster
        (onConnect "self" initialState)).player.health = 90 ∧
      (onCurrentPlayers (fun _ => 0) zeroHealthRoster
        (onConnect "self" initialState)).player.health ≠ 0 ∧
      (onPlayerHealthUpdate "self" 0 (onConnect "self" initialState)).player.health = 0 := by
  have h := onCurrentPlayers_self (fun _ => 0) zeroHealthRoster "self" _ rfl
    (onConnect "self" initialState) rfl
  refine ⟨rfl, rfl, ?_, ?_, ?_, ?_, ?_⟩
  · rw [h]
  · rw [h]
  · rw [h]
    simp [orNumber, onConnect, initialState]
  · rw [h]
    simp [orNumber, onConnect, initialState]
  · simp [onPlayerHealthUpdate, onConnect, initialState]

/-- C5: for every roster applied by the `currentPlayers` handler to an empty remote
map with local id `sid`, afterwards `remotePlayers` has an entry for exactly the
roster ids other than `sid`, each with the roster's `x` and `y` for that id, and no
entry for `sid`; and the roster `{A:{x:1,y:2}, self:{x:5,y:5,health:80}}` with local
id `"self"` yields local position `(5,5)`, local health `80`, remote `"A"` at `(1,2)`
and no remote `"self"`. -/
theorem C5_roster_application (rnd : Nat → Fin 16) (roster : List (String × PlayerData))
    (sid : String) (s : State) (hs : s.socketId = some sid) (hr : s.remotePlayers = []) :
    (∀ id, (lookup id (onCurrentPlayers rnd roster s).remotePlayers).isSome = true ↔
      (id ≠ sid ∧ (lookup id roster).isSome = true)) ∧
    (∀ id d, id ≠ sid → lookup id roster = some d →
      ∃ e, lookup id (onCurrentPlayers rnd roster s).remotePlayers = some e ∧
        e.x = d.x ∧ e.y = d.y) ∧
    lookup sid (onCurrentPlayers rnd roster s).remotePlayers = none ∧
    (sid = "self" →
      (onCurrentPlayers rnd exampleRoster s).player.x = 5 ∧
      (onCurrentPlayers rnd exampleRoster s).player.y = 5 ∧
      (onCurrentPlayers rnd exampleRoster s).player.health = 80 ∧
      (∃ e, lookup "A" (onCurrentPlayers rnd exampleRoster s).remotePlayers = some e ∧
        e.x = 1 ∧ e.y = 2) ∧
      lookup "self" (onCurrentPlayers rnd exampleRoster s).remotePlayers = none) := by
  have hempty : ∀ j, lookup j s.remotePlayers = none := by
    intro j
    rw [hr]
    rfl
  have general : ∀ r : List (String × PlayerData),
      (∀ id, (lookup id (onCurrentPlayers rnd r s).remotePlayers).isSome = true ↔
        (id ≠ sid ∧ (lookup id r).isSome = true)) ∧
      (∀ id d, id ≠ sid → lookup id r = some d →
        ∃ e, lookup id (onCurrentPlayers rnd r s).remotePlayers = some e ∧
          e.x = d.x ∧ e.y = d.y) ∧
      lookup sid (onCurrentPlayers rnd r s).remotePlayers = none := by
    intro r
    obtain ⟨hA, hB⟩ := currentPlayers_fold_remote rnd r sid (r.map Prod.fst) s hs
    have hentry : ∀ id d, id ≠ sid → lookup id r = some d →
        ∃ e, lookup id (onCurrentPlayers rnd r s).remotePlayers = some e ∧
          e.x = d.x ∧ e.y = d.y := by
      intro id d hid hd
      have hmem : id ∈ r.map Prod.fst := (lookup_isSome_iff id r).mp (by rw [hd]; rfl)
      obtain ⟨e, he, hx, hy, _⟩ := hA id hmem hid d hd
      exact ⟨e, he, hx, hy⟩
    refine ⟨?_, hentry, ?_⟩
    · intro id
      constructor
      · intro hsome
        by_cases hid : id = sid
        · have hnone := hB id (Or.inr (Or.inl hid))
          unfold onCurrentPlayers at hsome
          rw [hnone, hempty] at hsome
          exact absurd hsome (by simp)
        · cases hl : lookup id r with
          | none =>
            have hnone := hB id (Or.inr (Or.inr hl))
            unfold onCurrentPlayers at hsome
            rw [hnone, hempty] at hsome
            exact absurd hsome (by simp)
          | some d => exact ⟨hid, rfl⟩
      · rintro ⟨hid, hsome⟩
        cases hl : lookup id r with
        | none =>
          rw [hl] at hsome
          exact absurd hsome (by simp)
        | some d =>
          obtain ⟨e, he, _⟩ := hentry id d hid hl
          rw [he]
          rfl
    · have hnone := hB sid (Or.inr (Or.inl rfl))
      unfold onCurrentPlayers
      rw [hnone, hempty]
  obtain ⟨g1, g2, g3⟩ := general roster
  refine ⟨g1, g2, g3, ?_⟩
  intro hself
  subst hself
  obtain ⟨_, e2, e3⟩ := general exampleRoster
  have hp := onCurrentPlayers_self rnd exampleRoster "self" _ rfl s hs
  refine ⟨by rw [hp], by rw [hp], ?_, ?_, e3⟩
  · rw [hp]
    simp [orNumber]
  · obtain ⟨e, he, hx, hy⟩ := e2 "A" _ (by decide) rfl
    exact ⟨e, he, hx, hy⟩

/-- C5 (witness): the example roster applied right after `connect` with id `"self"`. -/
theorem C5_roster_application_witness :
    (onConnect "self" initialState).socketId = some "self" ∧
    (onConnect "self" initialState).remotePlayers = [] ∧
    (onCurrentPlayers (fun _ => 0) exampleRoster (onConnect "self" initialState)).player.x = 5 ∧
    (onCurrentPlayers (fun _ => 0) exampleRoster (onConnect "self" initialState)).player.health
      = 80 ∧
    lookup "self"
      (onCurrentPlayers (fun _ => 0) exampleRoster (onConnect "self" initialState)).remotePlayers
      = none :=
  ⟨rfl, rfl, by
    obtain ⟨hx, _, hh, _, hn⟩ := (C5_roster_application (fun _ => 0) exampleRoster "self"
      (onConnect "self" initialState) rfl rfl).2.2.2 rfl
    exact ⟨hx, hh, hn⟩⟩

/-! ### Absent ids -/

theorem onPlayerMoved_absent (id : String) (x y : ℚ) (s : State)
    (h : lookup id s.remotePlayers = none) (hown : id ∉ inheritedNames) :
    onPlayerMoved id x y s = s := by
  simp [onPlayerMoved, h, hown]

/-- A move addressed to an inherited name that is not an own key is not a no-op:
the guard of line 127 holds and the coordinates are written onto the built-in
object. -/
theorem onPlayerMoved_inherited (id : String) (x y : ℚ) (s : State)
    (h : lookup id s.remotePlayers = none) (hin : id ∈ inheritedNames) :
    onPlayerMoved id x y s =
      { s with outbox := s.outbox ++
          [Output.builtinWrite id "x" x, Output.builtinWrite id "y" y] } := by
  simp [onPlayerMoved, h, hin]

/-- Moves of ids that are neither own keys nor inherited names, in sequence, change
nothing. -/
theorem run_moves_absent (rnd : Nat → Fin 16) (s : State) (moves : List (String × ℚ × ℚ)) :
    (∀ m ∈ moves, lookup m.1 s.remotePlayers = none ∧ m.1 ∉ inheritedNames) →
      run rnd (moves.map movedStep) s = some s := by
  induction moves with
  | nil => exact fun _ => rfl
  | cons m rest ih =>
    intro h
    have hm := h m (List.mem_cons_self _ _)
    have hrest := ih (fun x hx => h x (List.mem_cons_of_mem _ hx))
    simp only [List.map_cons, run, movedStep, step, handle,
      onPlayerMoved_absent _ _ _ s hm.1 hm.2, Option.some_bind]
    exact hrest

/-- A step that cannot create an entry keeps an absent id absent. -/
theorem step_keeps_absent (rnd : Nat → Fin 16) (st : Step) (hst : cannotCreate st = true)
    (id : String) (s : State) (h : lookup id s.remotePlayers = none) :
    ∃ s', step rnd st s = some s' ∧ lookup id s'.remotePlayers = none := by
  cases st with
  | tick keys =>
    obtain ⟨s', hs', _, hrp, _⟩ := update_frame keys s
    exact ⟨s', hs', by rw [hrp]; exact h⟩
  | event e =>
    refine ⟨handle rnd e s, rfl, ?_⟩
    cases e with
    | connect sid => simp [cannotCreate] at hst
    | currentPlayers playersData => simp [cannotCreate] at hst
    | newPlayer d => simp [cannotCreate] at hst
    | playerMoved j x y =>
      simp only [handle, onPlayerMoved]
      cases hj : lookup j s.remotePlayers with
      | none =>
        simp only
        split <;> exact h
      | some entry =>
        have hne : id ≠ j := by
          intro e
          rw [e, hj] at h
          exact absurd h (by simp)
        simp only
        rw [lookup_assign_ne j id _ _ hne]
        exact h
    | bombDropped d => exact h
    | playerHealthUpdate j health =>
      simp only [handle, onPlayerHealthUpdate]
      by_cases hself : some j = s.player.id
      · simp only [hself, if_true]
        exact h
      · simp only [hself, if_false]
        cases hj : lookup j s.remotePlayers with
        | none =>
          simp only
          split <;> exact h
        | some entry =>
          have hne : id ≠ j := by
            intro e
            rw [e, hj] at h
            exact absurd h (by simp)
          simp only
          rw [lookup_assign_ne j id _ _ hne]
          exact h
    | playerDisconnected j =>
      simp only [handle, onPlayerDisconnected]
      by_cases hne : id = j
      · rw [hne]
        exact lookup_remove_self j _
      · rw [lookup_remove_ne j id _ hne]
        exact h

theorem run_keeps_absent (rnd : Nat → Fin 16) (id : String) (steps : List Step) :
    ∀ s : State, (∀ st ∈ steps, cannotCreate st = true) →
      lookup id s.remotePlayers = none →
      ∃ s', run rnd steps s = some s' ∧ lookup id s'.remotePlayers = none := by
  induction steps with
  | nil => exact fun s _ h => ⟨s, rfl, h⟩
  | cons st rest ih =>
    intro s hall h
    obtain ⟨s1, h1, ha1⟩ := step_keeps_absent rnd st (hall st (List.mem_cons_self _ _)) id s h
    obtain ⟨s2, h2, ha2⟩ := ih s1 (fun x hx => hall x (List.mem_cons_of_mem _ hx)) ha1
    exact ⟨s2, by simp [run, h1, h2], ha2⟩

/-- C6 (the code at the failing input, and where the claim holds): in the initial
state, where `remotePlayers` is empty, the event `playerMoved{id: "__proto__", x: 1,
y: 2}` passes the guard of line 127 (`remotePlayers["__proto__"]` is
`Object.prototype`) and lines 128-129 write `x = 1` and `y = 2` onto
`Object.prototype`: the handler is not a no-op although the id is absent from
`remotePlayers`. For every sequence of `playerMoved` events whose ids are absent from
`remotePlayers` and are not names inherited from `Object.prototype`, the run raises no
error and the whole state after it equals the state before it. -/
theorem C6_unknown_id_moves (rnd : Nat → Fin 16) :
    (lookup "__proto__" initialState.remotePlayers = none ∧
      handle rnd (Event.playerMoved "__proto__" 1 2) initialState =
        { initialState with outbox :=
            [Output.builtinWrite "__proto__" "x" 1, Output.builtinWrite "__proto__" "y" 2] } ∧
      handle rnd (Event.playerMoved "__proto__" 1 2) initialState ≠ initialState) ∧
    ∀ (s : State) (moves : List (String × ℚ × ℚ)),
      (∀ m ∈ moves, lookup m.1 s.remotePlayers = none ∧ m.1 ∉ inheritedNames) →
      run rnd (moves.map (fun m => Step.event (Event.playerMoved m.1 m.2.1 m.2.2))) s =
        some s := by
  have hwrite : handle rnd (Event.playerMoved "__proto__" 1 2) initialState =
      { initialState with outbox :=
          [Output.builtinWrite "__proto__" "x" 1, Output.builtinWrite "__proto__" "y" 2] } :=
    onPlayerMoved_inherited "__proto__" 1 2 initialState rfl (by decide)
  refine ⟨⟨rfl, hwrite, ?_⟩, fun s moves h => run_moves_absent rnd s moves h⟩
  rw [hwrite]
  intro h
  have ho := congrArg State.outbox h
  simp [initialState] at ho

/-- C6 (witness): two stale moves of ordinary ids in the initial state. -/
theorem C6_unknown_id_moves_witness :
    (∀ m ∈ [("gone", (1 : ℚ), (2 : ℚ)), ("never", (3 : ℚ), (4 : ℚ))],
      lookup m.1 initialState.remotePlayers = none ∧ m.1 ∉ inheritedNames) ∧
    run (fun _ => 0)
      ([("gone", (1 : ℚ), (2 : ℚ)), ("never", (3 : ℚ), (4 : ℚ))].map
        (fun m => Step.event (Event.playerMoved m.1 m.2.1 m.2.2))) initialState =
      some initialState := by
  have hall : ∀ m ∈ [("gone", (1 : ℚ), (2 : ℚ)), ("never", (3 : ℚ), (4 : ℚ))],
      lookup m.1 initialState.remotePlayers = none ∧ m.1 ∉ inheritedNames := by
    intro m hm
    simp only [List.mem_cons, List.mem_singleton, List.not_mem_nil, or_false] at hm
    rcases hm with rfl | rfl
    · exact ⟨rfl, by decide⟩
    · exact ⟨rfl, by decide⟩
  exact ⟨hall, (C6_unknown_id_moves (fun _ => 0)).2 initialState _ hall⟩

/-- C7: after `playerDisconnected(id)` the id is absent from `remotePlayers` and
every other remote entry is unchanged; and the id remains absent after any
subsequent sequence of `playerMoved`, `playerHealthUpdate`, `bombDropped`,
`playerDisconnected` events and `update()` ticks, none of which fails. -/
theorem C7_no_entry_outlives_disconnect (rnd : Nat → Fin 16) (s : State) (id : String) :
    lookup id (handle rnd (Event.playerDisconnected id) s).remotePlayers = none ∧
    (∀ j, j ≠ id →
      lookup j (handle rnd (Event.playerDisconnected id) s).remotePlayers =
        lookup j s.remotePlayers) ∧
    (∀ steps : List Step, (∀ st ∈ steps, cannotCreate st = true) →
      ∃ s', run rnd (Step.event (Event.playerDisconnected id) :: steps) s = some s' ∧
        lookup id s'.remotePlayers = none) := by
  have h0 : lookup id (handle rnd (Event.playerDisconnected id) s).remotePlayers = none :=
    lookup_remove_self id _
  refine ⟨h0, fun j hj => lookup_remove_ne id j _ hj, ?_⟩
  intro steps hall
  obtain ⟨s', hrun, habs⟩ := run_keeps_absent rnd id steps _ hall h0
  exact ⟨s', by simp only [run, step, Option.some_bind]; exact hrun, habs⟩

/-- C7 (witness): a remote player joins, disconnects, and stale events for its id
follow. -/
theorem C7_no_entry_outlives_disconnect_witness :
    (∀ st ∈ [Step.event (Event.playerMoved "B" 7 8), Step.tick noKeys,
        Step.event (Event.playerHealthUpdate "B" 50)], cannotCreate st = true) ∧
    ∃ s', run (fun _ => 0) (Step.event (Event.playerDisconnected "B") ::
        [Step.event (Event.playerMoved "B" 7 8), Step.tick noKeys,
          Step.event (Event.playerHealthUpdate "B" 50)])
        (handle (fun _ => 0) (Event.newPlayer
          { id := some "B", username := none, x := 1, y := 2, size := none,
            color := some "red", health := some 100 }) initialState) = some s' ∧
      lookup "B" s'.remotePlayers = none :=
  ⟨by decide, (C7_no_entry_outlives_disconnect (fun _ => 0) _ "B").2.2 _ (by decide)⟩

/-! ### Detonation -/

theorem survivors_eq_filter_map (bs : List Bomb) :
    survivors bs = (bs.filter (fun b => !detonates (stepBomb b))).map stepBomb := by
  unfold survivors
  rw [List.filter_map]
  rfl

theorem blasts_eq_filter_map (bs : List Bomb) :
    blasts bs = ((bs.filter (fun b => detonates (stepBomb b))).reverse).map
      (fun b => newExplosion (stepBomb b)) := by
  unfold blasts
  rw [List.filter_map, List.map_map, List.filter_reverse]
  rfl

/-- C8: for every `bombs` and `explosions` list, the bomb loop of one `update()`
returns, keeps (advanced once) the bombs that do not detonate, removes the set `D`
of bombs that detonate, and appends to `explosions` exactly one new explosion for
each bomb of `D` (in loop order, last index first), centred at that bomb's position
as recomputed in this tick and with radius `0`, maxRadius `300`, opacity `1`,
expandSpeed `20`, fadeSpeed `0.06`; so `bombs.length' + |D| = bombs.length`. The
whole `update()` then has these bombs, and these explosions after one
`updateExplosions()`, which keeps every new explosion (radius `20`, opacity
`0.94`). -/
theorem C8_one_effect_per_detonation (s : State) :
    ∃ s', updateBombs s = some s' ∧
      s'.bombs = (s.bombs.filter (fun b => !detonates (stepBomb b))).map stepBomb ∧
      s'.explosions = s.explosions ++
        ((s.bombs.filter (fun b => detonates (stepBomb b))).reverse).map
          (fun b => ({ x := (stepBomb b).x, y := (stepBomb b).y, radius := 0,
                       maxRadius := 300, opacity := 1, expandSpeed := 20,
                       fadeSpeed := 3 / 50 } : Explosion)) ∧
      s'.explosions.length =
        s.explosions.length + (s.bombs.filter (fun b => detonates (stepBomb b))).length ∧
      s'.bombs.length + (s.bombs.filter (fun b => detonates (stepBomb b))).length =
        s.bombs.length ∧
      ∀ keys : Keys, ∃ s'', update keys s = some s'' ∧ s''.bombs = s'.bombs ∧
        s''.explosions = grown s'.explosions ∧
        s''.explosions = grown s.explosions ++
          ((s.bombs.filter (fun b => detonates (stepBomb b))).reverse).map
            (fun b => ({ x := (stepBomb b).x, y := (stepBomb b).y, radius := 20,
                         maxRadius := 300, opacity := 47 / 50, expandSpeed := 20,
                         fadeSpeed := 3 / 50 } : Explosion)) := by
  refine ⟨_, updateBombs_eq s, survivors_eq_filter_map s.bombs, ?_, ?_, ?_, ?_⟩
  · show s.explosions ++ blasts s.bombs = _
    rw [blasts_eq_filter_map]
    rfl
  · show (s.explosions ++ blasts s.bombs).length = _
    rw [blasts_eq_filter_map]
    simp
  · show (survivors s.bombs).length + _ = _
    rw [survivors_eq_filter_map, List.length_map,
      List.length_eq_length_filter_add (fun b => detonates (stepBomb b)) (l := s.bombs)]
    exact Nat.add_comm _ _
  · intro keys
    obtain ⟨s'', h, _, _, _, hb, he⟩ := update_frame keys s
    refine ⟨s'', h, hb, he, ?_⟩
    rw [he, grown_append, grown_blasts]

/-- For a live bomb, not detonating in a frame is the conjunction of the two strict
bounds on the advanced values. -/
theorem not_detonates_stepBomb (b : Bomb) (h : b.exploded = false) :
    (!detonates (stepBomb b)) =
      decide (b.progress + 7 / 1000 < 7 / 10 ∧ b.timeSinceThrow + 1 / 60 < 3 / 2) := by
  have he : (stepBomb b).exploded = false := by rw [stepBomb_exploded, h]
  rw [Bool.eq_iff_iff]
  simp only [Bool.not_eq_true', decide_eq_true_eq]
  rw [← Bool.not_eq_true, detonates_iff _ he, stepBomb_progress _ h, stepBomb_timeSinceThrow]
  simp only [not_or, not_le, ge_iff_le]

theorem filter_congr_mem {α : Type} (p q : α → Bool) (l : List α)
    (h : ∀ a ∈ l, p a = q a) : l.filter p = l.filter q := by
  induction l with
  | nil => rfl
  | cons a rest ih =>
    have ha := h a (List.mem_cons_self _ _)
    have hr := ih (fun x hx => h x (List.mem_cons_of_mem _ hx))
    simp only [List.filter_cons, ha, hr]

/-- C9: for every `bombs` list whose bombs all have `exploded = false`, `update()`
returns and the list afterwards consists of exactly the bombs with
`progress + 0.007 < 0.7` and `timeSinceThrow + 1/60 < 1.5`, in their original
relative order, each advanced once (`timeSinceThrow` increased by exactly `1/60`,
`progress` by exactly `0.007`); hence after the tick no live bomb has
`progress >= 0.7` or `timeSinceThrow >= 1.5`. -/
theorem C9_survivors_advance_once (keys : Keys) (s : State)
    (hlive : ∀ b ∈ s.bombs, b.exploded = false) :
    ∃ s', update keys s = some s' ∧
      s'.bombs = (s.bombs.filter (fun b =>
          decide (b.progress + 7 / 1000 < 7 / 10 ∧
            b.timeSinceThrow + 1 / 60 < 3 / 2))).map stepBomb ∧
      (∀ b ∈ s.bombs, (stepBomb b).timeSinceThrow = b.timeSinceThrow + 1 / 60 ∧
        (stepBomb b).progress = b.progress + 7 / 1000 ∧
        (stepBomb b).exploded = false) ∧
      (∀ b' ∈ s'.bombs, b'.progress < 7 / 10 ∧ b'.timeSinceThrow < 3 / 2 ∧
        b'.exploded = false) := by
  obtain ⟨s', hs', _, _, _, hb, _⟩ := update_frame keys s
  have hlist : s'.bombs = (s.bombs.filter (fun b =>
      decide (b.progress + 7 / 1000 < 7 / 10 ∧
        b.timeSinceThrow + 1 / 60 < 3 / 2))).map stepBomb := by
    rw [hb, survivors_eq_filter_map]
    congr 1
    exact filter_congr_mem _ _ _ (fun b hbm => not_detonates_stepBomb b (hlive b hbm))
  refine ⟨s', hs', hlist, ?_, ?_⟩
  · intro b hbm
    exact ⟨stepBomb_timeSinceThrow b, stepBomb_progress b (hlive b hbm),
      by rw [stepBomb_exploded, hlive b hbm]⟩
  · intro b' hb'
    rw [hlist, List.mem_map] at hb'
    obtain ⟨b, hbf, rfl⟩ := hb'
    rw [List.mem_filter, decide_eq_true_eq] at hbf
    obtain ⟨hbm, hp, ht⟩ := hbf
    rw [stepBomb_progress b (hlive b hbm), stepBomb_timeSinceThrow, stepBomb_exploded]
    exact ⟨hp, ht, hlive b hbm⟩

/-- C9 (witness): of the two live bombs of `twoBombs`, a frame keeps exactly the
first. -/
theorem C9_survivors_advance_once_witness :
    (∀ b ∈ twoBombs.bombs, b.exploded = false) ∧
    ∃ s', update noKeys twoBombs = some s' ∧
      s'.bombs = (twoBombs.bombs.filter (fun b =>
          decide (b.progress + 7 / 1000 < 7 / 10 ∧
            b.timeSinceThrow + 1 / 60 < 3 / 2))).map stepBomb ∧
      (∀ b' ∈ s'.bombs, b'.progress < 7 / 10 ∧ b'.timeSinceThrow < 3 / 2 ∧
        b'.exploded = false) := by
  have hlive : ∀ b ∈ twoBombs.bombs, b.exploded = false := by
    intro b hb
    simp only [twoBombs, List.mem_cons, List.mem_singleton, List.not_mem_nil, or_false] at hb
    rcases hb with rfl | rfl <;> rfl
  obtain ⟨s', h1, h2, _, h4⟩ := C9_survivors_advance_once noKeys twoBombs hlive
  exact ⟨hlive, s', h1, h2, h4⟩

theorem mem_grown (e : Explosion) (es : List Explosion) (he : e ∈ es)
    (hr : e.radius + e.expandSpeed < e.maxRadius) :
    ({ e with radius := e.radius + e.expandSpeed, opacity := e.opacity - e.fadeSpeed } :
      Explosion) ∈ grown es := by
  unfold grown
  rw [List.mem_filter]
  refine ⟨List.mem_map.mpr ⟨e, he, rfl⟩, ?_⟩
  simp only [decide_eq_true_eq, not_le, ge_iff_le]
  exact hr

/-- C10: for every live bomb (at any index of `bombs`) whose `timeSinceThrow`
reaches `>= 1.5` on a tick while its progress on that tick is still `< 0.7`, the bomb
loop of `update()` removes the bomb on that tick and pushes an explosion centred at
`(startX + (targetX - startX) * e, startY + (targetY - startY) * e)` with
`e = 1 - (1 - min(progress, 1))^3` for the bomb's progress on that tick (the
progress test of line 224 is false, the age test true); `update()` as a whole returns with the bomb removed and that explosion, grown once, in
`explosions`. -/
theorem C10_timeout_path (keys : Keys) (s : State) (pre : List Bomb) (b : Bomb)
    (suf : List Bomb) (hb : s.bombs = pre ++ b :: suf) (hlive : b.exploded = false)
    (htime : b.timeSinceThrow + 1 / 60 ≥ 3 / 2) (hprog : b.progress + 7 / 1000 < 7 / 10) :
    ((stepBomb b).progress < 7 / 10 ∧ (stepBomb b).timeSinceThrow ≥ 3 / 2 ∧
      detonates (stepBomb b) = true) ∧
    (∃ s1, updateBombs s = some s1 ∧
      s1.bombs = survivors pre ++ survivors suf ∧
      s1.explosions = s.explosions ++ (blasts suf ++
        [{ x := b.startX + (b.targetX - b.startX) *
                (1 - (1 - min (b.progress + 7 / 1000) 1) ^ 3),
           y := b.startY + (b.targetY - b.startY) *
                (1 - (1 - min (b.progress + 7 / 1000) 1) ^ 3),
           radius := 0, maxRadius := 300, opacity := 1, expandSpeed := 20,
           fadeSpeed := 3 / 50 }] ++ blasts pre)) ∧
    ∃ s', update keys s = some s' ∧
      s'.bombs = survivors pre ++ survivors suf ∧
      s'.bombs.length < s.bombs.length ∧
      ({ x := b.startX + (b.targetX - b.startX) *
              (1 - (1 - min (b.progress + 7 / 1000) 1) ^ 3),
         y := b.startY + (b.targetY - b.startY) *
              (1 - (1 - min (b.progress + 7 / 1000) 1) ^ 3),
         radius := 20, maxRadius := 300, opacity := 47 / 50, expandSpeed := 20,
         fadeSpeed := 3 / 50 } : Explosion) ∈ s'.explosions := by
  have he : (stepBomb b).exploded = false := by rw [stepBomb_exploded, hlive]
  have hdet : detonates (stepBomb b) = true := by
    rw [detonates_iff _ he, stepBomb_timeSinceThrow]
    exact Or.inr htime
  have hsurv : survivors (pre ++ b :: suf) = survivors pre ++ survivors suf := by
    rw [survivors_append]
    congr 1
    simp [survivors, hdet]
  have hblast : blasts (pre ++ b :: suf) = blasts suf ++
      [{ x := b.startX + (b.targetX - b.startX) *
              (1 - (1 - min (b.progress + 7 / 1000) 1) ^ 3),
         y := b.startY + (b.targetY - b.startY) *
              (1 - (1 - min (b.progress + 7 / 1000) 1) ^ 3),
         radius := 0, maxRadius := 300, opacity := 1, expandSpeed := 20,
         fadeSpeed := 3 / 50 }] ++ blasts pre := by
    have hcons : pre ++ b :: suf = pre ++ ([b] ++ suf) := rfl
    rw [hcons, blasts_append, blasts_append]
    congr 2
    simp only [blasts, List.reverse_singleton, List.map_cons, List.map_nil, List.filter_cons,
      hdet, if_true, List.filter_nil, newExplosion, stepBomb_x b hlive, stepBomb_y b hlive]
  have hlen : (survivors pre ++ survivors suf).length < (pre ++ b :: suf).length := by
    have h1 : (survivors pre).length ≤ pre.length := by
      unfold survivors
      exact (List.length_filter_le _ _).trans (by rw [List.length_map])
    have h2 : (survivors suf).length ≤ suf.length := by
      unfold survivors
      exact (List.length_filter_le _ _).trans (by rw [List.length_map])
    simp only [List.length_append, List.length_cons]
    omega
  refine ⟨⟨?_, ?_, hdet⟩, ?_, ?_⟩
  · rw [stepBomb_progress b hlive]
    exact hprog
  · rw [stepBomb_timeSinceThrow]
    exact htime
  · refine ⟨_, updateBombs_eq s, ?_, ?_⟩
    · show survivors s.bombs = _
      rw [hb, hsurv]
    · show s.explosions ++ blasts s.bombs = _
      rw [hb, hblast]
  · obtain ⟨s', hs', _, _, _, hbs, hes⟩ := update_frame keys s
    refine ⟨s', hs', ?_, ?_, ?_⟩
    · rw [hbs, hb, hsurv]
    · rw [hbs, hb, hsurv]
      exact hlen
    · rw [hes, hb, hblast]
      have hm := mem_grown
        { x := b.startX + (b.targetX - b.startX) *
                (1 - (1 - min (b.progress + 7 / 1000) 1) ^ 3),
          y := b.startY + (b.targetY - b.startY) *
                (1 - (1 - min (b.progress + 7 / 1000) 1) ^ 3),
          radius := 0, maxRadius := 300, opacity := 1, expandSpeed := 20,
          fadeSpeed := 3 / 50 }
        (s.explosions ++ (blasts suf ++
          [{ x := b.startX + (b.targetX - b.startX) *
                  (1 - (1 - min (b.progress + 7 / 1000) 1) ^ 3),
             y := b.startY + (b.targetY - b.startY) *
                  (1 - (1 - min (b.progress + 7 / 1000) 1) ^ 3),
             radius := 0, maxRadius := 300, opacity := 1, expandSpeed := 20,
             fadeSpeed := 3 / 50 }] ++ blasts pre))
        (by simp) (by norm_num)
      norm_num at hm ⊢
      exact hm

/-- C10 (witness): the second bomb of `twoBombs` times out at progress `0.507`. -/
theorem C10_timeout_path_witness :
    ∃ s', update noKeys twoBombs = some s' ∧ s'.bombs.length < twoBombs.bombs.length ∧
      ({ x := 0 + (100 - 0) * (1 - (1 - min ((1 : ℚ) / 2 + 7 / 1000) 1) ^ 3),
         y := 0 + (0 - 0) * (1 - (1 - min ((1 : ℚ) / 2 + 7 / 1000) 1) ^ 3),
         radius := 20, maxRadius := 300, opacity := 47 / 50, expandSpeed := 20,
         fadeSpeed := 3 / 50 } : Explosion) ∈ s'.explosions := by
  obtain ⟨s', h1, _, h3, h4⟩ := (C10_timeout_path noKeys twoBombs
    [{ startX := 0, startY := 0, targetX := 100, targetY := 0, x := 0, y := 0,
       progress := 0, exploded := false, radius := 10, ownerId := none,
       rotationAngle := 0, timeSinceThrow := 0 }]
    { startX := 0, startY := 0, targetX := 100, targetY := 0, x := 0, y := 0,
      progress := 1 / 2, exploded := false, radius := 10, ownerId := none,
      rotationAngle := 0, timeSinceThrow := 149 / 100 }
    [] rfl rfl (by norm_num) (by norm_num)).2.2
  exact ⟨s', h1, h3, h4⟩

/-! ### Lifetime of an explosion -/

theorem grown_eq_filter_map (es : List Explosion) :
    grown es = (es.filter (fun e => decide (e.radius + e.expandSpeed < e.maxRadius))).map
      advanceExplosion := by
  unfold grown
  rw [List.filter_map]
  congr 1
  apply filter_congr_mem
  intro e _
  simp [Function.comp]

theorem grown_iterate_append (n : Nat) :
    ∀ xs ys : List Explosion, grown^[n] (xs ++ ys) = grown^[n] xs ++ grown^[n] ys := by
  induction n with
  | zero => exact fun _ _ => rfl
  | succ n ih =>
    intro xs ys
    rw [Function.iterate_succ_apply, Function.iterate_succ_apply, Function.iterate_succ_apply,
      grown_append, ih]

theorem updateExplosionsTimes_eq (n : Nat) :
    ∀ s : State, updateExplosionsTimes n s =
      some { s with explosions := grown^[n] s.explosions } := by
  induction n with
  | zero => exact fun s => rfl
  | succ n ih =>
    intro s
    rw [updateExplosionsTimes, updateExplosions_eq, Option.some_bind, ih,
      Function.iterate_succ_apply]

/-- A fresh explosion after `n ≤ 14` calls of `updateExplosions`. -/
theorem grown_iterate_fresh (x y : ℚ) (n : Nat) (hn : n ≤ 14) :
    grown^[n] [freshExplosion x y] =
      [{ x := x, y := y, radius := 20 * (n : ℚ), maxRadius := 300,
         opacity := 1 - 3 / 50 * (n : ℚ), expandSpeed := 20, fadeSpeed := 3 / 50 }] := by
  induction n with
  | zero => simp [freshExplosion]
  | succ n ih =>
    rw [Function.iterate_succ_apply', ih (by omega)]
    have hq : ((n + 1 : Nat) : ℚ) ≤ 14 := by exact_mod_cast hn
    push_cast at hq
    have hlt : (20 : ℚ) * (n : ℚ) + 20 < 300 := by linarith
    simp only [grown, List.map_cons, List.map_nil, List.filter_cons, ge_iff_le, not_le, hlt,
      decide_True, if_true, List.filter_nil]
    push_cast
    congr 2 <;> ring

/-- The 15th call removes the explosion. -/
theorem grown_fifteen_fresh (x y : ℚ) : grown^[15] [freshExplosion x y] = [] := by
  have h15 : grown^[15] [freshExplosion x y] = grown (grown^[14] [freshExplosion x y]) :=
    Function.iterate_succ_apply' grown 14 [freshExplosion x y]
  rw [h15, grown_iterate_fresh x y 14 (le_refl 14)]
  simp only [grown, List.map_cons, List.map_nil, List.filter_cons, List.filter_nil]
  norm_num

/-- A fresh explosion inside a longer `explosions` list: the other explosions evolve
on their own. -/
theorem grown_iterate_around (n : Nat) (pre suf : List Explosion) (x y : ℚ) :
    grown^[n] (pre ++ freshExplosion x y :: suf) =
      grown^[n] pre ++ (grown^[n] [freshExplosion x y] ++ grown^[n] suf) := by
  have hcons : pre ++ freshExplosion x y :: suf = pre ++ ([freshExplosion x y] ++ suf) := rfl
  rw [hcons, grown_iterate_append, grown_iterate_append]

/-- The last call: after `n = 14` calls the explosion is still there, and call
`n + 1` removes it at radius `300` and opacity `1/10`. -/
theorem fresh_last_call (s : State) (x y : ℚ) (pre suf : List Explosion)
    (hs : s.explosions = pre ++ freshExplosion x y :: suf) (n : Nat) (hn : n = 14) :
    ∃ s14 s15 e, updateExplosionsTimes n s = some s14 ∧
      s14.explosions = grown^[n] pre ++ (e :: grown^[n] suf) ∧
      updateExplosions s14 = some s15 ∧ updateExplosionsTimes (n + 1) s = some s15 ∧
      (advanceExplosion e).radius = 300 ∧ (advanceExplosion e).opacity = 1 / 10 ∧
      (advanceExplosion e).radius ≥ (advanceExplosion e).maxRadius ∧
      s15.explosions = grown^[n + 1] pre ++ grown^[n + 1] suf := by
  have hfresh := grown_iterate_fresh x y n (by omega)
  have hlast : grown^[n + 1] [freshExplosion x y] = [] := by
    rw [hn]
    exact grown_fifteen_fresh x y
  have hq : (n : ℚ) = 14 := by exact_mod_cast hn
  have hbefore : grown^[n] s.explosions = grown^[n] pre ++
      ({ x := x, y := y, radius := 20 * (n : ℚ), maxRadius := 300,
         opacity := 1 - 3 / 50 * (n : ℚ), expandSpeed := 20, fadeSpeed := 3 / 50 } ::
        grown^[n] suf) := by
    rw [hs, grown_iterate_around, hfresh, List.singleton_append]
  have hafter : grown^[n + 1] s.explosions = grown^[n + 1] pre ++ grown^[n + 1] suf := by
    rw [hs, grown_iterate_around, hlast, List.nil_append]
  have hstep : grown (grown^[n] s.explosions) = grown^[n + 1] s.explosions :=
    (Function.iterate_succ_apply' grown n s.explosions).symm
  refine ⟨{ s with explosions := grown^[n] s.explosions },
    { s with explosions := grown^[n + 1] s.explosions }, _,
    updateExplosionsTimes_eq n s, hbefore, ?_, updateExplosionsTimes_eq (n + 1) s,
    ?_, ?_, ?_, hafter⟩
  · rw [updateExplosions_eq]
    simp only [hstep]
  · simp only [advanceExplosion, hq]
    norm_num
  · simp only [advanceExplosion, hq]
    norm_num
  · simp only [advanceExplosion, hq]
    norm_num

/-- C11: an explosion created with radius `0`, maxRadius `300`, opacity `1`,
expandSpeed `20`, fadeSpeed `0.06` (at any centre, anywhere in `explosions`) is still
in `explosions` after each of its first 14 `updateExplosions()` calls, with radius
`20 n` and opacity `1 - 0.06 n` after `n` calls, and is removed by exactly the 15th
call, in which its radius becomes `300` and its opacity `1 - 0.06 * 15 = 0.1`. -/
theorem C11_default_effect_lifetime (s : State) (x y : ℚ) (pre suf : List Explosion)
    (hs : s.explosions = pre ++ freshExplosion x y :: suf) :
    (∀ n : Nat, n ≤ 14 → ∃ sn, updateExplosionsTimes n s = some sn ∧
      sn.explosions = grown^[n] pre ++
        ({ x := x, y := y, radius := 20 * (n : ℚ), maxRadius := 300,
           opacity := 1 - 3 / 50 * (n : ℚ), expandSpeed := 20, fadeSpeed := 3 / 50 } ::
          grown^[n] suf)) ∧
    ∃ s14 s15 e, updateExplosionsTimes 14 s = some s14 ∧
      s14.explosions = grown^[14] pre ++ (e :: grown^[14] suf) ∧
      updateExplosions s14 = some s15 ∧ updateExplosionsTimes 15 s = some s15 ∧
      (advanceExplosion e).radius = 300 ∧ (advanceExplosion e).opacity = 1 / 10 ∧
      (advanceExplosion e).radius ≥ (advanceExplosion e).maxRadius ∧
      s15.explosions = grown^[15] pre ++ grown^[15] suf := by
  constructor
  · intro n hn
    refine ⟨_, updateExplosionsTimes_eq n s, ?_⟩
    show grown^[n] s.explosions = _
    rw [hs, grown_iterate_around, grown_iterate_fresh x y n hn, List.singleton_append]
  · exact fresh_last_call s x y pre suf hs 14 rfl

/-- C11 (witness): a single fresh explosion at `(5, 7)` in the initial state. -/
theorem C11_default_effect_lifetime_witness :
    ({ initialState with explosions := [freshExplosion 5 7] } : State).explosions =
      [] ++ freshExplosion 5 7 :: [] ∧
    ∃ s14 s15 e,
      updateExplosionsTimes 14 { initialState with explosions := [freshExplosion 5 7] } =
        some s14 ∧
      s14.explosions = grown^[14] [] ++ (e :: grown^[14] []) ∧
      updateExplosions s14 = some s15 ∧
      updateExplosionsTimes 15 { initialState with explosions := [freshExplosion 5 7] } =
        some s15 ∧
      (advanceExplosion e).radius = 300 ∧ (advanceExplosion e).opacity = 1 / 10 ∧
      (advanceExplosion e).radius ≥ (advanceExplosion e).maxRadius ∧
      s15.explosions = grown^[15] [] ++ grown^[15] [] :=
  ⟨rfl, (C11_default_effect_lifetime { initialState with explosions := [freshExplosion 5 7] }
    5 7 [] [] rfl).2⟩

/-- C12: for every `explosions` list, with arbitrary radius, maxRadius, opacity,
expandSpeed and fadeSpeed per effect, one `updateExplosions()` returns, changes
nothing but `explosions`, and leaves exactly the effects with
`radius + expandSpeed < maxRadius`, in original order, each with radius increased by
`expandSpeed` and opacity decreased by `fadeSpeed`; so an effect (of any opacity,
also `<= 0`) is retained exactly when its new radius is `< maxRadius`, e.g. the
effect of opacity `0` and radius `0` stays, with opacity `-0.06`. -/
theorem C12_removal_is_radius_driven (s : State) :
    ∃ s', updateExplosions s = some s' ∧
      s' = { s with explosions := s'.explosions } ∧
      s'.explosions =
        (s.explosions.filter (fun e => decide (e.radius + e.expandSpeed < e.maxRadius))).map
          (fun e => { e with radius := e.radius + e.expandSpeed,
                             opacity := e.opacity - e.fadeSpeed }) ∧
      (∀ e ∈ s.explosions,
        (({ e with radius := e.radius + e.expandSpeed,
                   opacity := e.opacity - e.fadeSpeed } : Explosion) ∈ s'.explosions ↔
          e.radius + e.expandSpeed < e.maxRadius)) ∧
      (updateExplosions { s with explosions := [fadedExplosion] }).map State.explosions =
        some [{ fadedExplosion with radius := 20, opacity := -(3 / 50) }] := by
  refine ⟨_, updateExplosions_eq s, rfl, grown_eq_filter_map s.explosions, ?_, ?_⟩
  · intro e he
    show advanceExplosion e ∈ grown s.explosions ↔ _
    rw [grown_eq_filter_map]
    constructor
    · intro hmem
      obtain ⟨e0, h0, heq⟩ := List.mem_map.mp hmem
      rw [List.mem_filter, decide_eq_true_eq] at h0
      have hr : e0.radius + e0.expandSpeed = e.radius + e.expandSpeed :=
        congrArg Explosion.radius heq
      have hm : e0.maxRadius = e.maxRadius := by
        have h := congrArg Explosion.maxRadius heq
        exact h
      rw [← hr, ← hm]
      exact h0.2
    · intro hlt
      exact List.mem_map.mpr ⟨e, List.mem_filter.mpr ⟨he, by simpa using hlt⟩, rfl⟩
  · rw [updateExplosions_eq]
    simp only [Option.map_some', grown, fadedExplosion, List.map_cons, List.map_nil,
      List.filter_cons, List.filter_nil]
    norm_num

/-! ### Outbound movement messages -/

theorem countMoves_append (xs ys : List Output) :
    countMoves (xs ++ ys) = countMoves xs + countMoves ys := by
  induction xs with
  | nil => simp [countMoves]
  | cons o rest ih =>
    cases o with
    | registerPlayer u => simpa [countMoves] using ih
    | playerMove x y =>
      show countMoves (rest ++ ys) + 1 = countMoves rest + 1 + countMoves ys
      rw [ih]
      omega
    | sound p a b c d e => simpa [countMoves] using ih
    | builtinWrite o q v => simpa [countMoves] using ih

theorem countMoves_booms (px py : ℚ) (bs : List Bomb) : countMoves (booms px py bs) = 0 := by
  unfold booms
  induction (List.filter detonates (List.map stepBomb bs.reverse)) with
  | nil => rfl
  | cons b rest ih => simpa [countMoves] using ih

theorem countMoves_moveMessage (x y lastX lastY : ℚ) :
    countMoves (moveMessage x y lastX lastY) = if x ≠ lastX ∨ y ≠ lastY then 1 else 0 := by
  unfold moveMessage
  split <;> rfl

/-- What `emitMove` sends and records. -/
theorem emitMove_outbox (s : State) :
    (emitMove s).outbox =
        s.outbox ++ moveMessage s.player.x s.player.y s.lastSentPlayerX s.lastSentPlayerY ∧
      (emitMove s).lastSentPlayerX = s.player.x ∧
      (emitMove s).lastSentPlayerY = s.player.y := by
  unfold emitMove moveMessage
  by_cases h : s.player.x ≠ s.lastSentPlayerX ∨ s.player.y ≠ s.lastSentPlayerY
  · simp only [h, if_true, and_self]
  · simp only [h, if_false, List.append_nil, true_and]
    rw [not_or, not_not, not_not] at h
    exact ⟨h.1.symm, h.2.symm⟩

/-- What one frame sends: the movement message decided after the clamp, then the
sound calls of the bomb loop; and the last sent position it leaves. -/
theorem update_outbox (keys : Keys) (s : State) :
    ∃ s', update keys s = some s' ∧ s'.player = (movePlayer keys s).player ∧
      s'.lastSentPlayerX = s'.player.x ∧ s'.lastSentPlayerY = s'.player.y ∧
      s'.outbox = s.outbox ++
        (moveMessage s'.player.x s'.player.y s.lastSentPlayerX s.lastSentPlayerY ++
          booms s'.player.x s'.player.y s.bombs) := by
  obtain ⟨hp, _, _, _, _⟩ := emitMove_frame (updateCamera (movePlayer keys s))
  obtain ⟨ho, hx, hy⟩ := emitMove_outbox (updateCamera (movePlayer keys s))
  refine ⟨_, update_eq keys s, hp, ?_, ?_, ?_⟩
  · show (emitMove (updateCamera (movePlayer keys s))).lastSentPlayerX =
      (emitMove (updateCamera (movePlayer keys s))).player.x
    rw [hx, hp]
  · show (emitMove (updateCamera (movePlayer keys s))).lastSentPlayerY =
      (emitMove (updateCamera (movePlayer keys s))).player.y
    rw [hy, hp]
  · show (emitMove (updateCamera (movePlayer keys s))).outbox ++
        booms (movePlayer keys s).player.x (movePlayer keys s).player.y s.bombs =
      s.outbox ++ (moveMessage (emitMove (updateCamera (movePlayer keys s))).player.x
        (emitMove (updateCamera (movePlayer keys s))).player.y s.lastSentPlayerX
        s.lastSentPlayerY ++
        booms (emitMove (updateCamera (movePlayer keys s))).player.x
          (emitMove (updateCamera (movePlayer keys s))).player.y s.bombs)
    rw [ho, hp, List.append_assoc]
    rfl

theorem handle_lastSent (rnd : Nat → Fin 16) (e : Event) (s : State) :
    (handle rnd e s).lastSentPlayerX = s.lastSentPlayerX ∧
      (handle rnd e s).lastSentPlayerY = s.lastSentPlayerY ∧
      countMoves (handle rnd e s).outbox = countMoves s.outbox := by
  cases e with
  | connect sid =>
    refine ⟨rfl, rfl, ?_⟩
    simp only [handle, onConnect, countMoves_append, countMoves, Nat.add_zero]
  | currentPlayers playersData =>
    simp only [handle, onCurrentPlayers]
    generalize playersData.map Prod.fst = ks
    induction ks generalizing s with
    | nil => exact ⟨rfl, rfl, rfl⟩
    | cons id rest ih =>
      rw [List.foldl_cons]
      have hbody : (currentPlayersBody rnd playersData s id).lastSentPlayerX =
            s.lastSentPlayerX ∧
          (currentPlayersBody rnd playersData s id).lastSentPlayerY =
            s.lastSentPlayerY ∧
          (currentPlayersBody rnd playersData s id).outbox = s.outbox := by
        unfold currentPlayersBody
        split
        · exact ⟨rfl, rfl, rfl⟩
        · split <;> exact ⟨rfl, rfl, rfl⟩
      obtain ⟨i1, i2, i3⟩ := ih (currentPlayersBody rnd playersData s id)
      exact ⟨i1.trans hbody.1, i2.trans hbody.2.1, by rw [i3, hbody.2.2]⟩
  | newPlayer d =>
    simp only [handle, onNewPlayer]
    split <;> exact ⟨rfl, rfl, rfl⟩
  | playerMoved id x y =>
    simp only [handle, onPlayerMoved]
    split
    · exact ⟨rfl, rfl, rfl⟩
    · split
      · refine ⟨rfl, rfl, ?_⟩
        simp only [countMoves_append, countMoves, Nat.add_zero]
      · exact ⟨rfl, rfl, rfl⟩
  | bombDropped d =>
    refine ⟨rfl, rfl, ?_⟩
    simp only [handle, onBombDropped, playSoundAtVolume, countMoves_append, countMoves,
      Nat.add_zero]
  | playerHealthUpdate id health =>
    simp only [handle, onPlayerHealthUpdate]
    split
    · exact ⟨rfl, rfl, rfl⟩
    · split
      · exact ⟨rfl, rfl, rfl⟩
      · split
        · refine ⟨rfl, rfl, ?_⟩
          simp only [countMoves_append, countMoves, Nat.add_zero]
        · exact ⟨rfl, rfl, rfl⟩
  | playerDisconnected id => exact ⟨rfl, rfl, rfl⟩

/-- Inbound events never touch the last sent position and never send a movement
message. -/
theorem run_events_lastSent (rnd : Nat → Fin 16) (mid : List Event) :
    ∀ s : State, ∃ sm, run rnd (mid.map Step.event) s = some sm ∧
      sm.lastSentPlayerX = s.lastSentPlayerX ∧ sm.lastSentPlayerY = s.lastSentPlayerY ∧
      countMoves sm.outbox = countMoves s.outbox := by
  induction mid with
  | nil => exact fun s => ⟨s, rfl, rfl, rfl, rfl⟩
  | cons e rest ih =>
    intro s
    obtain ⟨h1, h2, h3⟩ := handle_lastSent rnd e s
    obtain ⟨sm, hrun, i1, i2, i3⟩ := ih (handle rnd e s)
    exact ⟨sm, by simp only [List.map_cons, run, step, Option.some_bind]; exact hrun,
      i1.trans h1, i2.trans h2, i3.trans h3⟩

/-- C13: on every `update()` a `playerMove{x,y}` is emitted if and only if the
post-clamp local position differs from `(lastSentPlayerX, lastSentPlayerY)` (the only
other calls the tick makes are the sound calls of the bomb loop), and after every
`update()` the last-sent pair equals the local position; consequently a tick whose
resulting local position equals that of the tick before it (inbound events may come
in between) emits no `playerMove`, so the two ticks emit at most one in total. -/
theorem C13_outbound_move_dedup (rnd : Nat → Fin 16) (keys1 keys2 : Keys) (s : State)
    (mid : List Event) :
    ∃ s1 s2, update keys1 s = some s1 ∧
      ((s1.player.x ≠ s.lastSentPlayerX ∨ s1.player.y ≠ s.lastSentPlayerY) →
        s1.outbox = s.outbox ++ (Output.playerMove s1.player.x s1.player.y ::
          booms s1.player.x s1.player.y s.bombs)) ∧
      (¬ (s1.player.x ≠ s.lastSentPlayerX ∨ s1.player.y ≠ s.lastSentPlayerY) →
        s1.outbox = s.outbox ++ booms s1.player.x s1.player.y s.bombs) ∧
      countMoves (booms s1.player.x s1.player.y s.bombs) = 0 ∧
      countMoves s1.outbox = countMoves s.outbox +
        (if s1.player.x ≠ s.lastSentPlayerX ∨ s1.player.y ≠ s.lastSentPlayerY then 1
          else 0) ∧
      s1.lastSentPlayerX = s1.player.x ∧ s1.lastSentPlayerY = s1.player.y ∧
      run rnd (mid.map Step.event ++ [Step.tick keys2]) s1 = some s2 ∧
      s2.lastSentPlayerX = s2.player.x ∧ s2.lastSentPlayerY = s2.player.y ∧
      (s2.player.x = s1.player.x → s2.player.y = s1.player.y →
        countMoves s2.outbox = countMoves s1.outbox ∧
        countMoves s2.outbox ≤ countMoves s.outbox + 1) := by
  obtain ⟨s1, h1, _, hx1, hy1, ho1⟩ := update_outbox keys1 s
  obtain ⟨sm, hm, mx, my, mo⟩ := run_events_lastSent rnd mid s1
  obtain ⟨s2, h2, _, hx2, hy2, ho2⟩ := update_outbox keys2 sm
  have hcount1 : countMoves s1.outbox = countMoves s.outbox +
      (if s1.player.x ≠ s.lastSentPlayerX ∨ s1.player.y ≠ s.lastSentPlayerY then 1
        else 0) := by
    rw [ho1, countMoves_append, countMoves_append, countMoves_booms, countMoves_moveMessage]
    rfl
  refine ⟨s1, s2, h1, ?_, ?_, countMoves_booms _ _ _, hcount1, hx1, hy1, ?_, hx2, hy2, ?_⟩
  · intro hd
    rw [ho1]
    simp only [moveMessage, hd, if_true, List.singleton_append]
  · intro hd
    rw [ho1]
    simp only [moveMessage, hd, if_false, List.nil_append]
  · rw [run_append, hm]
    simp only [Option.some_bind, run, step, h2]
  · intro ex ey
    have hsame : ¬ (s2.player.x ≠ sm.lastSentPlayerX ∨ s2.player.y ≠ sm.lastSentPlayerY) := by
      rw [mx, my, hx1, hy1, ex, ey]
      simp
    have hcount2 : countMoves s2.outbox = countMoves s1.outbox := by
      rw [ho2, countMoves_append, countMoves_append, countMoves_booms,
        countMoves_moveMessage, if_neg hsame, mo]
      rfl
    refine ⟨hcount2, ?_⟩
    rw [hcount2, hcount1]
    split <;> omega

/-- C12 (witness): the effect of opacity `0` and radius `0` is retained by one
`updateExplosions()`, with opacity `-0.06`. -/
theorem C12_removal_is_radius_driven_witness :
    fadedExplosion ∈ ({ initialState with explosions := [fadedExplosion] } : State).explosions ∧
    fadedExplosion.opacity ≤ 0 ∧
    fadedExplosion.radius + fadedExplosion.expandSpeed < fadedExplosion.maxRadius ∧
    ∃ s', updateExplosions { initialState with explosions := [fadedExplosion] } = some s' ∧
      ({ fadedExplosion with radius := fadedExplosion.radius + fadedExplosion.expandSpeed,
                             opacity := fadedExplosion.opacity - fadedExplosion.fadeSpeed } :
        Explosion) ∈ s'.explosions := by
  have hmem : fadedExplosion ∈
      ({ initialState with explosions := [fadedExplosion] } : State).explosions :=
    List.mem_singleton.mpr rfl
  have hlt : fadedExplosion.radius + fadedExplosion.expandSpeed < fadedExplosion.maxRadius := by
    norm_num [fadedExplosion]
  obtain ⟨s', h1, _, _, h4, _⟩ :=
    C12_removal_is_radius_driven { initialState with explosions := [fadedExplosion] }
  exact ⟨hmem, by norm_num [fadedExplosion], hlt, s', h1, (h4 fadedExplosion hmem).mpr hlt⟩

/-- C13 (witness): two frames without keys from the initial state: the first moves
the player from `(0, 0)` to `(20, 20)` and sends one message, the second sends none. -/
theorem C13_outbound_move_dedup_witness :
    ∃ s1 s2, update noKeys initialState = some s1 ∧
      run (fun _ => 0) (([] : List Event).map Step.event ++ [Step.tick noKeys]) s1 = some s2 ∧
      s2.player.x = s1.player.x ∧ s2.player.y = s1.player.y ∧
      countMoves s1.outbox = 1 ∧ countMoves s2.outbox = 1 := by
  obtain ⟨s1, s2, h1, _, _, _, hc, _, _, h2, _, _, hsame⟩ :=
    C13_outbound_move_dedup (fun _ => 0) noKeys noKeys initialState []
  obtain ⟨t1, ht1, hp1, _⟩ := update_frame noKeys initialState
  have e1 : s1 = t1 := Option.some.inj (h1.symm.trans ht1)
  have hx1 : s1.player.x = 20 := by
    rw [e1, hp1]
    simp only [movePlayer, noKeys, initialState, worldSize]
    norm_num
  have hy1 : s1.player.y = 20 := by
    rw [e1, hp1]
    simp only [movePlayer, noKeys, initialState, worldSize]
    norm_num
  have hs1 : s1.player.size = 20 ∧ s1.player.speed = 4 := by
    rw [e1, hp1]
    exact ⟨rfl, rfl⟩
  obtain ⟨t2, ht2, hp2, _⟩ := update_frame noKeys s1
  have h2' : update noKeys s1 = some s2 := by
    simpa [run, step] using h2
  have e2 : s2 = t2 := Option.some.inj (h2'.symm.trans ht2)
  have hx2 : s2.player.x = s1.player.x := by
    rw [e2, hp2]
    simp only [movePlayer, noKeys, hx1, hs1.1, worldSize]
    norm_num
  have hy2 : s2.player.y = s1.player.y := by
    rw [e2, hp2]
    simp only [movePlayer, noKeys, hy1, hs1.1, worldSize]
    norm_num
  have hc1 : countMoves s1.outbox = 1 := by
    rw [hc, hx1]
    simp [initialState, countMoves]
  exact ⟨s1, s2, h1, h2, hx2, hy2, hc1, by rw [(hsame hx2 hy2).1, hc1]⟩

/-! ### Health routing and the local id -/

theorem onPlayerHealthUpdate_local (id : String) (health : ℚ) (s : State)
    (h : some id = s.player.id) :
    onPlayerHealthUpdate id health s =
      { s with player := { s.player with health := health } } := by
  simp [onPlayerHealthUpdate, h]

theorem onPlayerHealthUpdate_remote (id : String) (health : ℚ) (s : State)
    (h : some id ≠ s.player.id) (entry : PlayerData)
    (he : lookup id s.remotePlayers = some entry) :
    onPlayerHealthUpdate id health s =
      { s with remotePlayers :=
          assign id { entry with health := some health } s.remotePlayers } := by
  simp [onPlayerHealthUpdate, h, he]

theorem onPlayerHealthUpdate_unknown (id : String) (health : ℚ) (s : State)
    (h : some id ≠ s.player.id) (he : lookup id s.remotePlayers = none)
    (hown : id ∉ inheritedNames) :
    onPlayerHealthUpdate id health s = s := by
  simp [onPlayerHealthUpdate, h, he, hown]

/-- A health update addressed to an inherited name that is neither the local id nor
an own key is not a no-op: the guard of line 156 holds and `health` is written onto
the built-in object. -/
theorem onPlayerHealthUpdate_inherited (id : String) (health : ℚ) (s : State)
    (h : some id ≠ s.player.id) (he : lookup id s.remotePlayers = none)
    (hin : id ∈ inheritedNames) :
    onPlayerHealthUpdate id health s =
      { s with outbox := s.outbox ++ [Output.builtinWrite id "health" health] } := by
  simp [onPlayerHealthUpdate, h, he, hin]

/-- C14 (the code at the failing input, and where the claim holds): for every state
and event `playerHealthUpdate{id, health}`: if `id` equals the local id (`player.id`),
the local player's health becomes `health` and nothing else changes; otherwise, if
`id` is present in `remotePlayers`, only that entry's health changes (its other
fields, all other entries and the local player are unchanged); otherwise, if `id` is
not a name inherited from `Object.prototype`, the whole state is unchanged. For the
id `"__proto__"`, neither local nor present, the guard of line 156 holds and
line 157 writes `health` onto `Object.prototype`: the handler is not a no-op. -/
theorem C14_health_routing (rnd : Nat → Fin 16) (s : State) (id : String) (health : ℚ) :
    (some id = s.player.id →
      handle rnd (Event.playerHealthUpdate id health) s =
          { s with player := { s.player with health := health } } ∧
        (handle rnd (Event.playerHealthUpdate id health) s).player.health = health ∧
        (handle rnd (Event.playerHealthUpdate id health) s).remotePlayers =
          s.remotePlayers) ∧
    (some id ≠ s.player.id → ∀ entry, lookup id s.remotePlayers = some entry →
      (handle rnd (Event.playerHealthUpdate id health) s).player = s.player ∧
        lookup id (handle rnd (Event.playerHealthUpdate id health) s).remotePlayers =
          some { entry with health := some health } ∧
        (∀ j, j ≠ id →
          lookup j (handle rnd (Event.playerHealthUpdate id health) s).remotePlayers =
            lookup j s.remotePlayers) ∧
        handle rnd (Event.playerHealthUpdate id health) s =
          { s with remotePlayers :=
              (handle rnd (Event.playerHealthUpdate id health) s).remotePlayers }) ∧
    (some id ≠ s.player.id → lookup id s.remotePlayers = none → id ∉ inheritedNames →
      handle rnd (Event.playerHealthUpdate id health) s = s) ∧
    (some "__proto__" ≠ withPlayerB.player.id ∧
      lookup "__proto__" withPlayerB.remotePlayers = none ∧
      handle rnd (Event.playerHealthUpdate "__proto__" 50) withPlayerB =
        { withPlayerB with outbox := withPlayerB.outbox ++
            [Output.builtinWrite "__proto__" "health" 50] } ∧
      handle rnd (Event.playerHealthUpdate "__proto__" 50) withPlayerB ≠ withPlayerB) := by
  refine ⟨?_, ?_, ?_, ?_⟩
  · intro h
    have e := onPlayerHealthUpdate_local id health s h
    refine ⟨e, ?_, ?_⟩
    · show (onPlayerHealthUpdate id health s).player.health = health
      rw [e]
    · show (onPlayerHealthUpdate id health s).remotePlayers = s.remotePlayers
      rw [e]
  · intro h entry he
    have e := onPlayerHealthUpdate_remote id health s h entry he
    refine ⟨?_, ?_, ?_, ?_⟩
    · show (onPlayerHealthUpdate id health s).player = s.player
      rw [e]
    · show lookup id (onPlayerHealthUpdate id health s).remotePlayers = _
      rw [e]
      exact lookup_assign_self id _ _
    · intro j hj
      show lookup j (onPlayerHealthUpdate id health s).remotePlayers = _
      rw [e]
      exact lookup_assign_ne id j _ _ hj
    · show onPlayerHealthUpdate id health s =
        { s with remotePlayers := (onPlayerHealthUpdate id health s).remotePlayers }
      rw [e]
  · intro h he hown
    exact onPlayerHealthUpdate_unknown id health s h he hown
  · have hne : some "__proto__" ≠ withPlayerB.player.id := by decide
    have hnone : lookup "__proto__" withPlayerB.remotePlayers = none := by
      simp [withPlayerB, handle, onNewPlayer, onConnect, initialState, playerB,
        colorOrRandom, keyOf, assign, lookup]
    have hwrite := onPlayerHealthUpdate_inherited "__proto__" 50 withPlayerB hne hnone
      (by decide)
    refine ⟨hne, hnone, hwrite, ?_⟩
    show onPlayerHealthUpdate "__proto__" 50 withPlayerB ≠ withPlayerB
    rw [hwrite]
    intro h
    have ho := congrArg (fun t => t.outbox.length) h
    simp at ho

/-- C14 (witness): a health update for the remote player `"B"`, for the local id
`"self"`, and for an unknown ordinary id. -/
theorem C14_health_routing_witness :
    some "B" ≠ withPlayerB.player.id ∧
    lookup "B" withPlayerB.remotePlayers = some { playerB with size := some 20 } ∧
    lookup "B"
        (handle (fun _ => 0) (Event.playerHealthUpdate "B" 50) withPlayerB).remotePlayers =
      some { playerB with size := some 20, health := some 50 } ∧
    (handle (fun _ => 0) (Event.playerHealthUpdate "self" 50) withPlayerB).player.health
      = 50 ∧
    "nobody" ∉ inheritedNames ∧
    handle (fun _ => 0) (Event.playerHealthUpdate "nobody" 50) withPlayerB = withPlayerB := by
  have hne : some "B" ≠ withPlayerB.player.id := by decide
  have hB : lookup "B" withPlayerB.remotePlayers = some { playerB with size := some 20 } := by
    simp [withPlayerB, handle, onNewPlayer, onConnect, initialState, playerB, colorOrRandom,
      keyOf, assign, lookup]
  refine ⟨hne, hB, ?_, ?_, by decide, ?_⟩
  · exact ((C14_health_routing (fun _ => 0) withPlayerB "B" 50).2.1 hne _ hB).2.1
  · exact ((C14_health_routing (fun _ => 0) withPlayerB "self" 50).1 rfl).2.1
  · refine (C14_health_routing (fun _ => 0) withPlayerB "nobody" 50).2.2.1 (by decide) ?_
      (by decide)
    simp [withPlayerB, handle, onNewPlayer, onConnect, initialState, playerB, colorOrRandom,
      keyOf, assign, lookup]

theorem currentPlayers_fold_socketId (rnd : Nat → Fin 16)
    (playersData : List (String × PlayerData)) (ks : List String) :
    ∀ s : State, (ks.foldl (currentPlayersBody rnd playersData) s).socketId = s.socketId := by
  induction ks with
  | nil => exact fun _ => rfl
  | cons id rest ih =>
    intro s
    rw [List.foldl_cons, ih]
    exact (currentPlayersBody_player rnd playersData s id).2.1

/-- A `newPlayer` event for the local id changes nothing. -/
theorem onNewPlayer_self (rnd : Nat → Fin 16) (d : PlayerData) (s : State)
    (h : d.id = s.socketId) : onNewPlayer rnd d s = s := by
  simp [onNewPlayer, h]

/-- One step that keeps the local id fixed keeps `remotePlayers` free of it. -/
theorem step_keeps_self_out (rnd : Nat → Fin 16) (sid : String) (st : Step)
    (hst : keepsSelfOut st = true) (s : State) (hs : s.socketId = some sid)
    (h : lookup sid s.remotePlayers = none) :
    ∃ s', step rnd st s = some s' ∧ s'.socketId = some sid ∧
      lookup sid s'.remotePlayers = none := by
  cases st with
  | tick keys =>
    obtain ⟨s', hs', _, hrp, hsock, _⟩ := update_frame keys s
    exact ⟨s', hs', by rw [hsock, hs], by rw [hrp]; exact h⟩
  | event e =>
    refine ⟨handle rnd e s, rfl, ?_⟩
    cases e with
    | connect k => simp [keepsSelfOut] at hst
    | currentPlayers playersData =>
      refine ⟨?_, ?_⟩
      · show (onCurrentPlayers rnd playersData s).socketId = some sid
        unfold onCurrentPlayers
        rw [currentPlayers_fold_socketId, hs]
      · show lookup sid (onCurrentPlayers rnd playersData s).remotePlayers = none
        unfold onCurrentPlayers
        rw [(currentPlayers_fold_remote rnd playersData sid _ s hs).2 sid (Or.inr (Or.inl rfl))]
        exact h
    | newPlayer d =>
      simp only [keepsSelfOut] at hst
      obtain ⟨k, hk⟩ := Option.isSome_iff_exists.mp hst
      simp only [handle, onNewPlayer]
      by_cases hself : d.id = s.socketId
      · simp only [hself, ne_eq, not_true_eq_false, if_false]
        exact ⟨hs, h⟩
      · simp only [hself, ne_eq, not_false_eq_true, if_true]
        refine ⟨hs, ?_⟩
        have hne : sid ≠ keyOf d.id := by
          intro e
          apply hself
          rw [hs, hk]
          rw [hk] at e
          simp only [keyOf] at e
          rw [e]
        rw [lookup_assign_ne _ sid _ _ hne]
        exact h
    | playerMoved j x y =>
      obtain ⟨s', hs', habs⟩ := step_keeps_absent rnd (Step.event (Event.playerMoved j x y))
        rfl sid s h
      cases hs'
      refine ⟨?_, habs⟩
      simp only [handle, onPlayerMoved]
      split
      · exact hs
      · split <;> exact hs
    | bombDropped d => exact ⟨hs, h⟩
    | playerHealthUpdate j health =>
      obtain ⟨s', hs', habs⟩ := step_keeps_absent rnd
        (Step.event (Event.playerHealthUpdate j health)) rfl sid s h
      cases hs'
      refine ⟨?_, habs⟩
      simp only [handle, onPlayerHealthUpdate]
      split
      · exact hs
      · split
        · exact hs
        · split <;> exact hs
    | playerDisconnected j =>
      obtain ⟨s', hs', habs⟩ := step_keeps_absent rnd
        (Step.event (Event.playerDisconnected j)) rfl sid s h
      cases hs'
      exact ⟨hs, habs⟩

theorem run_keeps_self_out (rnd : Nat → Fin 16) (sid : String) (steps : List Step) :
    ∀ s : State, (∀ st ∈ steps, keepsSelfOut st = true) → s.socketId = some sid →
      lookup sid s.remotePlayers = none →
      ∃ s', run rnd steps s = some s' ∧ s'.socketId = some sid ∧
        lookup sid s'.remotePlayers = none := by
  induction steps with
  | nil => exact fun s _ hs h => ⟨s, rfl, hs, h⟩
  | cons st rest ih =>
    intro s hall hs h
    obtain ⟨s1, h1, hs1, ha1⟩ :=
      step_keeps_self_out rnd sid st (hall st (List.mem_cons_self _ _)) s hs h
    obtain ⟨s2, h2, hs2, ha2⟩ :=
      ih s1 (fun x hx => hall x (List.mem_cons_of_mem _ hx)) hs1 ha1
    exact ⟨s2, by simp [run, h1, h2], hs2, ha2⟩

/-- C15: with the local id `sid` fixed after `connect` (no further `connect`), in
every state reached from an empty remote map by any sequence of `currentPlayers`,
`newPlayer` (each payload carrying an id), `playerMoved`, `playerHealthUpdate` and
`playerDisconnected` events (also `bombDropped` events and frames), `remotePlayers`
has no entry keyed by the local id; and a `newPlayer` event whose id equals the local
id leaves the whole state, so `remotePlayers`, unchanged. -/
theorem C15_no_remote_entry_for_self (rnd : Nat → Fin 16) (sid : String) (s : State)
    (hs : s.socketId = some sid) (hr : s.remotePlayers = []) (steps : List Step)
    (hsteps : ∀ st ∈ steps, keepsSelfOut st = true) :
    (∃ s', run rnd steps s = some s' ∧ s'.socketId = some sid ∧
      lookup sid s'.remotePlayers = none) ∧
    (∀ (t : State) (d : PlayerData), t.socketId = some sid → d.id = some sid →
      handle rnd (Event.newPlayer d) t = t) := by
  refine ⟨run_keeps_self_out rnd sid steps s hsteps hs (by rw [hr]; rfl), ?_⟩
  intro t d ht hd
  exact onNewPlayer_self rnd d t (by rw [hd, ht])

/-- C15 (witness): after `connect` with id `"self"`: a roster that contains the local
id, a self-echo `newPlayer`, another player, and a move addressed to the local id. -/
theorem C15_no_remote_entry_for_self_witness :
    (handle (fun _ => 0) (Event.connect "self") initialState).socketId = some "self" ∧
    (handle (fun _ => 0) (Event.connect "self") initialState).remotePlayers = [] ∧
    ∃ s', run (fun _ => 0)
        [Step.event (Event.currentPlayers exampleRoster),
          Step.event (Event.newPlayer { playerB with id := some "self" }),
          Step.event (Event.newPlayer playerB),
          Step.event (Event.playerMoved "self" 9 9)]
        (handle (fun _ => 0) (Event.connect "self") initialState) = some s' ∧
      s'.socketId = some "self" ∧ lookup "self" s'.remotePlayers = none :=
  ⟨rfl, rfl, (C15_no_remote_entry_for_self (fun _ => 0) "self"
    (handle (fun _ => 0) (Event.connect "self") initialState) rfl rfl _ (by decide)).1⟩

/-! ### Position and progress of a bomb -/

theorem onTrack_freshBomb (d : BombData) : onTrack (freshBomb d) := by
  unfold onTrack
  simp [freshBomb]

theorem onTrack_stepBomb (b : Bomb) (h : b.exploded = false) : onTrack (stepBomb b) := by
  obtain ⟨e1, e2, e3, e4, _⟩ := stepBomb_ends b
  unfold onTrack
  rw [stepBomb_exploded, stepBomb_x b h, stepBomb_y b h, stepBomb_progress b h, e1, e2, e3, e4]
  exact ⟨h, rfl, rfl⟩

theorem mem_survivors (b' : Bomb) (bs : List Bomb) (h : b' ∈ survivors bs) :
    ∃ b ∈ bs, b' = stepBomb b ∧ detonates (stepBomb b) = false := by
  unfold survivors at h
  rw [List.mem_filter] at h
  obtain ⟨hm, hd⟩ := h
  obtain ⟨b, hb, rfl⟩ := List.mem_map.mp hm
  exact ⟨b, hb, rfl, by simpa using hd⟩

/-- An inbound event leaves `bombs` alone or, for `bombDropped`, pushes the new
bomb at the end. -/
theorem handle_bombs (rnd : Nat → Fin 16) (e : Event) (s : State) :
    (handle rnd e s).bombs = s.bombs ∨
      ∃ d, e = Event.bombDropped d ∧ (handle rnd e s).bombs = s.bombs ++ [freshBomb d] := by
  cases e with
  | connect sid => exact Or.inl rfl
  | currentPlayers playersData =>
    left
    simp only [handle, onCurrentPlayers]
    generalize playersData.map Prod.fst = ks
    induction ks generalizing s with
    | nil => rfl
    | cons id rest ih =>
      rw [List.foldl_cons, ih]
      unfold currentPlayersBody
      split
      · rfl
      · split <;> rfl
  | newPlayer d =>
    left
    simp only [handle, onNewPlayer]
    split <;> rfl
  | playerMoved id x y =>
    left
    simp only [handle, onPlayerMoved]
    split
    · rfl
    · split <;> rfl
  | bombDropped d => exact Or.inr ⟨d, rfl, rfl⟩
  | playerHealthUpdate id health =>
    left
    simp only [handle, onPlayerHealthUpdate]
    split
    · rfl
    · split
      · rfl
      · split <;> rfl
  | playerDisconnected id => exact Or.inl rfl

theorem step_onTrack (rnd : Nat → Fin 16) (st : Step) (s : State)
    (h : ∀ b ∈ s.bombs, onTrack b) :
    ∃ s', step rnd st s = some s' ∧ ∀ b ∈ s'.bombs, onTrack b := by
  cases st with
  | tick keys =>
    obtain ⟨s', hs', _, _, _, hb, _⟩ := update_frame keys s
    refine ⟨s', hs', ?_⟩
    intro b' hb'
    rw [hb] at hb'
    obtain ⟨b, hbm, rfl, _⟩ := mem_survivors b' s.bombs hb'
    exact onTrack_stepBomb b (h b hbm).1
  | event e =>
    refine ⟨handle rnd e s, rfl, ?_⟩
    intro b hb
    rcases handle_bombs rnd e s with hsame | ⟨d, _, hpush⟩
    · rw [hsame] at hb
      exact h b hb
    · rw [hpush, List.mem_append, List.mem_singleton] at hb
      rcases hb with hb | rfl
      · exact h b hb
      · exact onTrack_freshBomb d

theorem run_onTrack (rnd : Nat → Fin 16) (steps : List Step) :
    ∀ s : State, (∀ b ∈ s.bombs, onTrack b) →
      ∃ s', run rnd steps s = some s' ∧ ∀ b ∈ s'.bombs, onTrack b := by
  induction steps with
  | nil => exact fun s h => ⟨s, rfl, h⟩
  | cons st rest ih =>
    intro s h
    obtain ⟨s1, h1, t1⟩ := step_onTrack rnd st s h
    obtain ⟨s2, h2, t2⟩ := ih s1 t1
    exact ⟨s2, by simp [run, h1, h2], t2⟩

/-- C16: in every state reachable from the initial module state, every bomb in
`bombs` is live and satisfies `x = startX + (targetX - startX) * e` and
`y = startY + (targetY - startY) * e` with `e = 1 - (1 - min(progress, 1))^3`; this
holds at creation by `bombDropped` (progress `0`, rotationAngle `0`, timeSinceThrow
`0`, exploded `false`, position = start) and is preserved by every `update()`, which
keeps bombs only as advanced by one loop body, leaving `startX`, `startY`,
`targetX`, `targetY` and `ownerId` unchanged. -/
theorem C16_position_is_eased_progress (rnd : Nat → Fin 16) (steps : List Step) :
    (∃ s, run rnd steps initialState = some s ∧
      ∀ b ∈ s.bombs, b.exploded = false ∧
        b.x = b.startX + (b.targetX - b.startX) * (1 - (1 - min b.progress 1) ^ 3) ∧
        b.y = b.startY + (b.targetY - b.startY) * (1 - (1 - min b.progress 1) ^ 3)) ∧
    (∀ (d : BombData) (t : State),
      (handle rnd (Event.bombDropped d) t).bombs = t.bombs ++ [freshBomb d] ∧
      (freshBomb d).progress = 0 ∧ (freshBomb d).rotationAngle = 0 ∧
      (freshBomb d).timeSinceThrow = 0 ∧ (freshBomb d).exploded = false ∧
      (freshBomb d).x = d.startX ∧ (freshBomb d).y = d.startY ∧
      (freshBomb d).startX = d.startX ∧ (freshBomb d).startY = d.startY ∧
      (freshBomb d).targetX = d.targetX ∧ (freshBomb d).targetY = d.targetY ∧
      onTrack (freshBomb d)) ∧
    (∀ (keys : Keys) (t : State), (∀ b ∈ t.bombs, onTrack b) →
      ∃ t', update keys t = some t' ∧ (∀ b' ∈ t'.bombs, onTrack b') ∧
        ∀ b' ∈ t'.bombs, ∃ b ∈ t.bombs, b' = stepBomb b ∧
          b'.startX = b.startX ∧ b'.startY = b.startY ∧ b'.targetX = b.targetX ∧
          b'.targetY = b.targetY ∧ b'.ownerId = b.ownerId) := by
  refine ⟨?_, ?_, ?_⟩
  · obtain ⟨s, hrun, ht⟩ := run_onTrack rnd steps initialState
      (fun b hb => absurd hb (List.not_mem_nil b))
    exact ⟨s, hrun, ht⟩
  · intro d t
    obtain ⟨f1, f2, f3, f4, f5, f6, f7, f8, f9, f10⟩ := freshBomb_facts d
    exact ⟨rfl, f2, f10, f3, f1, f8, f9, f4, f5, f6, f7, onTrack_freshBomb d⟩
  · intro keys t ht
    obtain ⟨t', h1, h2⟩ := step_onTrack rnd (Step.tick keys) t ht
    obtain ⟨t2, g1, _, _, _, gb, _⟩ := update_frame keys t
    have e : t' = t2 := Option.some.inj (h1.symm.trans g1)
    refine ⟨t', h1, h2, ?_⟩
    intro b' hb'
    rw [e, gb] at hb'
    obtain ⟨b, hbm, rfl, _⟩ := mem_survivors b' t.bombs hb'
    obtain ⟨e1, e2, e3, e4, e5⟩ := stepBomb_ends b
    exact ⟨b, hbm, rfl, e1, e2, e3, e4, e5⟩

/-- C16 (witness): the bomb thrown from `(0,0)` to `(200,0)`, two frames later. -/
theorem C16_position_is_eased_progress_witness :
    ∃ s b, run (fun _ => 0)
        [Step.event (Event.bombDropped (exampleThrow none)), Step.tick noKeys,
          Step.tick noKeys] initialState = some s ∧
      b ∈ s.bombs ∧ b.progress = 7 / 500 ∧ b.startX = 0 ∧ b.targetX = 200 ∧
      b.x = b.startX + (b.targetX - b.startX) * (1 - (1 - min b.progress 1) ^ 3) := by
  obtain ⟨s, hrun, ht⟩ := (C16_position_is_eased_progress (fun _ => 0)
    [Step.event (Event.bombDropped (exampleThrow none)), Step.tick noKeys,
      Step.tick noKeys]).1
  obtain ⟨sn, hrun', hb⟩ := fresh_flight (fun _ => 0) initialState (exampleThrow none)
    [noKeys, noKeys] (by simp)
  have e : s = sn := Option.some.inj (hrun.symm.trans hrun')
  obtain ⟨he, _⟩ := freshBomb_facts (exampleThrow none)
  obtain ⟨_, ip, _, i1, _, i3, _⟩ := iterate_stepBomb (freshBomb (exampleThrow none)) he 2
  have hmem : stepBomb^[2] (freshBomb (exampleThrow none)) ∈ s.bombs := by
    rw [e, hb]
    exact List.mem_append_right _ (List.mem_singleton.mpr rfl)
  refine ⟨s, _, hrun, hmem, ?_, ?_, ?_, (ht _ hmem).2.1⟩
  · rw [ip]
    norm_num [freshBomb]
  · rw [i1]
    rfl
  · rw [i3]
    rfl

/-! ### The easing function -/

theorem easeOutQuad_mono (a b : ℚ) (hab : a ≤ b) (hb : b ≤ 1) :
    easeOutQuad a ≤ easeOutQuad b := by
  unfold easeOutQuad
  have h0 : (0 : ℚ) ≤ 1 - b := by linarith
  have h1 : 1 - b ≤ 1 - a := by linarith
  have h3 := pow_le_pow_left₀ h0 h1 3
  linarith

theorem easeOutQuad_range (t : ℚ) (h0 : 0 ≤ t) (h1 : t ≤ 1) :
    0 ≤ easeOutQuad t ∧ easeOutQuad t ≤ 1 := by
  have hz : easeOutQuad 0 = 0 := by norm_num [easeOutQuad]
  have ho : easeOutQuad 1 = 1 := by norm_num [easeOutQuad]
  constructor
  · rw [← hz]
    exact easeOutQuad_mono 0 t h0 h1
  · rw [← ho]
    exact easeOutQuad_mono t 1 h1 (le_refl 1)

/-- A point `a + (b - a) * e` with `0 ≤ e ≤ 1` lies between `a` and `b`. -/
theorem between_lerp (a b e : ℚ) (h0 : 0 ≤ e) (h1 : e ≤ 1) : between a b (a + (b - a) * e) := by
  unfold between
  rcases le_total a b with hab | hab
  · rw [min_eq_left hab, max_eq_right hab]
    constructor
    · nlinarith
    · nlinarith
  · rw [min_eq_right hab, max_eq_left hab]
    constructor
    · nlinarith
    · nlinarith

/-- One loop body on a live bomb of non-negative progress: the new position is on the
segment and the eased fraction does not decrease. -/
theorem stepBomb_on_segment (b : Bomb) (h : b.exploded = false) (hp : 0 ≤ b.progress) :
    between b.startX b.targetX (stepBomb b).x ∧
      between b.startY b.targetY (stepBomb b).y ∧
      easeOutQuad (min b.progress 1) ≤ easeOutQuad (min (stepBomb b).progress 1) ∧
      0 ≤ (stepBomb b).progress := by
  have hm0 : (0 : ℚ) ≤ min (b.progress + 7 / 1000) 1 := le_min (by linarith) (by norm_num)
  have hm1 : min (b.progress + 7 / 1000) 1 ≤ 1 := min_le_right _ _
  obtain ⟨e0, e1⟩ := easeOutQuad_range _ hm0 hm1
  unfold easeOutQuad at e0 e1
  refine ⟨?_, ?_, ?_, ?_⟩
  · rw [stepBomb_x b h]
    exact between_lerp _ _ _ e0 e1
  · rw [stepBomb_y b h]
    exact between_lerp _ _ _ e0 e1
  · rw [stepBomb_progress b h]
    exact easeOutQuad_mono _ _ (min_le_min (by linarith) (le_refl 1)) hm1
  · rw [stepBomb_progress b h]
    linarith

/-- C18: `easeOutQuad(t) = 1 - (1 - t)^3` satisfies `easeOutQuad(0) = 0`,
`easeOutQuad(1) = 1`, is monotonically non-decreasing on `[0, 1]` and has values in
`[0, 1]` there; hence for every live bomb with `progress >= 0`, the position
recomputed by `update()` has `x` between `startX` and `targetX` and `y` between
`startY` and `targetY` (inclusive) and its eased fraction does not decrease in the
tick; `update()` returns and every bomb it keeps is such a recomputed bomb. -/
theorem C18_projectiles_stay_on_segment :
    easeOutQuad 0 = 0 ∧ easeOutQuad 1 = 1 ∧
    (∀ a b : ℚ, 0 ≤ a → a ≤ b → b ≤ 1 → easeOutQuad a ≤ easeOutQuad b) ∧
    (∀ t : ℚ, 0 ≤ t → t ≤ 1 → 0 ≤ easeOutQuad t ∧ easeOutQuad t ≤ 1) ∧
    (∀ b : Bomb, b.exploded = false → 0 ≤ b.progress →
      min b.startX b.targetX ≤ (stepBomb b).x ∧ (stepBomb b).x ≤ max b.startX b.targetX ∧
      min b.startY b.targetY ≤ (stepBomb b).y ∧ (stepBomb b).y ≤ max b.startY b.targetY ∧
      easeOutQuad (min b.progress 1) ≤ easeOutQuad (min (stepBomb b).progress 1)) ∧
    (∀ (keys : Keys) (s : State),
      (∀ b ∈ s.bombs, b.exploded = false ∧ 0 ≤ b.progress) →
      ∃ s', update keys s = some s' ∧
        ∀ b' ∈ s'.bombs, b'.exploded = false ∧ 0 ≤ b'.progress ∧
          min b'.startX b'.targetX ≤ b'.x ∧ b'.x ≤ max b'.startX b'.targetX ∧
          min b'.startY b'.targetY ≤ b'.y ∧ b'.y ≤ max b'.startY b'.targetY) := by
  refine ⟨by norm_num [easeOutQuad], by norm_num [easeOutQuad], ?_, ?_, ?_, ?_⟩
  · intro a b _ hab hb
    exact easeOutQuad_mono a b hab hb
  · exact easeOutQuad_range
  · intro b h hp
    obtain ⟨⟨x1, x2⟩, ⟨y1, y2⟩, he, _⟩ := stepBomb_on_segment b h hp
    exact ⟨x1, x2, y1, y2, he⟩
  · intro keys s hall
    obtain ⟨s', hs', _, _, _, hb, _⟩ := update_frame keys s
    refine ⟨s', hs', ?_⟩
    intro b' hb'
    rw [hb] at hb'
    obtain ⟨b, hbm, rfl, _⟩ := mem_survivors b' s.bombs hb'
    obtain ⟨hlive, hp⟩ := hall b hbm
    obtain ⟨⟨x1, x2⟩, ⟨y1, y2⟩, _, hp'⟩ := stepBomb_on_segment b hlive hp
    obtain ⟨e1, e2, e3, e4, _⟩ := stepBomb_ends b
    rw [stepBomb_exploded, e1, e2, e3, e4]
    exact ⟨hlive, hp', x1, x2, y1, y2⟩

/-- C18 (witness): the two bombs of `twoBombs`, one frame later. -/
theorem C18_projectiles_stay_on_segment_witness :
    (∀ b ∈ twoBombs.bombs, b.exploded = false ∧ 0 ≤ b.progress) ∧
    ∃ s', update noKeys twoBombs = some s' ∧
      ∀ b' ∈ s'.bombs, b'.exploded = false ∧ 0 ≤ b'.progress ∧
        min b'.startX b'.targetX ≤ b'.x ∧ b'.x ≤ max b'.startX b'.targetX ∧
        min b'.startY b'.targetY ≤ b'.y ∧ b'.y ≤ max b'.startY b'.targetY := by
  have hall : ∀ b ∈ twoBombs.bombs, b.exploded = false ∧ 0 ≤ b.progress := by
    intro b hb
    simp only [twoBombs, List.mem_cons, List.mem_singleton, List.not_mem_nil, or_false] at hb
    rcases hb with rfl | rfl
    · exact ⟨rfl, le_refl _⟩
    · exact ⟨rfl, by norm_num⟩
  exact ⟨hall, C18_projectiles_stay_on_segment.2.2.2.2.2 noKeys twoBombs hall⟩

/-! ### Emitted positions -/

theorem mem_moveMessage (x y lastX lastY a b : ℚ)
    (h : Output.playerMove a b ∈ moveMessage x y lastX lastY) : a = x ∧ b = y := by
  unfold moveMessage at h
  split at h
  · rw [List.mem_singleton] at h
    cases h
    exact ⟨rfl, rfl⟩
  · exact absurd h (List.not_mem_nil _)

theorem not_mem_booms (px py : ℚ) (bs : List Bomb) (a b : ℚ) :
    Output.playerMove a b ∉ booms px py bs := by
  unfold booms
  intro h
  obtain ⟨_, _, hb⟩ := List.mem_map.mp h
  cases hb

/-- C19: for every state (with `size <= worldSize - size`, as for the constant size
`20`) and key input, `update()` returns, and any `playerMove{x, y}` among the calls
it makes carries `x` and `y` in `[player.size, worldSize - player.size]`, whatever the
local position was before the tick; it is the post-clamp position of that tick. -/
theorem C19_emitted_positions_in_bounds (keys : Keys) (s : State)
    (hsize : s.player.size ≤ worldSize - s.player.size) :
    ∃ s' sent, update keys s = some s' ∧ s'.outbox = s.outbox ++ sent ∧
      ∀ x y, Output.playerMove x y ∈ sent →
        x = s'.player.x ∧ y = s'.player.y ∧
        s.player.size ≤ x ∧ x ≤ worldSize - s.player.size ∧
        s.player.size ≤ y ∧ y ≤ worldSize - s.player.size := by
  obtain ⟨s', h1, hp, _, _, ho⟩ := update_outbox keys s
  obtain ⟨b1, b2, b3, b4⟩ := movePlayer_bounds keys s hsize
  refine ⟨s', _, h1, ho, ?_⟩
  intro x y hmem
  rcases List.mem_append.mp hmem with hm | hm
  · obtain ⟨ex, ey⟩ := mem_moveMessage _ _ _ _ x y hm
    rw [ex, ey, hp]
    exact ⟨rfl, rfl, b1, b2, b3, b4⟩
  · exact absurd hm (not_mem_booms _ _ _ x y)

/-- C19 (witness): the first frame from the initial state, where the local player
starts at `(0, 0)`, outside the bounds: the message sent carries `(20, 20)`. -/
theorem C19_emitted_positions_in_bounds_witness :
    initialState.player.size ≤ worldSize - initialState.player.size ∧
    initialState.player.x = 0 ∧
    ∃ s' sent, update noKeys initialState = some s' ∧
      s'.outbox = initialState.outbox ++ sent ∧
      Output.playerMove 20 20 ∈ sent ∧
      (20 : ℚ) ≤ 20 ∧ (20 : ℚ) ≤ worldSize - initialState.player.size := by
  have hsize : initialState.player.size ≤ worldSize - initialState.player.size := by
    norm_num [initialState, worldSize]
  obtain ⟨s', sent, h1, h2, h3⟩ := C19_emitted_positions_in_bounds noKeys initialState hsize
  obtain ⟨t, g1, gp, _, _, go⟩ := update_outbox noKeys initialState
  have e : s' = t := Option.some.inj (h1.symm.trans g1)
  have hx : t.player.x = 20 := by
    rw [gp]
    simp only [movePlayer, noKeys, initialState, worldSize]
    norm_num
  have hy : t.player.y = 20 := by
    rw [gp]
    simp only [movePlayer, noKeys, initialState, worldSize]
    norm_num
  have hsent : sent = moveMessage t.player.x t.player.y initialState.lastSentPlayerX
      initialState.lastSentPlayerY ++ booms t.player.x t.player.y initialState.bombs := by
    rw [e, go] at h2
    exact (List.append_cancel_left h2).symm
  have hmem : Output.playerMove 20 20 ∈ sent := by
    rw [hsent, hx, hy]
    apply List.mem_append_left
    simp [moveMessage, initialState]
  obtain ⟨_, _, _, b2, _, _⟩ := h3 20 20 hmem
  exact ⟨hsize, rfl, s', sent, h1, h2, hmem, le_refl _, b2⟩

/-! ### Sound volume -/

theorem dist_nonneg (x1 y1 x2 y2 : ℝ) : 0 ≤ dist Real.sqrt x1 y1 x2 y2 :=
  Real.sqrt_nonneg _

theorem dist_eq_zero_iff (x1 y1 x2 y2 : ℝ) :
    dist Real.sqrt x1 y1 x2 y2 = 0 ↔ (x2 = x1 ∧ y2 = y1) := by
  unfold dist
  rw [Real.sqrt_eq_zero (by positivity)]
  constructor
  · intro h
    have hx : (x2 - x1) ^ 2 = 0 := by nlinarith [sq_nonneg (x2 - x1), sq_nonneg (y2 - y1)]
    have hy : (y2 - y1) ^ 2 = 0 := by nlinarith [sq_nonneg (x2 - x1), sq_nonneg (y2 - y1)]
    exact ⟨sub_eq_zero.mp (pow_eq_zero_iff (by norm_num) |>.mp hx),
      sub_eq_zero.mp (pow_eq_zero_iff (by norm_num) |>.mp hy)⟩
  · rintro ⟨rfl, rfl⟩
    simp

/-- The test on squares used for the spin rate agrees with the test on `dist`. -/
theorem distGreater_iff (x1 y1 x2 y2 r : ℚ) (hr : 0 ≤ r) :
    distGreater x1 y1 x2 y2 r = true ↔
      dist Real.sqrt (x1 : ℝ) (y1 : ℝ) (x2 : ℝ) (y2 : ℝ) > (r : ℝ) := by
  unfold distGreater dist
  rw [decide_eq_true_eq, gt_iff_lt, gt_iff_lt, Real.lt_sqrt (by exact_mod_cast hr)]
  constructor
  · intro h
    exact_mod_cast h
  · intro h
    exact_mod_cast h

/-- The volume as a function of the distance. -/
theorem soundVolume_facts (px py sx sy maxDistance : ℝ) (hmax : 0 < maxDistance) :
    0 ≤ soundVolume Real.sqrt px py sx sy maxDistance ∧
      soundVolume Real.sqrt px py sx sy maxDistance ≤ 1 ∧
      (soundVolume Real.sqrt px py sx sy maxDistance = 1 ↔ dist Real.sqrt px py sx sy = 0) ∧
      (soundVolume Real.sqrt px py sx sy maxDistance = 0 ↔
        dist Real.sqrt px py sx sy ≥ maxDistance) := by
  have hd := dist_nonneg px py sx sy
  have hq : 0 ≤ dist Real.sqrt px py sx sy / maxDistance := div_nonneg hd hmax.le
  unfold soundVolume
  refine ⟨le_max_left _ _, max_le zero_le_one (by linarith), ?_, ?_⟩
  · constructor
    · intro h
      rcases max_choice (0 : ℝ) (1 - dist Real.sqrt px py sx sy / maxDistance) with hc | hc
      · rw [hc] at h
        exact absurd h (by norm_num)
      · rw [hc] at h
        have hz : dist Real.sqrt px py sx sy / maxDistance = 0 := by linarith
        rcases div_eq_zero_iff.mp hz with h0 | h0
        · exact h0
        · exact absurd h0 hmax.ne'
    · intro h
      rw [h, zero_div, sub_zero]
      exact max_eq_right zero_le_one
  · constructor
    · intro h
      have hle : 1 - dist Real.sqrt px py sx sy / maxDistance ≤ 0 := by
        rw [← h]
        exact le_max_right _ _
      have h1 : 1 ≤ dist Real.sqrt px py sx sy / maxDistance := by linarith
      exact (one_le_div hmax).mp h1
    · intro h
      have h1 : 1 ≤ dist Real.sqrt px py sx sy / maxDistance := (one_le_div hmax).mpr h
      exact max_eq_left (by linarith)

/-- C20: for every local position, source position and `maxDistance > 0` (real
numbers, `Math.sqrt` the real square root), the volume computed by
`playSoundAtVolume` equals `max(0, 1 - dist(player, source) / maxDistance)` with
`dist` the Euclidean distance, and lies in `[0, 1]`; it is `1` exactly when the source
is at the local player's position, and `0` exactly when the distance is
`>= maxDistance`. -/
theorem C20_attenuated_volume_is_valid (px py sx sy maxDistance : ℝ)
    (hmax : 0 < maxDistance) :
    soundVolume Real.sqrt px py sx sy maxDistance =
        max 0 (1 - dist Real.sqrt px py sx sy / maxDistance) ∧
      dist Real.sqrt px py sx sy = Real.sqrt ((sx - px) ^ 2 + (sy - py) ^ 2) ∧
      0 ≤ soundVolume Real.sqrt px py sx sy maxDistance ∧
      soundVolume Real.sqrt px py sx sy maxDistance ≤ 1 ∧
      (soundVolume Real.sqrt px py sx sy maxDistance = 1 ↔ (sx = px ∧ sy = py)) ∧
      (dist Real.sqrt px py sx sy ≥ maxDistance →
        soundVolume Real.sqrt px py sx sy maxDistance = 0) ∧
      (soundVolume Real.sqrt px py sx sy maxDistance = 0 →
        dist Real.sqrt px py sx sy ≥ maxDistance) := by
  obtain ⟨h0, h1, hone, hzero⟩ := soundVolume_facts px py sx sy maxDistance hmax
  exact ⟨rfl, rfl, h0, h1, hone.trans (dist_eq_zero_iff px py sx sy), hzero.mpr, hzero.mp⟩

/-- C20 (witness): the local player at `(0, 0)`, a source at `(3, 4)` and
`maxDistance = 10`: the distance is `5` and the volume `1/2`. -/
theorem C20_attenuated_volume_is_valid_witness :
    (0 : ℝ) < 10 ∧ dist Real.sqrt (0 : ℝ) 0 3 4 = 5 ∧
    soundVolume Real.sqrt (0 : ℝ) 0 3 4 10 = 1 / 2 := by
  obtain ⟨hv, hd, _⟩ := C20_attenuated_volume_is_valid 0 0 3 4 10 (by norm_num)
  have h5 : dist Real.sqrt (0 : ℝ) 0 3 4 = 5 := by
    rw [hd, show ((3 : ℝ) - 0) ^ 2 + (4 - 0) ^ 2 = 5 ^ 2 by norm_num]
    exact Real.sqrt_sq (by norm_num)
  refine ⟨by norm_num, h5, ?_⟩
  rw [hv, h5]
  norm_num

/-! ## The frame update on doubles: closed forms -/

theorem survivorsDouble_append (pre suf : List Bomb) :
    survivorsDouble (pre ++ suf) = survivorsDouble pre ++ survivorsDouble suf := by
  simp [survivorsDouble]

theorem blastsDouble_append (pre suf : List Bomb) :
    blastsDouble (pre ++ suf) = blastsDouble suf ++ blastsDouble pre := by
  simp [blastsDouble]

theorem boomsDouble_append (px py : ℚ) (pre suf : List Bomb) :
    boomsDouble px py (pre ++ suf) = boomsDouble px py suf ++ boomsDouble px py pre := by
  simp [boomsDouble]

/-- The bomb loop on doubles started at index `pre.length - 1` on `pre ++ suf`
finishes, leaves `suf` alone and treats every bomb of `pre` exactly once. -/
theorem bombLoopDouble_append (pre : List Bomb) :
    ∀ (suf : List Bomb) (s : State), s.bombs = pre ++ suf →
      bombLoopDouble pre.length s = some { s with
        bombs := survivorsDouble pre ++ suf
        explosions := s.explosions ++ blastsDouble pre
        outbox := s.outbox ++ boomsDouble s.player.x s.player.y pre } := by
  induction pre using List.reverseRecOn with
  | nil =>
    intro suf s h
    cases s
    simp only at h
    simp [bombLoopDouble, survivorsDouble, blastsDouble, boomsDouble, h]
  | append_singleton init b ih =>
    intro suf s h
    have hb : s.bombs[init.length]? = some b := by
      rw [h, List.append_assoc]
      exact getElem?_at_length init b suf
    rw [List.length_append, List.length_singleton, bombLoopDouble, hb]
    cases hd : detonatesDouble (stepBombDouble b)
    · simp only [hd, Bool.false_eq_true, if_false]
      refine (ih (stepBombDouble b :: suf) _ ?_).trans ?_
      · show s.bombs.set init.length (stepBombDouble b) = init ++ stepBombDouble b :: suf
        rw [h, List.append_assoc, List.singleton_append, set_at_length]
      · simp [survivorsDouble_append, blastsDouble_append, boomsDouble_append,
          survivorsDouble, blastsDouble, boomsDouble, hd]
    · simp only [hd, if_true]
      refine (ih suf _ ?_).trans ?_
      · show (s.bombs.set init.length (stepBombDouble b)).eraseIdx init.length = init ++ suf
        rw [h, List.append_assoc, List.singleton_append, set_at_length, eraseIdx_at_length]
      · simp [playSoundAtVolume, survivorsDouble_append, blastsDouble_append,
          boomsDouble_append, survivorsDouble, blastsDouble, boomsDouble, hd]

theorem updateBombsDouble_eq (s : State) :
    updateBombsDouble s = some { s with
      bombs := survivorsDouble s.bombs
      explosions := s.explosions ++ blastsDouble s.bombs
      outbox := s.outbox ++ boomsDouble s.player.x s.player.y s.bombs } := by
  have h := bombLoopDouble_append s.bombs [] s (by simp)
  simpa [updateBombsDouble] using h

theorem explosionLoopDouble_append (pre : List Explosion) :
    ∀ suf : List Explosion,
      explosionLoopDouble pre.length (pre ++ suf) = some (grownDouble pre ++ suf) := by
  induction pre using List.reverseRecOn with
  | nil =>
    intro suf
    simp [explosionLoopDouble, grownDouble]
  | append_singleton init e ih =>
    intro suf
    have he : (init ++ [e] ++ suf)[init.length]? = some e := by
      rw [List.append_assoc]
      exact getElem?_at_length init e suf
    rw [List.length_append, List.length_singleton, explosionLoopDouble, he]
    by_cases hr : roundDouble (e.radius + e.expandSpeed) ≥ e.maxRadius
    · simp only [hr, if_true]
      rw [List.append_assoc, List.singleton_append, set_at_length, eraseIdx_at_length, ih suf]
      simp [grownDouble, hr]
    · simp only [hr, if_false]
      rw [List.append_assoc, List.singleton_append, set_at_length, ih]
      simp [grownDouble, not_le.mp hr]

theorem updateExplosionsDouble_eq (s : State) :
    updateExplosionsDouble s = some { s with explosions := grownDouble s.explosions } := by
  have h := explosionLoopDouble_append s.explosions []
  simp only [List.append_nil] at h
  simp [updateExplosionsDouble, h]

/-- Closed form of `updateDouble`: it always returns. -/
theorem updateDouble_eq (keys : Keys) (s : State) :
    updateDouble keys s =
      some { emitMove (updateCameraDouble (movePlayerDouble keys s)) with
        bombs := survivorsDouble s.bombs
        explosions := grownDouble (s.explosions ++ blastsDouble s.bombs)
        outbox := (emitMove (updateCameraDouble (movePlayerDouble keys s))).outbox ++
          boomsDouble (movePlayerDouble keys s).player.x (movePlayerDouble keys s).player.y
            s.bombs } := by
  have hb : (emitMove (updateCameraDouble (movePlayerDouble keys s))).bombs = s.bombs := by
    unfold emitMove
    split <;> rfl
  have he : (emitMove (updateCameraDouble (movePlayerDouble keys s))).explosions =
      s.explosions := by
    unfold emitMove
    split <;> rfl
  have hp : (emitMove (updateCameraDouble (movePlayerDouble keys s))).player =
      (movePlayerDouble keys s).player := by
    unfold emitMove
    split <;> rfl
  simp [updateDouble, updateBombsDouble_eq, updateExplosionsDouble_eq, hb, he, hp]

/-- One frame on doubles always returns; what it does to `bombs` and `explosions`. -/
theorem updateDouble_frame (keys : Keys) (s : State) :
    ∃ s', updateDouble keys s = some s' ∧ s'.bombs = survivorsDouble s.bombs ∧
      s'.explosions = grownDouble (s.explosions ++ blastsDouble s.bombs) :=
  ⟨_, updateDouble_eq keys s, rfl, rfl⟩

/-- Frames only, on doubles: the run does not fail and `bombs` is the iterated
closed form. -/
theorem runDouble_ticks (rnd : Nat → Fin 16) (ks : List Keys) :
    ∀ s : State, ∃ s', runDouble rnd (ks.map Step.tick) s = some s' ∧
      s'.bombs = survivorsDouble^[ks.length] s.bombs := by
  induction ks with
  | nil =>
    intro s
    exact ⟨s, rfl, rfl⟩
  | cons k rest ih =>
    intro s
    obtain ⟨s1, h1, hb1, _⟩ := updateDouble_frame k s
    obtain ⟨s', hrun, hb⟩ := ih s1
    refine ⟨s', ?_, ?_⟩
    · simp only [List.map_cons, runDouble, stepDouble, h1, Option.some_bind]
      exact hrun
    · rw [hb, hb1]
      simp [Function.iterate_succ_apply]

theorem survivorsDouble_iterate_append (n : Nat) :
    ∀ xs ys : List Bomb,
      survivorsDouble^[n] (xs ++ ys) = survivorsDouble^[n] xs ++ survivorsDouble^[n] ys := by
  induction n with
  | zero => exact fun _ _ => rfl
  | succ n ih =>
    intro xs ys
    rw [Function.iterate_succ_apply, Function.iterate_succ_apply, Function.iterate_succ_apply,
      survivorsDouble_append, ih]

theorem survivorsDouble_iterate_nil (n : Nat) : survivorsDouble^[n] [] = [] := by
  induction n with
  | zero => rfl
  | succ n ih =>
    rw [Function.iterate_succ_apply]
    exact ih

/-! ## Flight of a single bomb on doubles -/

theorem stepBombDouble_exploded (b : Bomb) : (stepBombDouble b).exploded = b.exploded := by
  cases h : b.exploded <;> simp [stepBombDouble, h]

theorem stepBombDouble_timeSinceThrow (b : Bomb) :
    (stepBombDouble b).timeSinceThrow = ageStep b.timeSinceThrow := by
  cases h : b.exploded <;> simp [stepBombDouble, h, ageStep]

theorem stepBombDouble_progress (b : Bomb) (h : b.exploded = false) :
    (stepBombDouble b).progress = progressStep b.progress := by
  simp [stepBombDouble, h, progressStep]

theorem stepBombDouble_position (b : Bomb) (h : b.exploded = false) :
    (stepBombDouble b).x =
        roundDouble (b.startX + roundDouble (roundDouble (b.targetX - b.startX) *
          easeOutQuadDouble (min (progressStep b.progress) 1))) ∧
      (stepBombDouble b).y =
        roundDouble (b.startY + roundDouble (roundDouble (b.targetY - b.startY) *
          easeOutQuadDouble (min (progressStep b.progress) 1))) := by
  simp [stepBombDouble, h, progressStep]

theorem stepBombDouble_ends (b : Bomb) :
    (stepBombDouble b).startX = b.startX ∧ (stepBombDouble b).startY = b.startY ∧
      (stepBombDouble b).targetX = b.targetX ∧ (stepBombDouble b).targetY = b.targetY ∧
      (stepBombDouble b).ownerId = b.ownerId := by
  cases h : b.exploded <;> simp [stepBombDouble, h]

/-- State of a live bomb after `n` frames on doubles that did not remove it. -/
theorem iterate_stepBombDouble (b : Bomb) (h : b.exploded = false) (n : Nat) :
    (stepBombDouble^[n] b).exploded = false ∧
      (stepBombDouble^[n] b).progress = progressStep^[n] b.progress ∧
      (stepBombDouble^[n] b).timeSinceThrow = ageStep^[n] b.timeSinceThrow ∧
      (stepBombDouble^[n] b).startX = b.startX ∧ (stepBombDouble^[n] b).startY = b.startY ∧
      (stepBombDouble^[n] b).targetX = b.targetX ∧
      (stepBombDouble^[n] b).targetY = b.targetY := by
  induction n with
  | zero => simp [h]
  | succ n ih =>
    obtain ⟨he, hp, ht, h1, h2, h3, h4⟩ := ih
    obtain ⟨e1, e2, e3, e4, _⟩ := stepBombDouble_ends (stepBombDouble^[n] b)
    rw [Function.iterate_succ_apply', Function.iterate_succ_apply',
      Function.iterate_succ_apply']
    refine ⟨?_, ?_, ?_, ?_, ?_, ?_, ?_⟩
    · rw [stepBombDouble_exploded, he]
    · rw [stepBombDouble_progress _ he, hp]
    · rw [stepBombDouble_timeSinceThrow, ht]
    · rw [e1, h1]
    · rw [e2, h2]
    · rw [e3, h3]
    · rw [e4, h4]

theorem detonatesDouble_iff (b : Bomb) (h : b.exploded = false) :
    detonatesDouble b = true ↔
      (b.progress ≥ roundDouble (7 / 10) ∨ b.timeSinceThrow ≥ 3 / 2) := by
  simp [detonatesDouble, h]

/-! ### The sums of `1 / 60` and of `0.007` in doubles -/

/-- The doubles nearest to `1 / 60`, `0.007` and `0.7`. -/
theorem double_constants :
    roundDouble (1 / 60) = 4803839602528529 / 288230376151711744 ∧
      roundDouble (7 / 1000) = 8070450532247929 / 1152921504606846976 ∧
      roundDouble (7 / 10) = 3152519739159347 / 4503599627370496 ∧
      roundDouble (3 / 2) = 3 / 2 := by
  decide!

/-- After up to 90 additions of `1 / 60` the sum is below `1.5`. -/
theorem age_below (n : Nat) (hn : n ≤ 90) : ageStep^[n] 0 < 3 / 2 := by
  have h : ∀ m, m ≤ 90 → ageStep^[m] 0 < 3 / 2 := by decide!
  exact h n hn

/-- After 90 additions of `1 / 60` the sum is `1.4999999999999996`, after 91 it is
`1.5166666666666662`. -/
theorem age_values :
    ageStep^[90] 0 = 3377699720527871 / 2251799813685248 ∧
      ageStep^[91] 0 = 3415229717422625 / 2251799813685248 := by
  decide!

/-- After up to 91 additions of `0.007` the sum is below the double `0.7`. -/
theorem progress_below (n : Nat) (hn : n ≤ 91) :
    progressStep^[n] 0 < roundDouble (7 / 10) := by
  have h : ∀ m, m ≤ 91 → progressStep^[m] 0 < roundDouble (7 / 10) := by decide!
  exact h n hn

/-- After 90 additions of `0.007` the sum is `0.6300000000000004`, after 91 it is
`0.6370000000000005`. -/
theorem progress_values :
    progressStep^[90] 0 = 5674535530486829 / 9007199254740992 ∧
      progressStep^[91] 0 = 11206222510293 / 17592186044416 := by
  decide!

/-- The eased value of the progress `0.6370000000000005` is `0.9521678530000002`;
the same double comes out if the value returned by `Math.pow` is up to two units in
the last place away from the double nearest to the cube. -/
theorem eased_value :
    easeOutQuadDouble (11206222510293 / 17592186044416) =
        2144091393982483 / 2251799813685248 ∧
      ∀ k : Nat, k ≤ 4 →
        roundDouble (1 - (roundDouble (roundDouble (1 - 11206222510293 / 17592186044416) ^ 3) +
          ((k : ℚ) - 2) / 2 ^ 57)) = 2144091393982483 / 2251799813685248 := by
  decide!

/-- The position on the 91st frame of a bomb thrown from `(0, 0)` towards
`(200, 0)`: `x = 190.43357060000002`, `y = 0`. -/
theorem position_200 :
    roundDouble (0 + roundDouble (roundDouble (200 - 0) *
        (2144091393982483 / 2251799813685248))) = 6700285606195259 / 35184372088832 ∧
      roundDouble (0 + roundDouble (roundDouble (0 - 0) *
        (2144091393982483 / 2251799813685248))) = 0 := by
  decide!

/-- A bomb thrown at progress `0` and age `0` is still in `bombs` after each of
its first 90 frames on doubles. -/
theorem survivorsDouble_iterate_fresh (b : Bomb) (h : b.exploded = false)
    (hp : b.progress = 0) (ht : b.timeSinceThrow = 0) (n : Nat) (hn : n ≤ 90) :
    survivorsDouble^[n] [b] = [stepBombDouble^[n] b] := by
  induction n with
  | zero => simp
  | succ n ih =>
    rw [Function.iterate_succ_apply', ih (by omega), Function.iterate_succ_apply']
    obtain ⟨he, hpn, htn, _⟩ := iterate_stepBombDouble b h (n + 1)
    rw [Function.iterate_succ_apply'] at he hpn htn
    have hd : detonatesDouble (stepBombDouble (stepBombDouble^[n] b)) = false := by
      rw [Bool.eq_false_iff]
      intro hdet
      rw [detonatesDouble_iff _ he, hpn, htn, hp, ht] at hdet
      rcases hdet with hdet | hdet
      · exact absurd hdet (not_le.mpr (progress_below (n + 1) (by omega)))
      · exact absurd hdet (not_le.mpr (age_below (n + 1) hn))
    simp [survivorsDouble, hd]

/-- A dropped bomb is the last element of `bombs` after `n ≤ 90` frames on doubles,
advanced `n` times; the bombs that were there before evolve on their own. -/
theorem freshDouble_flight (rnd : Nat → Fin 16) (s : State) (d : BombData)
    (ks : List Keys) (hk : ks.length ≤ 90) :
    ∃ sn, runDouble rnd (Step.event (Event.bombDropped d) :: ks.map Step.tick) s = some sn ∧
      sn.bombs = survivorsDouble^[ks.length] s.bombs ++
        [stepBombDouble^[ks.length] (freshBomb d)] := by
  obtain ⟨sn, hrun, hb⟩ := runDouble_ticks rnd ks (handle rnd (Event.bombDropped d) s)
  refine ⟨sn, ?_, ?_⟩
  · simp only [runDouble, stepDouble, Option.some_bind]
    exact hrun
  · obtain ⟨he, hp, ht, _⟩ := freshBomb_facts d
    rw [hb]
    simp only [handle, onBombDropped, playSoundAtVolume]
    rw [survivorsDouble_iterate_append, survivorsDouble_iterate_fresh _ he hp ht _ hk]

/-- The frame after `n` frames of a dropped bomb, when the age reaches `1.5` on it:
the bomb detonates, at the eased value of its progress. -/
theorem fresh_last_frame (d : BombData) (n : Nat) (A0 P A : ℚ)
    (hA0 : ageStep^[n] 0 = A0) (hP : progressStep^[n + 1] 0 = P)
    (hA : ageStep^[n + 1] 0 = A) (hA2 : 3 / 2 ≤ A) (hP1 : P ≤ 1) :
    (stepBombDouble^[n] (freshBomb d)).timeSinceThrow = A0 ∧
      (stepBombDouble (stepBombDouble^[n] (freshBomb d))).progress = P ∧
      (stepBombDouble (stepBombDouble^[n] (freshBomb d))).timeSinceThrow = A ∧
      detonatesDouble (stepBombDouble (stepBombDouble^[n] (freshBomb d))) = true ∧
      (stepBombDouble (stepBombDouble^[n] (freshBomb d))).x =
        roundDouble (d.startX + roundDouble (roundDouble (d.targetX - d.startX) *
          easeOutQuadDouble P)) ∧
      (stepBombDouble (stepBombDouble^[n] (freshBomb d))).y =
        roundDouble (d.startY + roundDouble (roundDouble (d.targetY - d.startY) *
          easeOutQuadDouble P)) := by
  obtain ⟨he, hp, ht, h1, h2, h3, h4, _⟩ := freshBomb_facts d
  obtain ⟨ie, ip, it, i1, i2, i3, i4⟩ := iterate_stepBombDouble (freshBomb d) he n
  have hP' : progressStep (progressStep^[n] 0) = P :=
    (Function.iterate_succ_apply' progressStep n 0).symm.trans hP
  have hA' : ageStep (ageStep^[n] 0) = A :=
    (Function.iterate_succ_apply' ageStep n 0).symm.trans hA
  have hprog : (stepBombDouble (stepBombDouble^[n] (freshBomb d))).progress = P := by
    rw [stepBombDouble_progress _ ie, ip, hp, hP']
  have htime : (stepBombDouble (stepBombDouble^[n] (freshBomb d))).timeSinceThrow = A := by
    rw [stepBombDouble_timeSinceThrow, it, ht, hA']
  obtain ⟨hx, hy⟩ := stepBombDouble_position _ ie
  rw [ip, hp, hP', min_eq_left hP1, i1, i3, h1, h3] at hx
  rw [ip, hp, hP', min_eq_left hP1, i2, i4, h2, h4] at hy
  refine ⟨?_, hprog, htime, ?_, hx, hy⟩
  · rw [it, ht, hA0]
  · rw [detonatesDouble_iff _ (by rw [stepBombDouble_exploded, ie]), htime]
    exact Or.inr hA2

/-- Flight and detonation on doubles of any dropped bomb, frame by frame. -/
theorem fuse_on_doubles (rnd : Nat → Fin 16) (s : State) (d : BombData) (ks : List Keys)
    (hk : ks.length = 90) (k : Keys) :
    (∀ n : Nat, n ≤ 90 → ∃ sn bn,
        runDouble rnd (Step.event (Event.bombDropped d) :: (ks.take n).map Step.tick) s =
          some sn ∧
        sn.bombs = survivorsDouble^[n] s.bombs ++ [bn] ∧
        bn.progress < roundDouble (7 / 10) ∧ bn.timeSinceThrow < 3 / 2) ∧
    ∃ s90 s91 b,
      runDouble rnd (Step.event (Event.bombDropped d) :: ks.map Step.tick) s = some s90 ∧
      s90.bombs = survivorsDouble^[90] s.bombs ++ [b] ∧
      b.timeSinceThrow = 3377699720527871 / 2251799813685248 ∧
      updateDouble k s90 = some s91 ∧
      (stepBombDouble b).timeSinceThrow = 3415229717422625 / 2251799813685248 ∧
      (stepBombDouble b).progress = 11206222510293 / 17592186044416 ∧
      s91.bombs = survivorsDouble^[91] s.bombs ∧
      s91.explosions = grownDouble (s90.explosions ++
        ({ x := roundDouble (d.startX + roundDouble (roundDouble (d.targetX - d.startX) *
             (2144091393982483 / 2251799813685248))),
           y := roundDouble (d.startY + roundDouble (roundDouble (d.targetY - d.startY) *
             (2144091393982483 / 2251799813685248))),
           radius := 0, maxRadius := 300, opacity := 1, expandSpeed := 20,
           fadeSpeed := roundDouble (3 / 50) } ::
          blastsDouble (survivorsDouble^[90] s.bombs))) := by
  constructor
  · intro n hn
    have hlen : (ks.take n).length = n := by
      rw [List.length_take, hk]
      omega
    obtain ⟨sn, hrun, hb⟩ := freshDouble_flight rnd s d (ks.take n) (by rw [hlen]; exact hn)
    rw [hlen] at hb
    obtain ⟨he, hp, ht, _⟩ := freshBomb_facts d
    obtain ⟨_, ip, it, _⟩ := iterate_stepBombDouble (freshBomb d) he n
    refine ⟨sn, _, hrun, hb, ?_, ?_⟩
    · rw [ip, hp]
      exact progress_below n (by omega)
    · rw [it, ht]
      exact age_below n hn
  · obtain ⟨s90, hrun, hb⟩ := freshDouble_flight rnd s d ks (by omega)
    rw [hk] at hb
    obtain ⟨hage, hprog, htime, hdet, hx, hy⟩ := fresh_last_frame d 90 _ _ _
      age_values.1 progress_values.2 age_values.2 (by norm_num) (by norm_num)
    rw [eased_value.1] at hx hy
    generalize stepBombDouble^[90] (freshBomb d) = b at hb hage hprog htime hdet hx hy
    obtain ⟨s91, h91, hbs, hes⟩ := updateDouble_frame k s90
    have hsucc : survivorsDouble^[91] s.bombs = survivorsDouble (survivorsDouble^[90] s.bombs) :=
      Function.iterate_succ_apply' survivorsDouble 90 s.bombs
    rw [hsucc]
    generalize survivorsDouble^[90] s.bombs = others at hb ⊢
    refine ⟨s90, s91, b, hrun, hb, hage, h91, htime, hprog, ?_, ?_⟩
    · rw [hbs, hb, survivorsDouble_append]
      simp [survivorsDouble, hdet]
    · have hone : blastsDouble [b] =
          [{ x := roundDouble (d.startX + roundDouble (roundDouble (d.targetX - d.startX) *
               (2144091393982483 / 2251799813685248))),
             y := roundDouble (d.startY + roundDouble (roundDouble (d.targetY - d.startY) *
               (2144091393982483 / 2251799813685248))),
             radius := 0, maxRadius := 300, opacity := 1, expandSpeed := 20,
             fadeSpeed := roundDouble (3 / 50) }] := by
        simp only [blastsDouble, List.reverse_singleton, List.map_cons, List.map_nil,
          List.filter_cons, hdet, if_true, List.filter_nil, newExplosionDouble, hx, hy]
      rw [hes, hb, blastsDouble_append, hone, List.singleton_append]

/-! ### The fuse on doubles -/

/-- C1 (as amended): on IEEE doubles, a projectile created by `bombDropped` with start
`(0,0)` and target `(200,0)` is the last element of `bombs` after each of its first
90 `update()` ticks, with progress below `0.7` and age below `1.5` (after 90 ticks the
age is `1.4999999999999996`; the bombs that were there before evolve on their own); on
the 91st tick its age becomes `1.5166666666666662 >= 1.5` while its progress is
`0.6370000000000005 < 0.7`, it is removed from `bombs` on that tick, and the explosion
pushed for it (the first one pushed on that tick) is centred at
`(190.43357060000002, 0)`, which is `200` times the eased value `0.9521678530000002`
of that progress. -/
theorem C1_fresh_bomb_detonates_on_tick_91 (rnd : Nat → Fin 16) (s : State)
    (ownerId : Option String) (ks : List Keys) (hk : ks.length = 90) (k : Keys) :
    (∀ n : Nat, n ≤ 90 → ∃ sn bn,
        runDouble rnd (Step.event (Event.bombDropped (exampleThrow ownerId)) ::
          (ks.take n).map Step.tick) s = some sn ∧
        sn.bombs = survivorsDouble^[n] s.bombs ++ [bn] ∧
        bn.progress < roundDouble (7 / 10) ∧ bn.timeSinceThrow < 3 / 2) ∧
    ∃ s90 s91 b,
      runDouble rnd (Step.event (Event.bombDropped (exampleThrow ownerId)) ::
        ks.map Step.tick) s = some s90 ∧
      s90.bombs = survivorsDouble^[90] s.bombs ++ [b] ∧
      b.timeSinceThrow = 3377699720527871 / 2251799813685248 ∧
      updateDouble k s90 = some s91 ∧
      (stepBombDouble b).timeSinceThrow = 3415229717422625 / 2251799813685248 ∧
      (stepBombDouble b).timeSinceThrow ≥ 3 / 2 ∧
      (stepBombDouble b).progress = 11206222510293 / 17592186044416 ∧
      (stepBombDouble b).progress < roundDouble (7 / 10) ∧
      easeOutQuadDouble (stepBombDouble b).progress = 2144091393982483 / 2251799813685248 ∧
      s91.bombs = survivorsDouble^[91] s.bombs ∧
      s91.explosions = grownDouble (s90.explosions ++
        ({ x := 6700285606195259 / 35184372088832, y := 0, radius := 0, maxRadius := 300,
           opacity := 1, expandSpeed := 20, fadeSpeed := roundDouble (3 / 50) } ::
          blastsDouble (survivorsDouble^[90] s.bombs))) ∧
      (1904335 / 10000 : ℚ) < 6700285606195259 / 35184372088832 ∧
      (6700285606195259 / 35184372088832 : ℚ) < 1904336 / 10000 := by
  obtain ⟨hflight, s90, s91, b, h1, h2, h3, h4, h5, h6, h7, h8⟩ :=
    fuse_on_doubles rnd s (exampleThrow ownerId) ks hk k
  refine ⟨hflight, s90, s91, b, h1, h2, h3, h4, h5, ?_, h6, ?_, ?_, h7, ?_, ?_, ?_⟩
  · rw [h5]
    norm_num
  · rw [h6, double_constants.2.2.1]
    norm_num
  · rw [h6]
    exact eased_value.1
  · rw [h8]
    simp only [exampleThrow, position_200.1, position_200.2]
  · norm_num
  · norm_num

/-- C1 (witness): the amended statement at the initial state, no key pressed. -/
theorem C1_fresh_bomb_detonates_on_tick_91_witness :
    (List.replicate 90 noKeys).length = 90 ∧
    ∃ s90 s91 b,
      runDouble (fun _ => 0) (Step.event (Event.bombDropped (exampleThrow none)) ::
        (List.replicate 90 noKeys).map Step.tick) initialState = some s90 ∧
      s90.bombs = survivorsDouble^[90] initialState.bombs ++ [b] ∧
      b.timeSinceThrow = 3377699720527871 / 2251799813685248 ∧
      updateDouble noKeys s90 = some s91 ∧
      (stepBombDouble b).timeSinceThrow = 3415229717422625 / 2251799813685248 ∧
      (stepBombDouble b).progress = 11206222510293 / 17592186044416 ∧
      s91.bombs = survivorsDouble^[91] initialState.bombs := by
  obtain ⟨_, s90, s91, b, h1, h2, h3, h4, h5, _, h6, _, _, h7, _⟩ :=
    C1_fresh_bomb_detonates_on_tick_91 (fun _ => 0) initialState none
      (List.replicate 90 noKeys) (by simp) noKeys
  exact ⟨by simp, s90, s91, b, h1, h2, h3, h4, h5, h6, h7⟩

/-- C1 (counterexample): from the initial state, the bomb thrown from `(0,0)` to
`(200,0)` is still in `bombs` after 90 frames and is removed by the 91st frame, on
which its progress `0.6370000000000005` is below `0.7`; the explosion pushed for it
has `x = 190.43357060000002`, which is not `194.6`. -/
theorem C1_counterexample :
    ∃ s90 s91 b e,
      runDouble (fun _ => 0) (Step.event (Event.bombDropped (exampleThrow none)) ::
        List.replicate 90 (Step.tick noKeys)) initialState = some s90 ∧
      s90.bombs = [b] ∧ updateDouble noKeys s90 = some s91 ∧ s91.bombs = [] ∧
      (stepBombDouble b).progress < roundDouble (7 / 10) ∧
      (stepBombDouble b).progress < 7 / 10 ∧
      s91.explosions = grownDouble (s90.explosions ++ [e]) ∧
      e.x = 6700285606195259 / 35184372088832 ∧ e.y = 0 ∧ e.x < 191 ∧ e.x ≠ 973 / 5 := by
  obtain ⟨_, s90, s91, b, h1, h2, _, h4, _, h6, h7, h8⟩ :=
    fuse_on_doubles (fun _ => 0) initialState (exampleThrow none)
      (List.replicate 90 noKeys) (by simp) noKeys
  rw [List.map_replicate] at h1
  have hnil : survivorsDouble^[90] initialState.bombs = [] := survivorsDouble_iterate_nil 90
  have hnil' : survivorsDouble^[91] initialState.bombs = [] := survivorsDouble_iterate_nil 91
  rw [hnil, List.nil_append] at h2
  rw [hnil'] at h7
  rw [hnil] at h8
  refine ⟨s90, s91, b, _, h1, h2, h4, h7, ?_, ?_, h8, ?_, ?_, ?_, ?_⟩
  · rw [h6, double_constants.2.2.1]
    norm_num
  · rw [h6]
    norm_num
  · simp only [exampleThrow]
    exact position_200.1
  · simp only [exampleThrow]
    exact position_200.2
  · simp only [exampleThrow, position_200.1]
    norm_num
  · simp only [exampleThrow, position_200.1]
    norm_num

/-- C17 (as amended): on IEEE doubles, every bomb created by `bombDropped` (any start,
target and owner, whatever else is in `bombs`) survives each of its first 90
`update()` ticks, with progress below `0.7` and age below `1.5` (the sum of 90 times
`1 / 60` is `1.4999999999999996`), and is removed on exactly its 91st tick, when
`timeSinceThrow = 1.5166666666666662` and `progress = 0.6370000000000005`; so the age
test is the one that fires, never the test `progress >= 0.7`, and the explosion is
centred at the eased fraction `0.9521678530000002` of the way from start to target. -/
theorem C17_fixed_ninety_one_tick_fuse (rnd : Nat → Fin 16) (s : State) (d : BombData)
    (ks : List Keys) (hk : ks.length = 90) (k : Keys) :
    (∀ n : Nat, n ≤ 90 → ∃ sn bn,
        runDouble rnd (Step.event (Event.bombDropped d) :: (ks.take n).map Step.tick) s =
          some sn ∧
        sn.bombs = survivorsDouble^[n] s.bombs ++ [bn] ∧
        bn.progress < roundDouble (7 / 10) ∧ bn.timeSinceThrow < 3 / 2) ∧
    ∃ s90 s91 b,
      runDouble rnd (Step.event (Event.bombDropped d) :: ks.map Step.tick) s = some s90 ∧
      s90.bombs = survivorsDouble^[90] s.bombs ++ [b] ∧
      b.timeSinceThrow = 3377699720527871 / 2251799813685248 ∧
      updateDouble k s90 = some s91 ∧
      (stepBombDouble b).timeSinceThrow = 3415229717422625 / 2251799813685248 ∧
      (stepBombDouble b).progress = 11206222510293 / 17592186044416 ∧
      ¬ (stepBombDouble b).progress ≥ roundDouble (7 / 10) ∧
      (stepBombDouble b).timeSinceThrow ≥ 3 / 2 ∧
      easeOutQuadDouble (stepBombDouble b).progress = 2144091393982483 / 2251799813685248 ∧
      s91.bombs = survivorsDouble^[91] s.bombs ∧
      s91.explosions = grownDouble (s90.explosions ++
        ({ x := roundDouble (d.startX + roundDouble (roundDouble (d.targetX - d.startX) *
             (2144091393982483 / 2251799813685248))),
           y := roundDouble (d.startY + roundDouble (roundDouble (d.targetY - d.startY) *
             (2144091393982483 / 2251799813685248))),
           radius := 0, maxRadius := 300, opacity := 1, expandSpeed := 20,
           fadeSpeed := roundDouble (3 / 50) } ::
          blastsDouble (survivorsDouble^[90] s.bombs))) := by
  obtain ⟨hflight, s90, s91, b, h1, h2, h3, h4, h5, h6, h7, h8⟩ :=
    fuse_on_doubles rnd s d ks hk k
  refine ⟨hflight, s90, s91, b, h1, h2, h3, h4, h5, h6, ?_, ?_, ?_, h7, h8⟩
  · rw [h6, double_constants.2.2.1]
    norm_num
  · rw [h5]
    norm_num
  · rw [h6]
    exact eased_value.1

/-- C17 (witness): a bomb thrown from `(10, 20)` to `(-300, 40)` in the state
`twoBombs`, with 90 frames without keys and a 91st with left pressed. -/
theorem C17_fixed_ninety_one_tick_fuse_witness :
    (List.replicate 90 noKeys).length = 90 ∧
    ∃ s90 s91 b,
      runDouble (fun _ => 0)
        (Step.event (Event.bombDropped
          { startX := 10, startY := 20, targetX := -300, targetY := 40, ownerId := some "B" })
          :: (List.replicate 90 noKeys).map Step.tick) twoBombs = some s90 ∧
      s90.bombs = survivorsDouble^[90] twoBombs.bombs ++ [b] ∧
      updateDouble leftOnly s90 = some s91 ∧
      (stepBombDouble b).timeSinceThrow = 3415229717422625 / 2251799813685248 ∧
      (stepBombDouble b).progress = 11206222510293 / 17592186044416 ∧
      s91.bombs = survivorsDouble^[91] twoBombs.bombs := by
  obtain ⟨_, s90, s91, b, h1, h2, _, h4, h5, h6, _, _, _, h7, _⟩ :=
    C17_fixed_ninety_one_tick_fuse (fun _ => 0) twoBombs
      { startX := 10, startY := 20, targetX := -300, targetY := 40, ownerId := some "B" }
      (List.replicate 90 noKeys) (by simp) leftOnly
  exact ⟨by simp, s90, s91, b, h1, h2, h4, h5, h6, h7⟩

/-- C17 (counterexample): on doubles, the bomb thrown from `(0,0)` to `(200,0)` in the
initial state is still in `bombs` after its 90th frame: its age is then
`1.4999999999999996`, below `1.5`, and its progress `0.6300000000000004`. -/
theorem C17_counterexample :
    ∃ s90 b,
      runDouble (fun _ => 0) (Step.event (Event.bombDropped (exampleThrow none)) ::
        List.replicate 90 (Step.tick noKeys)) initialState = some s90 ∧
      s90.bombs = [b] ∧ b.timeSinceThrow = 3377699720527871 / 2251799813685248 ∧
      b.timeSinceThrow < 3 / 2 ∧ b.timeSinceThrow ≠ 90 / 60 ∧
      b.progress = 5674535530486829 / 9007199254740992 ∧ b.progress ≠ 63 / 100 := by
  obtain ⟨s90, hrun, hb⟩ := freshDouble_flight (fun _ => 0) initialState (exampleThrow none)
    (List.replicate 90 noKeys) (by simp)
  rw [List.map_replicate] at hrun
  rw [List.length_replicate] at hb
  have hnil : survivorsDouble^[90] initialState.bombs = [] := survivorsDouble_iterate_nil 90
  rw [hnil, List.nil_append] at hb
  obtain ⟨he, hp, ht, _⟩ := freshBomb_facts (exampleThrow none)
  obtain ⟨_, ip, it, _⟩ := iterate_stepBombDouble (freshBomb (exampleThrow none)) he 90
  rw [hp, progress_values.1] at ip
  rw [ht, age_values.1] at it
  generalize stepBombDouble^[90] (freshBomb (exampleThrow none)) = b at hb ip it
  refine ⟨s90, b, hrun, hb, it, ?_, ?_, ip, ?_⟩
  · rw [it]
    norm_num
  · rw [it]
    norm_num
  · rw [ip]
    norm_num

end BombsRoyal
